import Mathlib

/-!
# Verification of the `pk` Perkeep marshaling codec

A shallow embedding of the `pk` package: `Encoder.Encode` (encode.go),
`Decoder.Decode` with its intermediate-struct reconstruction (decode.go),
`parseTag` (tags.go), and the content-addressed blob-store collaborator
(modelled from the spec, since the store is an external dependency).

Modelling conventions:
* Go machine integers are `Int`/`Nat` with explicit width bounds.
* `strconv.FormatInt/FormatUint/ParseInt/ParseUint` are modelled by
  concrete base-10 rendering and parsing functions below.
* JSON documents are modelled structurally (`Jval`); a stored blob is
  either a raw byte string or a JSON document together with the exact
  rendering `encoding/json` would produce for it (sorted object keys for
  Go maps, a trailing newline from `json.Encoder.Encode`).
* A `blob.Ref` is content-derived, collision-free and names exactly one
  blob, so we model the ref of a blob as the blob itself (an injective
  stand-in for the content hash).
* Fallible Go code returns `Except Err`.
* Floating-point kinds are outside the model.
-/

namespace Pk

/-- Error taxonomy of the package: `ErrNotPointer`, `ErrNilPointer`,
`ErrUnsupportedType`, store fetch failure, `io.EOF` from JSON decoding
an empty input, numeric parse failure (`strconv`), and JSON shape/type
mismatch errors. -/
inductive Err where
  | notPointer
  | nilPointer
  | unsupportedType (name : String)
  | fetchFailed
  | eof
  | parseFailure
  | typeMismatch
  deriving DecidableEq, Repr

/-! ## Base-10 rendering and parsing (model of `strconv`) -/

/-- The character for decimal digit `d`. -/
def digitChar (d : Nat) : Char := Char.ofNat (48 + d)

/-- Inverse of `digitChar` on `'0'..'9'`. -/
def charDigit (c : Char) : Option Nat :=
  if 48 ≤ c.toNat ∧ c.toNat ≤ 57 then some (c.toNat - 48) else none

/-- Decimal digits of `n`, most significant first (model of the digit
loop inside `strconv.FormatUint`). -/
def formatNatL (n : Nat) : List Char :=
  if h : n < 10 then [digitChar n]
  else formatNatL (n / 10) ++ [digitChar (n % 10)]
  decreasing_by exact Nat.div_lt_self (by omega) (by omega)

/-- Left fold of `ParseUint`: accumulate decimal digits. -/
def parseNatCore : List Char → Nat → Option Nat
  | [], acc => some acc
  | c :: cs, acc =>
    match charDigit c with
    | some d => parseNatCore cs (acc * 10 + d)
    | none => none

/-- Model of `strconv.ParseUint(s, 10, 64)` without the width check:
nonempty all-digit strings only. -/
def parseNatL (cs : List Char) : Option Nat :=
  if cs.isEmpty then none else parseNatCore cs 0

/-- Model of `strconv.FormatUint(n, 10)`. -/
def formatNat (n : Nat) : String := ⟨formatNatL n⟩

/-- Model of `strconv.FormatInt(n, 10)`. -/
def formatInt (n : Int) : String :=
  if n < 0 then "-" ++ formatNat n.natAbs else formatNat n.toNat

/-- Sign handling of `strconv.ParseInt` (base 10). -/
def parseIntL (cs : List Char) : Option Int :=
  match cs with
  | [] => none
  | c :: rest =>
    if c = '-' then (parseNatL rest).map (fun n => -(Int.ofNat n))
    else if c = '+' then (parseNatL rest).map Int.ofNat
    else (parseNatL (c :: rest)).map Int.ofNat

/-- Model of `strconv.ParseInt(s, 10, bits)`: parse then range-check
against the signed width. -/
def parseIntB (bits : Nat) (s : String) : Except Err Int :=
  match parseIntL s.data with
  | none => .error .parseFailure
  | some n =>
    if -(2 ^ (bits - 1) : Int) ≤ n ∧ n < (2 ^ (bits - 1) : Int) then .ok n
    else .error .parseFailure

/-- Model of `strconv.ParseUint(s, 10, bits)`. -/
def parseUintB (bits : Nat) (s : String) : Except Err Nat :=
  match parseNatL s.data with
  | none => .error .parseFailure
  | some n => if n < 2 ^ bits then .ok n else .error .parseFailure

theorem charDigit_digitChar {d : Nat} (h : d < 10) :
    charDigit (digitChar d) = some d := by
  interval_cases d <;> decide

theorem parseNatCore_append (xs ys : List Char) (acc : Nat) :
    parseNatCore (xs ++ ys) acc =
      match parseNatCore xs acc with
      | some a => parseNatCore ys a
      | none => none := by
  induction xs generalizing acc with
  | nil => simp [parseNatCore]
  | cons c cs ih =>
    simp only [List.cons_append, parseNatCore]
    cases charDigit c with
    | some d => exact ih _
    | none => rfl

theorem formatNatL_ne_nil (n : Nat) : formatNatL n ≠ [] := by
  rw [formatNatL]
  split
  · simp
  · simp

theorem parseNatCore_formatNatL (n : Nat) :
    parseNatCore (formatNatL n) 0 = some n := by
  induction n using Nat.strong_induction_on with
  | _ n ih =>
    rw [formatNatL]
    split
    · next h =>
      simp [parseNatCore, charDigit_digitChar h]
    · next h =>
      rw [parseNatCore_append]
      rw [ih (n / 10) (Nat.div_lt_self (by omega) (by omega))]
      simp [parseNatCore, charDigit_digitChar (Nat.mod_lt n (by omega))]
      omega

theorem data_formatNat (n : Nat) : (formatNat n).data = formatNatL n := rfl

theorem parseNat_formatNat (n : Nat) :
    parseNatL (formatNat n).data = some n := by
  rw [data_formatNat]
  unfold parseNatL
  have hemp : (formatNatL n).isEmpty = false := by
    cases h : formatNatL n with
    | nil => exact absurd h (formatNatL_ne_nil n)
    | cons a l => rfl
  rw [hemp]
  simp only [Bool.false_eq_true, if_false]
  exact parseNatCore_formatNatL n

theorem digitChar_bounds {d : Nat} (h : d < 10) :
    48 ≤ (digitChar d).toNat ∧ (digitChar d).toNat ≤ 57 := by
  interval_cases d <;> decide

/-- Digits of a natural never start with a sign character. -/
theorem formatNatL_head_digit (n : Nat) :
    ∀ c cs, formatNatL n = c :: cs → 48 ≤ c.toNat ∧ c.toNat ≤ 57 := by
  induction n using Nat.strong_induction_on with
  | _ n ih =>
    intro c cs h
    rw [formatNatL] at h
    split at h
    · next hlt =>
      rw [List.cons.injEq] at h
      rw [← h.1]
      exact digitChar_bounds hlt
    · next hge =>
      cases hh : formatNatL (n / 10) with
      | nil => exact absurd hh (formatNatL_ne_nil _)
      | cons chead ctail =>
        rw [hh, List.cons_append, List.cons.injEq] at h
        rw [← h.1]
        exact ih (n / 10) (Nat.div_lt_self (by omega) (by omega)) chead ctail hh

theorem parseIntL_formatNat (m : Nat) :
    parseIntL (formatNat m).data = some (m : Int) := by
  have hd := parseNat_formatNat m
  cases hh : (formatNat m).data with
  | nil =>
    rw [hh] at hd
    simp [parseNatL] at hd
  | cons c cs =>
    have hdig := formatNatL_head_digit m c cs (by rw [← data_formatNat]; exact hh)
    have hc1 : c ≠ '-' := by
      intro hc; rw [hc] at hdig; exact absurd hdig (by decide)
    have hc2 : c ≠ '+' := by
      intro hc; rw [hc] at hdig; exact absurd hdig (by decide)
    rw [hh] at hd
    simp [parseIntL, hc1, hc2, hd]

theorem parseIntB_formatInt (bits : Nat) (n : Int)
    (hlo : -(2 ^ (bits - 1) : Int) ≤ n) (hhi : n < (2 ^ (bits - 1) : Int)) :
    parseIntB bits (formatInt n) = .ok n := by
  unfold parseIntB formatInt
  by_cases hneg : n < 0
  · rw [if_pos hneg]
    have hdata : ("-" ++ formatNat n.natAbs).data = '-' :: (formatNat n.natAbs).data := by
      rw [String.data_append]
      rfl
    rw [hdata]
    have hval : parseIntL ('-' :: (formatNat n.natAbs).data) = some (-(Int.ofNat n.natAbs)) := by
      simp [parseIntL, parseNat_formatNat]
    rw [hval]
    have heq : -(Int.ofNat n.natAbs) = n := by
      rw [Int.ofNat_eq_natCast]
      omega
    rw [heq]
    exact if_pos ⟨hlo, hhi⟩
  · rw [if_neg hneg]
    rw [parseIntL_formatNat n.toNat]
    have heq : ((n.toNat : Int)) = n := by omega
    rw [heq]
    exact if_pos ⟨hlo, hhi⟩

theorem parseUintB_formatNat (bits : Nat) (n : Nat) (h : n < 2 ^ bits) :
    parseUintB bits (formatNat n) = .ok n := by
  unfold parseUintB
  rw [parseNat_formatNat]
  simp [h]

/-! ## JSON documents and blobs

`encoding/json` is modelled structurally: `Jval` is the JSON document a
blob holds, and `jser` is the exact canonical rendering `json.Encoder`
would produce (object keys of Go maps are emitted sorted, which is why
the encoder below sorts them before building a `jobj`; `SetEscapeHTML`
defaults to false here as in `NewEncoder`). A stored blob is either a
raw byte string (booleans, numbers, text) or a JSON document.

A `blob.Ref` is content-derived and names exactly one blob, so we model
a ref as the blob it names; `jref` is a JSON string holding a ref's
canonical text (`blob.Ref` marshals to its text form, and unmarshals
only from a well-formed ref string — never from ordinary literal text,
which `jstr` represents). -/

mutual

inductive Blob where
  | raw (s : String)
  | json (j : Jval)

inductive Jval where
  | null
  | jbool (b : Bool)
  | jnum (s : String)
  | jstr (s : String)
  | jref (r : Blob)
  | jarr (xs : List Jval)
  | jobj (kvs : List (String × Jval))

end

/-- Hexadecimal digit character. -/
def hexChar (d : Nat) : Char :=
  if d < 10 then digitChar d else Char.ofNat (87 + d)

/-- JSON string escaping as `encoding/json` performs it with HTML
escaping disabled. -/
def escChar (c : Char) : String :=
  if c = '"' then "\\\""
  else if c = '\\' then "\\\\"
  else if c = '\n' then "\\n"
  else if c = '\r' then "\\r"
  else if c = '\t' then "\\t"
  else if c.toNat < 32 then
    "\\u00" ++ String.singleton (hexChar (c.toNat / 16)) ++ String.singleton (hexChar (c.toNat % 16))
  else String.singleton c

def escString (s : String) : String :=
  s.data.foldl (fun acc c => acc ++ escChar c) ""

def quoteString (s : String) : String := "\"" ++ escString s ++ "\""

/-- Join rendered items with commas. -/
def commaJoin : List String → String
  | [] => ""
  | [x] => x
  | x :: rest => x ++ "," ++ commaJoin rest

mutual

/-- The compact rendering `encoding/json` produces for a document. -/
def jser : Jval → String
  | .null => "null"
  | .jbool true => "true"
  | .jbool false => "false"
  | .jnum s => s
  | .jstr s => quoteString s
  | .jref r => quoteString (refText r)
  | .jarr xs => "[" ++ commaJoin (jserList xs) ++ "]"
  | .jobj kvs => "\x7b" ++ commaJoin (jserObj kvs) ++ "\x7d"

/-- The canonical text of a ref (opaque to this package; the store
derives it from the named blob's content). -/
def refText : Blob → String
  | .raw s => "ref-" ++ s
  | .json j => "ref-" ++ jser j

def jserList : List Jval → List String
  | [] => []
  | x :: rest => jser x :: jserList rest

def jserObj : List (String × Jval) → List String
  | [] => []
  | (k, v) :: rest => (quoteString k ++ ":" ++ jser v) :: jserObj rest

end

/-- The byte content of a blob (a JSON document's bytes are its
rendering plus the trailing newline `json.Encoder.Encode` appends). -/
def blobBytes : Blob → String
  | .raw s => s
  | .json j => jser j ++ "\n"

mutual

/-- Structural (boolean) equality of blobs. -/
def beqBlob : Blob → Blob → Bool
  | .raw a, .raw b => a == b
  | .json x, .json y => beqJval x y
  | _, _ => false

def beqJval : Jval → Jval → Bool
  | .null, .null => true
  | .jbool a, .jbool b => a == b
  | .jnum a, .jnum b => a == b
  | .jstr a, .jstr b => a == b
  | .jref a, .jref b => beqBlob a b
  | .jarr xs, .jarr ys => beqJvalList xs ys
  | .jobj xs, .jobj ys => beqJvalObj xs ys
  | _, _ => false

def beqJvalList : List Jval → List Jval → Bool
  | [], [] => true
  | x :: xs, y :: ys => beqJval x y && beqJvalList xs ys
  | _, _ => false

def beqJvalObj : List (String × Jval) → List (String × Jval) → Bool
  | [], [] => true
  | (k1, x) :: xs, (k2, y) :: ys => k1 == k2 && beqJval x y && beqJvalObj xs ys
  | _, _ => false

end

mutual

theorem beqBlob_iff : ∀ a b : Blob, beqBlob a b = true ↔ a = b
  | .raw a, .raw b => by simp [beqBlob]
  | .raw _, .json _ => by simp [beqBlob]
  | .json _, .raw _ => by simp [beqBlob]
  | .json x, .json y => by simp [beqBlob, beqJval_iff x y]

theorem beqJval_iff : ∀ a b : Jval, beqJval a b = true ↔ a = b
  | .null, b => by cases b <;> simp [beqJval]
  | .jbool a, b => by cases b <;> simp [beqJval]
  | .jnum a, b => by cases b <;> simp [beqJval]
  | .jstr a, b => by cases b <;> simp [beqJval]
  | .jref a, b => by
    cases b <;> simp [beqJval]
    exact beqBlob_iff a _
  | .jarr xs, b => by
    cases b <;> simp [beqJval]
    exact beqJvalList_iff xs _
  | .jobj xs, b => by
    cases b <;> simp [beqJval]
    exact beqJvalObj_iff xs _

theorem beqJvalList_iff : ∀ a b : List Jval, beqJvalList a b = true ↔ a = b
  | [], [] => by simp [beqJvalList]
  | [], _ :: _ => by simp [beqJvalList]
  | _ :: _, [] => by simp [beqJvalList]
  | x :: xs, y :: ys => by
    simp [beqJvalList, beqJval_iff x y, beqJvalList_iff xs ys]

theorem beqJvalObj_iff : ∀ a b : List (String × Jval), beqJvalObj a b = true ↔ a = b
  | [], [] => by simp [beqJvalObj]
  | [], _ :: _ => by simp [beqJvalObj]
  | _ :: _, [] => by simp [beqJvalObj]
  | (k1, x) :: xs, (k2, y) :: ys => by
    simp [beqJvalObj, beqJval_iff x y, beqJvalObj_iff xs ys, Prod.ext_iff]

end

instance : DecidableEq Blob := fun a b => decidable_of_iff _ (beqBlob_iff a b)

instance : DecidableEq Jval := fun a b => decidable_of_iff _ (beqJval_iff a b)

/-! ## The blob store collaborator

Modelled from the spec: the store is an external collaborator providing
`Put(bytes) -> Ref` (content-addressed, deterministic, idempotent) and
`Fetch(Ref)` returning the exact bytes stored (§6). A ref names exactly
one blob, so a `Ref` is modelled as the blob itself, and the store as
the set (list modulo duplicates) of blobs received so far. -/

abbrev Ref := Blob

abbrev Store := List Blob

/-- Is the blob present in the store? -/
def hasBlob (s : Store) (b : Blob) : Bool :=
  s.any (fun b2 => beqBlob b2 b)

/-- Model of `blobserver.ReceiveString`/`Put`: content-addressed,
idempotent storage. Storing identical bytes twice returns the same Ref
and performs no duplicate write. -/
def receiveBlob (b : Blob) (s : Store) : Ref × Store :=
  (b, if hasBlob s b then s else b :: s)

/-- Model of `blob.Fetcher.Fetch`: the exact blob previously stored
under the ref, or a not-found error. -/
def fetchBlob (ref : Ref) (s : Store) : Except Err Blob :=
  if hasBlob s ref then .ok ref else .error .fetchFailed

/-! ## The value model

Go values and their reflected types, restricted to the kinds the codec
supports (floating-point kinds are outside this model). A slice or map
value carries a nilness flag (`isNil = true` is Go's nil slice/map, with
no elements); map keys are strings. A struct type lists its fields in
declaration order as `(goName, pk-tag?, type)` triples. -/

inductive Ty where
  | tbool
  | tint (bits : Nat)
  | tuint (bits : Nat)
  | tstr
  | tslice (elem : Ty)
  | tarray (n : Nat) (elem : Ty)
  | tmap (elem : Ty)
  | tptr (elem : Ty)
  | tstruct (fields : List (String × Option String × Ty))

/-- A struct field: Go name, optional `pk` struct tag, field type. -/
abbrev Fld := String × Option String × Ty

abbrev fldName (f : Fld) : String := f.1
abbrev fldTag (f : Fld) : Option String := f.2.1
abbrev fldTy (f : Fld) : Ty := f.2.2

inductive Value where
  | vbool (b : Bool)
  | vint (n : Int)
  | vuint (n : Nat)
  | vstr (s : String)
  | vslice (isNil : Bool) (xs : List Value)
  | varr (xs : List Value)
  | vmap (isNil : Bool) (kvs : List (String × Value))
  | vptr (p : Option Value)
  | vstruct (fieldVals : List Value)

mutual

/-- The zero value of a type (`reflect.Zero`). -/
def zeroVal : Ty → Value
  | .tbool => .vbool false
  | .tint _ => .vint 0
  | .tuint _ => .vuint 0
  | .tstr => .vstr ""
  | .tslice _ => .vslice true []
  | .tarray n t => .varr (List.replicate n (zeroVal t))
  | .tmap _ => .vmap true []
  | .tptr _ => .vptr none
  | .tstruct fs => .vstruct (zeroFields fs)

def zeroFields : List Fld → List Value
  | [] => []
  | f :: fs => zeroVal (fldTy f) :: zeroFields fs

end

mutual

/-- Model of `reflect.Value.IsZero`. -/
def isZeroV : Value → Bool
  | .vbool b => !b
  | .vint n => n == 0
  | .vuint n => n == 0
  | .vstr s => s == ""
  | .vslice isNil _ => isNil
  | .varr xs => isZeroList xs
  | .vmap isNil _ => isNil
  | .vptr p => p.isNone
  | .vstruct vs => isZeroList vs

def isZeroList : List Value → Bool
  | [] => true
  | v :: vs => isZeroV v && isZeroList vs

end

mutual

/-- The value is a well-formed inhabitant of the type (what Go's static
typing guarantees for a `reflect.Value` of that type): nil containers
are empty, array lengths match, struct fields line up. -/
def hasTy : Ty → Value → Bool
  | .tbool, .vbool _ => true
  | .tint _, .vint _ => true
  | .tuint _, .vuint _ => true
  | .tstr, .vstr _ => true
  | .tslice t, .vslice isNil xs => (!isNil || xs.isEmpty) && hasTyList t xs
  | .tarray n t, .varr xs => xs.length == n && hasTyList t xs
  | .tmap t, .vmap isNil kvs => (!isNil || kvs.isEmpty) && hasTyVals t kvs
  | .tptr _, .vptr none => true
  | .tptr t, .vptr (some w) => hasTy t w
  | .tstruct fs, .vstruct vs => hasTyFields fs vs
  | _, _ => false

def hasTyList : Ty → List Value → Bool
  | _, [] => true
  | t, v :: vs => hasTy t v && hasTyList t vs

def hasTyVals : Ty → List (String × Value) → Bool
  | _, [] => true
  | t, (_, v) :: kvs => hasTy t v && hasTyVals t kvs

def hasTyFields : List Fld → List Value → Bool
  | [], [] => true
  | f :: fs, v :: vs => hasTy (fldTy f) v && hasTyFields fs vs
  | _, _ => false

end

/-! ## Field tags (tags.go) -/

/-- Per-field options parsed from the `pk` struct tag. -/
structure options where
  inline : Bool := false
  external : Bool := false
  omitEmpty : Bool := false
  «omit» : Bool := false

/-- Model of `parseTag`: tag syntax inspired by `encoding/json`.
`pk:"-"` omits the field; `pk:"name,option,option"` renames and sets
options `inline`, `external`, `omitempty`; unknown options are ignored. -/
def parseTag (f : Fld) : String × options :=
  match fldTag f with
  | none => (fldName f, {})
  | some t =>
    if t = "" then (fldName f, {})
    else if t = "-" then (fldName f, { «omit» := true })
    else
      let items := t.splitOn ","
      let name := if items.headD "" ≠ "" then items.headD "" else fldName f
      let o := items.tail.foldl
        (fun (o : options) item =>
          if item = "inline" then { o with inline := true }
          else if item = "external" then { o with external := true }
          else if item = "omitempty" then { o with omitEmpty := true }
          else o)
        {}
      (name, o)

/-! ## Association-list helpers

Go maps are modelled as association lists; `encoding/json` renders a Go
map with its keys sorted, and assigning to a map key replaces any prior
entry. `sortByKey` performs both at once (later entries win, as for
repeated `m[k] = v` assignments). -/

def lookupKey (k : String) : List (String × α) → Option α
  | [] => none
  | (k2, v) :: rest => if k2 = k then some v else lookupKey k rest

def insertSorted (k : String) (v : α) : List (String × α) → List (String × α)
  | [] => [(k, v)]
  | (k2, v2) :: rest =>
    if k < k2 then (k, v) :: (k2, v2) :: rest
    else if k = k2 then (k, v) :: rest
    else (k2, v2) :: insertSorted k v rest

def sortByKey (l : List (String × α)) : List (String × α) :=
  l.foldl (fun acc kv => insertSorted kv.1 kv.2 acc) []

/-- Assignment `m[k] = v` to a Go map, preserving entry positions:
replace the entry in place, or append when the key is absent. -/
def setKey (k : String) (v : α) : List (String × α) → List (String × α)
  | [] => [(k, v)]
  | (k2, v2) :: rest => if k2 = k then (k, v) :: rest else (k2, v2) :: setKey k v rest

/-! ## `encoding/json` marshaling of a Go value

Used by the encoder for `inline` struct fields, whose value is placed
into the `map[string]interface{}` and serialized by `encoding/json`
directly: struct fields appear under their Go names in declaration
order (`pk` tags are invisible to `encoding/json`), nil slices, nil
maps and nil pointers render as `null`, and map keys are sorted. -/

mutual

def jencode : Ty → Value → Jval
  | .tbool, .vbool b => .jbool b
  | .tint _, .vint n => .jnum (formatInt n)
  | .tuint _, .vuint n => .jnum (formatNat n)
  | .tstr, .vstr s => .jstr s
  | .tslice t, .vslice isNil xs => if isNil then .null else .jarr (jencodeList t xs)
  | .tarray _ t, .varr xs => .jarr (jencodeList t xs)
  | .tmap t, .vmap isNil kvs =>
    if isNil then .null else .jobj (sortByKey (jencodeVals t kvs))
  | .tptr _, .vptr none => .null
  | .tptr t, .vptr (some w) => jencode t w
  | .tstruct fs, .vstruct vs => .jobj (jencodeFields fs vs)
  | _, _ => .null

def jencodeList : Ty → List Value → List Jval
  | _, [] => []
  | t, v :: vs => jencode t v :: jencodeList t vs

def jencodeVals : Ty → List (String × Value) → List (String × Jval)
  | _, [] => []
  | t, (k, v) :: kvs => (k, jencode t v) :: jencodeVals t kvs

def jencodeFields : List Fld → List Value → List (String × Jval)
  | [], _ => []
  | _, [] => []
  | f :: fs, v :: vs => (fldName f, jencode (fldTy f) v) :: jencodeFields fs vs

end

/-! ## The Encoder (encode.go)

`Encoder.Encode` walks the value by reflected kind. No value in this
universe implements the custom `Marshaler` capability, so the initial
`obj.(Marshaler)` check never fires here. The final catch-all arm of
the Go switch returns `ErrUnsupportedType`; a type/value mismatch is
impossible for reflected Go values and is mapped to an unreachable
`typeMismatch` error. -/

/-- Store a blob and return its ref (`blobserver.ReceiveString`). -/
def recvOk (b : Blob) (s : Store) : (Except Err Ref) × Store :=
  let (r, s2) := receiveBlob b s
  (.ok r, s2)

/-- What `json.Encoder` emits for the `[]blob.Ref` built by
`encodeSliceOrArray`: that slice starts nil and only `append` makes it
non-nil, so zero elements serialize as `null`, not `[]`. -/
def refsArrJval (refs : List Ref) : Jval :=
  match refs with
  | [] => .null
  | _ => .jarr (refs.map .jref)

mutual

/-- Model of `Encoder.Encode`: returns the root ref and the store after
all writes (on error, the blobs stored before the failure remain). -/
def Encode : Ty → Value → Store → (Except Err Ref) × Store
  -- Dereference pointers, pointers to pointers, etc.
  | .tptr t, .vptr (some w), s => Encode t w s
  -- A nil pointer exits the dereference loop at kind Ptr and falls to
  -- the default arm: ErrUnsupportedType{Name: t.Name()} where the
  -- unnamed pointer type has Name() == "".
  | .tptr _, .vptr none, s => (.error (.unsupportedType ""), s)
  -- Nil maps and slices store the empty blob.
  | .tslice _, .vslice true _, s => recvOk (.raw "") s
  | .tmap _, .vmap true _, s => recvOk (.raw "") s
  -- The empty blob is false, all other blobs are true.
  | .tbool, .vbool b, s => recvOk (.raw (if b then "true" else "")) s
  | .tint _, .vint n, s => recvOk (.raw (formatInt n)) s
  | .tuint _, .vuint n, s => recvOk (.raw (formatNat n)) s
  | .tslice t, .vslice _ xs, s =>
    match encodeSliceOrArray t xs s with
    | (.error e, s2) => (.error e, s2)
    | (.ok refs, s2) => recvOk (.json (refsArrJval refs)) s2
  | .tarray _ t, .varr xs, s =>
    match encodeSliceOrArray t xs s with
    | (.error e, s2) => (.error e, s2)
    | (.ok refs, s2) => recvOk (.json (refsArrJval refs)) s2
  -- Keys are not blobrefs; the key→ref map serializes with sorted keys.
  | .tmap t, .vmap _ kvs, s =>
    match encodeMap t kvs s with
    | (.error e, s2) => (.error e, s2)
    | (.ok pairs, s2) =>
      recvOk (.json (.jobj (sortByKey (pairs.map (fun p => (p.1, Jval.jref p.2)))))) s2
  | .tstr, .vstr str, s => recvOk (.raw str) s
  | .tstruct fs, .vstruct vs, s =>
    match encodeStructFields fs vs s with
    | (.error e, s2) => (.error e, s2)
    | (.ok m, s2) => recvOk (.json (.jobj (sortByKey m))) s2
  | _, _, s => (.error .typeMismatch, s)

/-- Model of `Encoder.encodeSliceOrArray`: encode each element to a ref,
in order. -/
def encodeSliceOrArray (t : Ty) : List Value → Store → (Except Err (List Ref)) × Store
  | [], s => (.ok [], s)
  | v :: vs, s =>
    match Encode t v s with
    | (.error e, s2) => (.error e, s2)
    | (.ok r, s2) =>
      match encodeSliceOrArray t vs s2 with
      | (.error e, s3) => (.error e, s3)
      | (.ok rs, s3) => (.ok (r :: rs), s3)

/-- Model of `Encoder.encodeMap`: encode each value to a ref; keys are
left untouched. -/
def encodeMap (t : Ty) : List (String × Value) → Store → (Except Err (List (String × Ref))) × Store
  | [], s => (.ok [], s)
  | (k, v) :: kvs, s =>
    match Encode t v s with
    | (.error e, s2) => (.error e, s2)
    | (.ok r, s2) =>
      match encodeMap t kvs s2 with
      | (.error e, s3) => (.error e, s3)
      | (.ok rs, s3) => (.ok ((k, r) :: rs), s3)

/-- The struct-field loop of `Encoder.Encode`: build the
`map[string]interface{}` entries in declaration order. -/
def encodeStructFields : List Fld → List Value → Store → (Except Err (List (String × Jval))) × Store
  | [], [], s => (.ok [], s)
  | f :: fs, v :: vs, s =>
    let p := parseTag f
    if p.2.«omit» then encodeStructFields fs vs s
    else if p.2.omitEmpty && isZeroV v then encodeStructFields fs vs s
    else
      match encodeStructField1 f v s with
      | (.error e, s2) => (.error e, s2)
      | (.ok jv, s2) =>
        match encodeStructFields fs vs s2 with
        | (.error e, s3) => (.error e, s3)
        | (.ok m, s3) => (.ok ((p.1, jv) :: m), s3)
  | _, _, s => (.error .typeMismatch, s)

/-- One non-skipped struct field's entry: an inline literal, an embedded
ref list/object for non-external containers, or a single ref. -/
def encodeStructField1 (f : Fld) (v : Value) (s : Store) : (Except Err Jval) × Store :=
  let p := parseTag f
  if p.2.inline then (.ok (jencode (fldTy f) v), s)
  else if p.2.external then
    match Encode (fldTy f) v s with
    | (.error e, s2) => (.error e, s2)
    | (.ok r, s2) => (.ok (.jref r), s2)
  else
    match fldTy f with
    | .tslice t =>
      match v with
      | .vslice _ xs =>
        match encodeSliceOrArray t xs s with
        | (.error e, s2) => (.error e, s2)
        | (.ok refs, s2) => (.ok (refsArrJval refs), s2)
      | _ => (.error .typeMismatch, s)
    | .tarray _ t =>
      match v with
      | .varr xs =>
        match encodeSliceOrArray t xs s with
        | (.error e, s2) => (.error e, s2)
        | (.ok refs, s2) => (.ok (refsArrJval refs), s2)
      | _ => (.error .typeMismatch, s)
    | .tmap t =>
      match v with
      | .vmap _ kvs =>
        match encodeMap t kvs s with
        | (.error e, s2) => (.error e, s2)
        | (.ok pairs, s2) =>
          (.ok (.jobj (sortByKey (pairs.map (fun q => (q.1, Jval.jref q.2))))), s2)
      | _ => (.error .typeMismatch, s)
    | ft =>
      match Encode ft v s with
      | (.error e, s2) => (.error e, s2)
      | (.ok r, s2) => (.ok (.jref r), s2)

end

/-! ## The Decoder (decode.go)

`Decoder.Decode` fetches the blob at the ref and dispatches on the
destination's kind. The struct case first constructs an intermediate
struct type mirroring the destination's fields, JSON-decodes the blob
into it, and only then assigns into the destination field by field.

Raw byte blobs are structurally distinct from JSON documents in this
model; JSON-decoding a raw blob yields `io.EOF` for the empty blob
(exactly as `json.Decoder.Decode` does on empty input) and a parse
failure otherwise (no raw blob decoded as a container in the verified
claims holds JSON text). -/

/-- The intermediate field types used by the struct case of `Decode`. -/
inductive ITy where
  | iorig (t : Ty)
  | isliceRef
  | imapRef
  | irefTy

/-- From `Decode`'s struct case: the intermediate struct keeps the
original type for skipped and inline fields; non-external slice *and
array* fields become `[]blob.Ref` (sic, not `ArrayOf`), non-external
map fields become `map[K]blob.Ref`; every other field becomes one
`blob.Ref` slot. -/
def intermediateFieldTy (f : Fld) : ITy :=
  let p := parseTag f
  if p.2.«omit» || p.2.inline then .iorig (fldTy f)
  else if !p.2.external then
    match fldTy f with
    | .tslice _ => .isliceRef
    | .tarray _ _ => .isliceRef
    | .tmap _ => .imapRef
    | _ => .irefTy
  else .irefTy

/-- A parsed intermediate field value. `iref1 none` is the zero
`blob.Ref` left by an absent key. -/
inductive IVal where
  | ival (v : Value)
  | irefs (rs : List Ref)
  | irefmap (kvs : List (String × Ref))
  | iref1 (r : Option Ref)

/-! `encoding/json` unmarshaling into a freshly allocated destination of
a known type (used for inline intermediate fields): `null` is a no-op,
leaving the fresh zero value; arrays zero-fill missing slots and ignore
excess; object keys match struct fields by Go field name. -/

mutual

def jdecode : Ty → Jval → Except Err Value
  | t, .null => .ok (zeroVal t)
  | .tbool, .jbool b => .ok (.vbool b)
  | .tint bits, .jnum s => (parseIntB bits s).map .vint
  | .tuint bits, .jnum s => (parseUintB bits s).map .vuint
  | .tstr, .jstr s => .ok (.vstr s)
  | .tslice t, .jarr xs => (jdecodeList t xs).map (.vslice false)
  | .tarray n t, .jarr xs => (jdecodeArrElems t n xs).map .varr
  | .tmap t, .jobj kvs => (jdecodeVals t kvs).map (.vmap false)
  | .tstruct fs, .jobj kvs => (jdecodeFields fs kvs).map .vstruct
  | .tptr t, j => (jdecode t j).map (fun w => .vptr (some w))
  | _, _ => .error .typeMismatch
termination_by t _ => (sizeOf t, 0)

def jdecodeList : Ty → List Jval → Except Err (List Value)
  | _, [] => .ok []
  | t, j :: js =>
    match jdecode t j with
    | .error e => .error e
    | .ok v =>
      match jdecodeList t js with
      | .error e => .error e
      | .ok vs => .ok (v :: vs)
termination_by t js => (sizeOf t, sizeOf js)

/-- Unmarshaling a JSON array into a Go array of length `n`: fill up to
`n` slots, zero any slots past the document's length, drop excess
elements. -/
def jdecodeArrElems : Ty → Nat → List Jval → Except Err (List Value)
  | _, 0, _ => .ok []
  | t, n2 + 1, [] => .ok (List.replicate (n2 + 1) (zeroVal t))
  | t, n2 + 1, j :: js =>
    match jdecode t j with
    | .error e => .error e
    | .ok v =>
      match jdecodeArrElems t n2 js with
      | .error e => .error e
      | .ok vs => .ok (v :: vs)
termination_by t _ js => (sizeOf t, sizeOf js)

def jdecodeVals : Ty → List (String × Jval) → Except Err (List (String × Value))
  | _, [] => .ok []
  | t, (k, j) :: kjs =>
    match jdecode t j with
    | .error e => .error e
    | .ok v =>
      match jdecodeVals t kjs with
      | .error e => .error e
      | .ok vs => .ok ((k, v) :: vs)
termination_by t kjs => (sizeOf t, sizeOf kjs)

def jdecodeFields : List Fld → List (String × Jval) → Except Err (List Value)
  | [], _ => .ok []
  | (nm, tg, ft) :: fs, kvs =>
    match (match lookupKey nm kvs with
           | none => (.ok (zeroVal ft) : Except Err Value)
           | some j => jdecode ft j) with
    | .error e => .error e
    | .ok v =>
      match jdecodeFields fs kvs with
      | .error e => .error e
      | .ok vs => .ok (v :: vs)
termination_by fs _ => (sizeOf fs, 0)

end

/-- Each element of a JSON ref list must be a string holding a ref
(`blob.Ref` fails to unmarshal from anything else). -/
def refListOf : List Jval → Except Err (List Ref)
  | [] => .ok []
  | .jref r :: rest => (refListOf rest).map (r :: ·)
  | _ :: _ => .error .typeMismatch

def refMapOf : List (String × Jval) → Except Err (List (String × Ref))
  | [] => .ok []
  | (k, .jref r) :: rest => (refMapOf rest).map ((k, r) :: ·)
  | _ :: _ => .error .typeMismatch

/-- JSON-decode a fetched blob as `[]blob.Ref` (the slice and array
destination cases): empty input is `io.EOF`, JSON `null` leaves the nil
slice, and a JSON array must hold ref strings. -/
def refsOfBlob : Blob → Except Err (List Ref)
  | .raw s => if s = "" then .error .eof else .error .parseFailure
  | .json .null => .ok []
  | .json (.jarr xs) => refListOf xs
  | .json _ => .error .typeMismatch

/-- JSON-decode a fetched blob as `map[K]blob.Ref` (the map destination
case). -/
def refMapOfBlob : Blob → Except Err (List (String × Ref))
  | .raw s => if s = "" then .error .eof else .error .parseFailure
  | .json .null => .ok []
  | .json (.jobj kvs) => refMapOf kvs
  | .json _ => .error .typeMismatch

/-- JSON-decode a fetched blob as an object (the struct destination
case; `null` is a no-op into the intermediate struct pointer, which
behaves like an object with no keys). -/
def objOfBlob : Blob → Except Err (List (String × Jval))
  | .raw s => if s = "" then .error .eof else .error .parseFailure
  | .json .null => .ok []
  | .json (.jobj kvs) => .ok kvs
  | .json _ => .error .typeMismatch

/-- Parse one intermediate struct field from the blob's object: the
slot named by the field's stored name, with the shape given by
`intermediateFieldTy`; an absent key leaves the slot's zero value. -/
def parseIField (f : Fld) (kvs : List (String × Jval)) : Except Err IVal :=
  let name := (parseTag f).1
  match intermediateFieldTy f with
  | .iorig t =>
    match lookupKey name kvs with
    | none => .ok (.ival (zeroVal t))
    | some j => (jdecode t j).map .ival
  | .isliceRef =>
    match lookupKey name kvs with
    | none => .ok (.irefs [])
    | some .null => .ok (.irefs [])
    | some (.jarr xs) => (refListOf xs).map .irefs
    | some _ => .error .typeMismatch
  | .imapRef =>
    match lookupKey name kvs with
    | none => .ok (.irefmap [])
    | some .null => .ok (.irefmap [])
    | some (.jobj kvs2) => (refMapOf kvs2).map .irefmap
    | some _ => .error .typeMismatch
  | .irefTy =>
    match lookupKey name kvs with
    | none => .ok (.iref1 none)
    | some (.jref r) => .ok (.iref1 (some r))
    | some _ => .error .typeMismatch

/-- JSON-decode the blob's object into the whole intermediate struct. -/
def parseIntermediate : List Fld → List (String × Jval) → Except Err (List IVal)
  | [], _ => .ok []
  | f :: fs, kvs =>
    match parseIField f kvs with
    | .error e => .error e
    | .ok iv =>
      match parseIntermediate fs kvs with
      | .error e => .error e
      | .ok ivs => .ok (iv :: ivs)

/-- Is the field type a slice, array or map (the kinds the struct
decode/encode paths embed as containers of refs when not external)? -/
def isContainerTy : Ty → Bool
  | .tslice _ => true
  | .tarray _ _ => true
  | .tmap _ => true
  | _ => false

/-- The nilness of a slice destination's current value. -/
def sliceIsNil : Value → Bool
  | .vslice isNil _ => isNil
  | _ => true

/-- The entries of a map destination's current value. -/
def mapEntries : Value → List (String × Value)
  | .vmap isNil kvs => if isNil then [] else kvs
  | _ => []

/-- The field values of a struct destination's current value. -/
def structFieldVals : Value → List Value
  | .vstruct vs => vs
  | _ => []

mutual

/-- Model of `Decoder.Decode` for a typed non-nil pointer destination
`obj *T`: `t` is `T`, `old` the current `*obj`, and the result the new
`*obj`. (The `Unmarshaler` check and the not-a-pointer / nil-pointer
validation live in `DecodeObj` below; a typed `*T` destination passes
both.) -/
def Decode (t : Ty) (ref : Ref) (old : Value) (s : Store) : Except Err Value :=
  match fetchBlob ref s with
  | .error e => .error e
  | .ok b =>
    match t with
    -- The empty blob is false, all other blobs are true (by size).
    | .tbool => .ok (.vbool (decide (0 < (blobBytes b).length)))
    | .tint bits => (parseIntB bits (blobBytes b)).map .vint
    | .tuint bits => (parseUintB bits (blobBytes b)).map .vuint
    | .tstr => .ok (.vstr (blobBytes b))
    | .tarray n et =>
      match refsOfBlob b with
      | .error e => .error e
      | .ok refs => (buildArrayElems et n refs s).map .varr
    | .tslice et =>
      match refsOfBlob b with
      | .error e => .error e
      | .ok refs =>
        (buildSliceElems et refs s).map
          (fun vs => .vslice (sliceIsNil old && refs.isEmpty) vs)
    | .tmap et =>
      match refMapOfBlob b with
      | .error e => .error e
      | .ok refsMap => (buildMapEntries et (mapEntries old) refsMap s).map (.vmap false)
    | .tstruct fs =>
      match objOfBlob b with
      | .error e => .error e
      | .ok kvs =>
        match parseIntermediate fs kvs with
        | .error e => .error e
        | .ok ivals => (decodeFields fs ivals (structFieldVals old) s).map .vstruct
    -- A nil pointer destination is first bound to a fresh zero value,
    -- then decoding recurses into the pointee from the same ref.
    | .tptr et =>
      (Decode et ref (match old with | .vptr (some w) => w | _ => zeroVal et) s).map
        (fun w => .vptr (some w))
termination_by (sizeOf t, 0, 0)

/-- Model of `Decoder.buildSlice`'s element loop: `SetLen(0)` dropped
the old elements; each ref decodes into a fresh zero element. -/
def buildSliceElems (et : Ty) (refs : List Ref) (s : Store) : Except Err (List Value) :=
  match refs with
  | [] => .ok []
  | r :: rs =>
    match Decode et r (zeroVal et) s with
    | .error e => .error e
    | .ok v =>
      match buildSliceElems et rs s with
      | .error e => .error e
      | .ok vs => .ok (v :: vs)
termination_by (sizeOf et, 1, sizeOf refs)

/-- Model of `Decoder.buildArray`: every slot is reset to the element
zero value, and slots within the ref list's range are then decoded. -/
def buildArrayElems (et : Ty) (n : Nat) (refs : List Ref) (s : Store) : Except Err (List Value) :=
  match n with
  | 0 => .ok []
  | n2 + 1 =>
    match refs with
    | [] => .ok (List.replicate (n2 + 1) (zeroVal et))
    | r :: rs =>
      match Decode et r (zeroVal et) s with
      | .error e => .error e
      | .ok v =>
        match buildArrayElems et n2 rs s with
        | .error e => .error e
        | .ok vs => .ok (v :: vs)
termination_by (sizeOf et, 1, sizeOf refs)

/-- Model of `Decoder.buildMap`: the destination map is allocated when
nil, then each stored key's value is decoded into a fresh element and
assigned; pre-existing keys not in the stored object survive. -/
def buildMapEntries (et : Ty) (acc : List (String × Value)) (refsMap : List (String × Ref))
    (s : Store) : Except Err (List (String × Value)) :=
  match refsMap with
  | [] => .ok acc
  | (k, r) :: rest =>
    match Decode et r (zeroVal et) s with
    | .error e => .error e
    | .ok item => buildMapEntries et (setKey k item acc) rest s
termination_by (sizeOf et, 1, sizeOf refsMap)

/-- The per-field assignment loop of `Decode`'s struct case. -/
def decodeFields (fs : List Fld) (ivals : List IVal) (olds : List Value) (s : Store) :
    Except Err (List Value) :=
  match fs, ivals, olds with
  | [], _, _ => .ok []
  | (nm, tg, ft) :: fs2, iv :: ivs, oldf :: olds2 =>
    match (decodeField1 (nm, tg, ft) iv oldf s) with
    | .error e => .error e
    | .ok v =>
      match decodeFields fs2 ivs olds2 s with
      | .error e => .error e
      | .ok vs => .ok (v :: vs)
  | _, _, _ => .error .typeMismatch
termination_by (sizeOf fs, 2, 0)

/-- Assign one destination struct field from its intermediate slot. -/
def decodeField1 (f : Fld) (iv : IVal) (oldf : Value) (s : Store) : Except Err Value :=
  let p := parseTag f
  if p.2.«omit» then .ok oldf
  else if p.2.inline then
    match iv with
    | .ival v => .ok v
    | _ => .error .typeMismatch
  else if !p.2.external && isContainerTy (fldTy f) then
    match hft : fldTy f with
    | .tslice et =>
      match iv with
      | .irefs refs =>
        (buildSliceElems et refs s).map
          (fun vs => .vslice (sliceIsNil oldf && refs.isEmpty) vs)
      | _ => .error .typeMismatch
    | .tarray n et =>
      match iv with
      | .irefs refs => (buildArrayElems et n refs s).map .varr
      | _ => .error .typeMismatch
    | .tmap et =>
      match iv with
      | .irefmap refsMap =>
        (buildMapEntries et (mapEntries oldf) refsMap s).map (.vmap false)
      | _ => .error .typeMismatch
    | _ => .error .typeMismatch
  else
    match iv with
    -- A zero intermediate ref means the key was absent (e.g. elided by
    -- omitempty): the destination field is left untouched.
    | .iref1 none => .ok oldf
    | .iref1 (some r) => Decode (fldTy f) r (zeroVal (fldTy f)) s
    | _ => .error .typeMismatch
termination_by (sizeOf (fldTy f), 2, 0)
decreasing_by
  all_goals first
    | decreasing_tactic
    | (simp_wf; rw [hft]; simp_arith; apply Prod.Lex.left; omega)

end

/-! ## The `Decode` entry point for an arbitrary destination

`Decode(ctx, ref, obj)` takes `obj interface{}`. A destination is one
of: a value implementing the custom `Unmarshaler` capability (checked
first, by the type assertion `obj.(Unmarshaler)`, before any
validation or store access — its `PkUnmarshal` verdict is returned
verbatim); a non-pointer; a nil pointer; or a typed non-nil pointer
`*T` together with its current pointee. -/

inductive Obj where
  | custom (verdict : Except Err Unit)
  | notPtr
  | nilPtr
  | ptrDest (t : Ty) (old : Value)

/-- The validation and dispatch prologue of `Decoder.Decode`
(decode.go lines 23–41): the `Unmarshaler` check, then
`ErrNotPointer`/`ErrNilPointer` validation, and only then the fetch
and kind dispatch (`Decode` above). -/
def DecodeObj : Obj → Ref → Store → Except Err (Option Value)
  | .custom verdict, _, _ => verdict.map (fun _ => none)
  | .notPtr, _, _ => .error .notPointer
  | .nilPtr, _, _ => .error .nilPointer
  | .ptrDest t old, ref, s => (Decode t ref old s).map some

/-! ## The domain of the round-trip law

`Good t v` carves out the values the round-trip law actually holds
for. It requires: integer values within their width, every slice
non-nil and non-empty, every map non-nil with strictly sorted keys
(the canonical association-list form of a Go map), every pointer
non-nil, distinct Go names and distinct stored names among a struct's
fields, skipped fields at their zero value, and `omitempty` fields
either zero (but then not a non-external map field) or recursively
good. -/

/-- Keys strictly increasing — the canonical form of a Go map in this
model (Go maps are unordered; `reflect.DeepEqual` compares them
extensionally, which structural equality of sorted entry lists
mirrors). -/
def keysStrictSorted : List (String × α) → Bool
  | [] => true
  | [_] => true
  | (k1, v1) :: (k2, v2) :: rest =>
    decide (k1 < k2) && keysStrictSorted ((k2, v2) :: rest)

def distinctList : List String → Bool
  | [] => true
  | x :: xs => !(xs.contains x) && distinctList xs

/-- Is this a non-external map-typed field (the one field shape whose
absent key does *not* decode back to the zero value, because
`buildMap` unconditionally allocates)? -/
def isNonExtMapFld (f : Fld) : Bool :=
  !(parseTag f).2.external &&
    (match fldTy f with | .tmap _ => true | _ => false)

mutual

def Good : Ty → Value → Bool
  | .tbool, .vbool _ => true
  | .tint bits, .vint n => decide (-(2 ^ (bits - 1) : Int) ≤ n ∧ n < (2 ^ (bits - 1) : Int))
  | .tuint bits, .vuint n => decide (n < 2 ^ bits)
  | .tstr, .vstr _ => true
  | .tslice t, .vslice isNil xs => !isNil && !xs.isEmpty && GoodList t xs
  | .tarray _ t, .varr xs => GoodList t xs
  | .tmap t, .vmap isNil kvs => !isNil && keysStrictSorted kvs && GoodVals t kvs
  | .tptr t, .vptr (some w) => Good t w
  | .tstruct fs, .vstruct vs =>
    distinctList (fs.map fldName) && distinctList (fs.map (fun f => (parseTag f).1))
      && GoodFields fs vs
  | _, _ => false
termination_by t _ => (sizeOf t, 0)

def GoodList : Ty → List Value → Bool
  | _, [] => true
  | t, v :: vs => Good t v && GoodList t vs
termination_by t vs => (sizeOf t, sizeOf vs)

def GoodVals : Ty → List (String × Value) → Bool
  | _, [] => true
  | t, (_, v) :: kvs => Good t v && GoodVals t kvs
termination_by t kvs => (sizeOf t, sizeOf kvs)

def GoodFields : List Fld → List Value → Bool
  | [], [] => true
  | (nm, tg, ft) :: fs, v :: vs =>
    (let o := (parseTag (nm, tg, ft)).2
     if o.«omit» then isZeroV v
     else if o.omitEmpty && isZeroV v then !isNonExtMapFld (nm, tg, ft)
     else Good ft v)
      && GoodFields fs vs
  | _, _ => false
termination_by fs _ => (sizeOf fs, 0)

end

/-- The blobs a sequence of `receiveBlob` calls writes, in order. -/
def pushAll (L : List Blob) (s : Store) : Store :=
  L.foldl (fun acc b => (receiveBlob b acc).2) s

/-! ## Store lemmas -/

theorem beqBlob_refl (b : Blob) : beqBlob b b = true := (beqBlob_iff b b).mpr rfl

theorem hasBlob_receive_self (b : Blob) (s : Store) :
    hasBlob (receiveBlob b s).2 b = true := by
  unfold receiveBlob
  split
  · assumption
  · simp [hasBlob, List.any_cons, beqBlob_refl]

theorem hasBlob_receive_mono (b b2 : Blob) (s : Store) (h : hasBlob s b = true) :
    hasBlob (receiveBlob b2 s).2 b = true := by
  unfold receiveBlob
  split
  · exact h
  · simp only [hasBlob, List.any_cons] at h ⊢
    simp [h]

theorem receive_noop (b : Blob) (s : Store) (h : hasBlob s b = true) :
    (receiveBlob b s).2 = s := by
  simp [receiveBlob, h]

theorem pushAll_nil (s : Store) : pushAll [] s = s := rfl

theorem pushAll_cons (b : Blob) (L : List Blob) (s : Store) :
    pushAll (b :: L) s = pushAll L (receiveBlob b s).2 := rfl

theorem pushAll_append (L1 L2 : List Blob) (s : Store) :
    pushAll (L1 ++ L2) s = pushAll L2 (pushAll L1 s) := by
  unfold pushAll
  simp [List.foldl_append]

theorem hasBlob_pushAll_mono (L : List Blob) (s : Store) (b : Blob)
    (h : hasBlob s b = true) : hasBlob (pushAll L s) b = true := by
  induction L generalizing s with
  | nil => exact h
  | cons b2 L ih =>
    rw [pushAll_cons]
    exact ih _ (hasBlob_receive_mono b b2 s h)

theorem hasBlob_pushAll_mem (L : List Blob) (s : Store) (b : Blob)
    (h : b ∈ L) : hasBlob (pushAll L s) b = true := by
  induction L generalizing s with
  | nil => cases h
  | cons b2 L ih =>
    rw [pushAll_cons]
    rcases List.mem_cons.mp h with rfl | h2
    · exact hasBlob_pushAll_mono L _ b (hasBlob_receive_self b s)
    · exact ih _ h2

theorem pushAll_noop (L : List Blob) (s : Store)
    (h : ∀ b ∈ L, hasBlob s b = true) : pushAll L s = s := by
  induction L with
  | nil => rfl
  | cons b L ih =>
    rw [pushAll_cons, receive_noop b s (h b (by simp))]
    exact ih (fun b2 hb2 => h b2 (by simp [hb2]))

theorem pushAll_idem (L : List Blob) (s : Store) :
    pushAll L (pushAll L s) = pushAll L s :=
  pushAll_noop L _ (fun b hb => hasBlob_pushAll_mem L s b hb)

theorem fetchBlob_ok (r : Ref) (s : Store) (h : hasBlob s r = true) :
    fetchBlob r s = .ok r := by
  simp [fetchBlob, h]

/-! ## Association-list lemmas -/

theorem lookupKey_setKey_eq (k : String) (v : α) (l : List (String × α)) :
    lookupKey k (setKey k v l) = some v := by
  induction l with
  | nil => simp [setKey, lookupKey]
  | cons kv rest ih =>
    obtain ⟨k2, v2⟩ := kv
    by_cases h : k2 = k
    · simp [setKey, lookupKey, h]
    · simp [setKey, lookupKey, h, ih]

theorem lookupKey_setKey_ne (k k2 : String) (v : α) (l : List (String × α))
    (h : k2 ≠ k) : lookupKey k (setKey k2 v l) = lookupKey k l := by
  induction l with
  | nil => simp [setKey, lookupKey, h]
  | cons kv rest ih =>
    obtain ⟨k3, v3⟩ := kv
    by_cases h3 : k3 = k2
    · subst h3
      simp [setKey, lookupKey, h]
    · by_cases h4 : k3 = k
      · subst h4
        have hk : ¬(k3 = k2) := h3
        simp [setKey, lookupKey, hk]
      · simp [setKey, lookupKey, h3, h4, ih]

theorem lookupKey_none_iff (k : String) (l : List (String × α)) :
    lookupKey k l = none ↔ k ∉ l.map Prod.fst := by
  induction l with
  | nil => simp [lookupKey]
  | cons kv rest ih =>
    obtain ⟨k2, v2⟩ := kv
    by_cases h : k2 = k
    · subst h
      simp [lookupKey]
    · simp [lookupKey, h, ih, Ne.symm h]

/-! ## Behaviour of the encoder over the store

`Encode` is deterministic: the ref (and error) outcome does not depend
on the prior contents of the content-addressed store, and the store
after a call is exactly the prior store plus a fixed set of blobs
determined by the value alone. -/

/-- The outcome of a store-threading computation does not depend on the
prior store. -/
def FstConst {α : Type} (g : Store → (Except Err α) × Store) : Prop :=
  ∀ s₁ s₂, (g s₁).1 = (g s₂).1

/-- The computation writes a fixed list of blobs, whatever the prior
store. -/
def SndPush {α : Type} (g : Store → (Except Err α) × Store) : Prop :=
  ∃ L, ∀ s, (g s).2 = pushAll L s

theorem props_congr {α : Type} {g g' : Store → (Except Err α) × Store}
    (hp : FstConst g' ∧ SndPush g') (h : ∀ s, g s = g' s) :
    FstConst g ∧ SndPush g := by
  constructor
  · intro s₁ s₂
    rw [h, h]
    exact hp.1 s₁ s₂
  · obtain ⟨L, hL⟩ := hp.2
    exact ⟨L, fun s => by rw [h]; exact hL s⟩

theorem errConst_props {α : Type} (e : Err) :
    FstConst (fun s => ((.error e : Except Err α), s)) ∧
    SndPush (fun s => ((.error e : Except Err α), s)) :=
  ⟨fun _ _ => rfl, ⟨[], fun _ => rfl⟩⟩

theorem pure_props {α : Type} (x : α) :
    FstConst (fun s => ((.ok x : Except Err α), s)) ∧
    SndPush (fun s => ((.ok x : Except Err α), s)) :=
  ⟨fun _ _ => rfl, ⟨[], fun _ => rfl⟩⟩

theorem recvOk_props (b : Blob) : FstConst (recvOk b) ∧ SndPush (recvOk b) :=
  ⟨fun _ _ => rfl, ⟨[b], fun _ => rfl⟩⟩

theorem seq_props {α β : Type} (g : Store → (Except Err α) × Store)
    (f : α → Store → (Except Err β) × Store)
    (hg : FstConst g ∧ SndPush g)
    (hf : ∀ x, (g []).1 = .ok x → FstConst (f x) ∧ SndPush (f x)) :
    FstConst (fun s => match g s with
                | (.error e, s2) => (.error e, s2)
                | (.ok x, s2) => f x s2) ∧
    SndPush (fun s => match g s with
                | (.error e, s2) => (.error e, s2)
                | (.ok x, s2) => f x s2) := by
  obtain ⟨L, hL⟩ := hg.2
  constructor
  · intro s₁ s₂
    have h1 := hg.1 s₁ s₂
    show (match g s₁ with
          | (.error e, s2) => ((.error e : Except Err β), s2)
          | (.ok x, s2) => f x s2).1 =
         (match g s₂ with
          | (.error e, s2) => ((.error e : Except Err β), s2)
          | (.ok x, s2) => f x s2).1
    cases hga : g s₁ with
    | mk r1 t1 =>
      cases hgb : g s₂ with
      | mk r2 t2 =>
        have h0 : (g []).1 = r1 := by rw [hg.1 [] s₁, hga]
        rw [hga, hgb] at h1
        simp only [] at h1
        subst h1
        cases r1 with
        | error e => simp
        | ok x => simpa using (hf x h0).1 t1 t2
  · rcases hfst : (g []).1 with e | x
    · refine ⟨L, fun s => ?_⟩
      have hs : (g s).1 = .error e := by rw [hg.1 s []]; exact hfst
      show (match g s with
            | (.error e, s2) => ((.error e : Except Err β), s2)
            | (.ok x, s2) => f x s2).2 = pushAll L s
      cases hgs : g s with
      | mk r1 t1 =>
        rw [hgs] at hs
        simp only [] at hs
        subst hs
        have ht := hL s
        rw [hgs] at ht
        simpa using ht
    · obtain ⟨Lf, hLf⟩ := (hf x hfst).2
      refine ⟨L ++ Lf, fun s => ?_⟩
      have hs : (g s).1 = .ok x := by rw [hg.1 s []]; exact hfst
      show (match g s with
            | (.error e, s2) => ((.error e : Except Err β), s2)
            | (.ok x, s2) => f x s2).2 = pushAll (L ++ Lf) s
      cases hgs : g s with
      | mk r1 t1 =>
        rw [hgs] at hs
        simp only [] at hs
        subst hs
        have ht : t1 = pushAll L s := by
          have h2 := hL s
          rw [hgs] at h2
          exact h2
        simp only []
        rw [hLf t1, ht, ← pushAll_append]

/-- The encoder's outcome depends only on the value, and its effect on
the store is to push a value-determined list of blobs (for `Encode`
itself and each of its helpers). -/
theorem encode_store_props :
    (∀ (t : Ty) (v : Value) (_s : Store), FstConst (Encode t v) ∧ SndPush (Encode t v)) ∧
    (∀ (fs : List Fld) (vs : List Value) (_s : Store),
      FstConst (encodeStructFields fs vs) ∧ SndPush (encodeStructFields fs vs)) ∧
    (∀ (f : Fld) (v : Value) (_s : Store),
      FstConst (encodeStructField1 f v) ∧ SndPush (encodeStructField1 f v)) ∧
    (∀ (t : Ty) (kvs : List (String × Value)) (_s : Store),
      FstConst (encodeMap t kvs) ∧ SndPush (encodeMap t kvs)) ∧
    (∀ (t : Ty) (xs : List Value) (_s : Store),
      FstConst (encodeSliceOrArray t xs) ∧ SndPush (encodeSliceOrArray t xs)) := by
  have seqRecv := fun {α : Type} (g : Store → (Except Err α) × Store) (mk : α → Blob)
      (hg : FstConst g ∧ SndPush g) =>
    seq_props g (fun x => recvOk (mk x)) hg (fun x _ => recvOk_props (mk x))
  apply Encode.mutual_induct
  -- ptr-some
  · intro t w _s ih
    exact props_congr ih (fun s => by simp [Encode]; try (split <;> (rename_i heq9; rw [heq9])))
  -- ptr-none
  · intro elem _s
    exact props_congr (errConst_props (.unsupportedType "")) (fun s => by simp [Encode]; try (split <;> (rename_i heq9; rw [heq9])))
  -- nil slice
  · intro elem xs _s
    exact props_congr (recvOk_props (.raw "")) (fun s => by simp [Encode]; try (split <;> (rename_i heq9; rw [heq9])))
  -- nil map
  · intro elem kvs _s
    exact props_congr (recvOk_props (.raw "")) (fun s => by simp [Encode]; try (split <;> (rename_i heq9; rw [heq9])))
  -- bool
  · intro b _s
    exact props_congr (recvOk_props (.raw (if b then "true" else ""))) (fun s => by simp [Encode]; try (split <;> (rename_i heq9; rw [heq9])))
  -- int
  · intro bits n _s
    exact props_congr (recvOk_props (.raw (formatInt n))) (fun s => by simp [Encode]; try (split <;> (rename_i heq9; rw [heq9])))
  -- uint
  · intro bits n _s
    exact props_congr (recvOk_props (.raw (formatNat n))) (fun s => by simp [Encode]; try (split <;> (rename_i heq9; rw [heq9])))
  -- slice non-nil, element error
  · intro t isNil xs _s hnil e s2 _henc ih
    have hni : isNil = false := by
      cases isNil
      · rfl
      · exact absurd rfl hnil
    subst hni
    exact props_congr (seqRecv _ (fun refs => .json (refsArrJval refs)) ih)
      (fun s => by simp [Encode]; try (split <;> (rename_i heq9; rw [heq9])))
  -- slice non-nil, elements ok
  · intro t isNil xs _s hnil refs s2 _henc ih
    have hni : isNil = false := by
      cases isNil
      · rfl
      · exact absurd rfl hnil
    subst hni
    exact props_congr (seqRecv _ (fun refs => .json (refsArrJval refs)) ih)
      (fun s => by simp [Encode]; try (split <;> (rename_i heq9; rw [heq9])))
  -- array, element error
  · intro n t xs _s e s2 _henc ih
    exact props_congr (seqRecv _ (fun refs => .json (refsArrJval refs)) ih)
      (fun s => by simp [Encode]; try (split <;> (rename_i heq9; rw [heq9])))
  -- array, elements ok
  · intro n t xs _s refs s2 _henc ih
    exact props_congr (seqRecv _ (fun refs => .json (refsArrJval refs)) ih)
      (fun s => by simp [Encode]; try (split <;> (rename_i heq9; rw [heq9])))
  -- map non-nil, value error
  · intro t isNil kvs _s hnil e s2 _henc ih
    have hni : isNil = false := by
      cases isNil
      · rfl
      · exact absurd rfl hnil
    subst hni
    exact props_congr
      (seqRecv _ (fun pairs => .json (.jobj (sortByKey (pairs.map (fun p => (p.1, Jval.jref p.2)))))) ih)
      (fun s => by simp [Encode]; try (split <;> (rename_i heq9; rw [heq9])))
  -- map non-nil, values ok
  · intro t isNil kvs _s hnil pairs s2 _henc ih
    have hni : isNil = false := by
      cases isNil
      · rfl
      · exact absurd rfl hnil
    subst hni
    exact props_congr
      (seqRecv _ (fun pairs => .json (.jobj (sortByKey (pairs.map (fun p => (p.1, Jval.jref p.2)))))) ih)
      (fun s => by simp [Encode]; try (split <;> (rename_i heq9; rw [heq9])))
  -- string
  · intro str _s
    exact props_congr (recvOk_props (.raw str)) (fun s => by simp [Encode]; try (split <;> (rename_i heq9; rw [heq9])))
  -- struct, fields error
  · intro fs vs _s e s2 _henc ih
    exact props_congr (seqRecv _ (fun m => .json (.jobj (sortByKey m))) ih)
      (fun s => by simp [Encode]; try (split <;> (rename_i heq9; rw [heq9])))
  -- struct, fields ok
  · intro fs vs _s m s2 _henc ih
    exact props_congr (seqRecv _ (fun m => .json (.jobj (sortByKey m))) ih)
      (fun s => by simp [Encode]; try (split <;> (rename_i heq9; rw [heq9])))
  -- default (type/value mismatch)
  · intro x x1 _s h1 h2 h3 h4 h5 h6 h7 h8 h9 h10 h11 h12
    refine props_congr (errConst_props .typeMismatch) (fun s => ?_)
    rw [Encode.eq_def]
    split <;>
      first
        | rfl
        | (exfalso
           first
             | exact h1 _ _ rfl rfl
             | exact h2 _ rfl rfl
             | exact h3 _ _ rfl rfl
             | exact h4 _ _ rfl rfl
             | exact h5 _ rfl rfl
             | exact h6 _ _ rfl rfl
             | exact h7 _ _ rfl rfl
             | exact h8 _ _ _ rfl rfl
             | exact h9 _ _ _ rfl rfl
             | exact h10 _ _ _ rfl rfl
             | exact h11 _ rfl rfl
             | exact h12 _ _ rfl rfl)
  -- fields: nil/nil
  · intro _s
    exact props_congr (pure_props ([] : List (String × Jval)))
      (fun s => by simp [encodeStructFields]; try (split <;> (rename_i heq9; rw [heq9])))
  -- fields: skip
  · intro f fs v vs _s p homit ih
    have homit2 : ((parseTag f).2).«omit» = true := homit
    exact props_congr ih (fun s => by simp [encodeStructFields, homit2]; try (split <;> (rename_i heq9; rw [heq9])))
  -- fields: omitempty at zero
  · intro f fs v vs _s p homit hoe ih
    have homit2 : ¬((parseTag f).2).«omit» = true := homit
    have hoe2 : (((parseTag f).2).omitEmpty && isZeroV v) = true := hoe
    exact props_congr ih (fun s => by simp [encodeStructFields, homit2, hoe2]; try (split <;> (rename_i heq9; rw [heq9])))
  -- fields: field1 error
  · intro f fs v vs _s p homit hoe e s2 henc ih
    have homit2 : ¬((parseTag f).2).«omit» = true := homit
    have hoe2 : ¬(((parseTag f).2).omitEmpty && isZeroV v) = true := hoe
    refine props_congr
      (seq_props _ (fun jv => fun s2 => match encodeStructFields fs vs s2 with
          | (.error e, s3) => (.error e, s3)
          | (.ok m, s3) => (.ok (((parseTag f).1, jv) :: m), s3)) ih (fun jv hjv => ?_))
      (fun s => by simp [encodeStructFields, homit2, hoe2]; try (split <;> (rename_i heq9; rw [heq9])))
    rw [ih.1 [] _s, henc] at hjv
    simp at hjv
  -- fields: field1 ok, rest error
  · intro f fs v vs _s p homit hoe jv s2 henc1 e s3 henc2 ih1 ih2
    have homit2 : ¬((parseTag f).2).«omit» = true := homit
    have hoe2 : ¬(((parseTag f).2).omitEmpty && isZeroV v) = true := hoe
    exact props_congr
      (seq_props _ (fun jv => fun s2 => match encodeStructFields fs vs s2 with
          | (.error e, s3) => (.error e, s3)
          | (.ok m, s3) => (.ok (((parseTag f).1, jv) :: m), s3)) ih1
        (fun jv2 _ => props_congr
          (seq_props _ (fun m => fun s3 => (.ok (((parseTag f).1, jv2) :: m), s3)) ih2
            (fun m2 _ => pure_props (((parseTag f).1, jv2) :: m2)))
          (fun s => by simp only []; try (split <;> (rename_i heq8; rw [heq8])); try rfl)))
      (fun s => by simp [encodeStructFields, homit2, hoe2]; try (split <;> (rename_i heq9; rw [heq9])))
  -- fields: field1 ok, rest ok
  · intro f fs v vs _s p homit hoe jv s2 henc1 m s3 henc2 ih1 ih2
    have homit2 : ¬((parseTag f).2).«omit» = true := homit
    have hoe2 : ¬(((parseTag f).2).omitEmpty && isZeroV v) = true := hoe
    exact props_congr
      (seq_props _ (fun jv => fun s2 => match encodeStructFields fs vs s2 with
          | (.error e, s3) => (.error e, s3)
          | (.ok m, s3) => (.ok (((parseTag f).1, jv) :: m), s3)) ih1
        (fun jv2 _ => props_congr
          (seq_props _ (fun m => fun s3 => (.ok (((parseTag f).1, jv2) :: m), s3)) ih2
            (fun m2 _ => pure_props (((parseTag f).1, jv2) :: m2)))
          (fun s => by simp only []; try (split <;> (rename_i heq8; rw [heq8])); try rfl)))
      (fun s => by simp [encodeStructFields, homit2, hoe2]; try (split <;> (rename_i heq9; rw [heq9])))
  -- fields: length mismatch
  · intro x x1 _s h1 h2
    refine props_congr (errConst_props .typeMismatch) (fun s => ?_)
    cases x with
    | nil =>
      cases x1 with
      | nil => exact (h1 rfl rfl).elim
      | cons v vs => simp [encodeStructFields]
    | cons f fs =>
      cases x1 with
      | nil => simp [encodeStructFields]
      | cons v vs => exact (h2 f fs v vs rfl rfl).elim
  -- field1: inline
  · intro f v _s p hinl
    have hinl2 : ((parseTag f).2).inline = true := hinl
    exact props_congr (pure_props (jencode (fldTy f) v))
      (fun s => by simp [encodeStructField1, hinl2]; try (split <;> (rename_i heq9; rw [heq9])))
  -- field1: external, error
  · intro f v _s p hinl hext e s2 henc ih
    have hinl2 : ¬((parseTag f).2).inline = true := hinl
    have hext2 : ((parseTag f).2).external = true := hext
    exact props_congr
      (seq_props _ (fun r => fun s2 => (.ok (Jval.jref r), s2)) ih
        (fun r _ => pure_props (Jval.jref r)))
      (fun s => by simp [encodeStructField1, hinl2, hext2]; try (split <;> (rename_i heq9; rw [heq9])))
  -- field1: external, ok
  · intro f v _s p hinl hext r s2 henc ih
    have hinl2 : ¬((parseTag f).2).inline = true := hinl
    have hext2 : ((parseTag f).2).external = true := hext
    exact props_congr
      (seq_props _ (fun r => fun s2 => (.ok (Jval.jref r), s2)) ih
        (fun r _ => pure_props (Jval.jref r)))
      (fun s => by simp [encodeStructField1, hinl2, hext2]; try (split <;> (rename_i heq9; rw [heq9])))
  -- field1: non-external slice, error
  · intro f _s p hinl hext t hft isNil xs e s2 henc ih
    have hinl2 : ¬((parseTag f).2).inline = true := hinl
    have hext2 : ¬((parseTag f).2).external = true := hext
    exact props_congr
      (seq_props _ (fun refs => fun s2 => (.ok (refsArrJval refs), s2)) ih
        (fun refs _ => pure_props (refsArrJval refs)))
      (fun s => by simp [encodeStructField1, hinl2, hext2, hft]; try (split <;> (rename_i heq9; rw [heq9])))
  -- field1: non-external slice, ok
  · intro f _s p hinl hext t hft isNil xs refs s2 henc ih
    have hinl2 : ¬((parseTag f).2).inline = true := hinl
    have hext2 : ¬((parseTag f).2).external = true := hext
    exact props_congr
      (seq_props _ (fun refs => fun s2 => (.ok (refsArrJval refs), s2)) ih
        (fun refs _ => pure_props (refsArrJval refs)))
      (fun s => by simp [encodeStructField1, hinl2, hext2, hft]; try (split <;> (rename_i heq9; rw [heq9])))
  -- field1: slice-typed, value not a slice
  · intro f v _s p hinl hext t hft hno
    have hinl2 : ¬((parseTag f).2).inline = true := hinl
    have hext2 : ¬((parseTag f).2).external = true := hext
    refine props_congr (errConst_props .typeMismatch) (fun s => ?_)
    simp only [encodeStructField1, hinl2, hext2, hft, Bool.false_eq_true, if_false]
    try (cases v <;> first | rfl | (rename_i a9 b9; exact (hno a9 b9 rfl).elim))
  -- field1: non-external array, error
  · intro f _s p hinl hext n t hft xs e s2 henc ih
    have hinl2 : ¬((parseTag f).2).inline = true := hinl
    have hext2 : ¬((parseTag f).2).external = true := hext
    exact props_congr
      (seq_props _ (fun refs => fun s2 => (.ok (refsArrJval refs), s2)) ih
        (fun refs _ => pure_props (refsArrJval refs)))
      (fun s => by simp [encodeStructField1, hinl2, hext2, hft]; try (split <;> (rename_i heq9; rw [heq9])))
  -- field1: non-external array, ok
  · intro f _s p hinl hext n t hft xs refs s2 henc ih
    have hinl2 : ¬((parseTag f).2).inline = true := hinl
    have hext2 : ¬((parseTag f).2).external = true := hext
    exact props_congr
      (seq_props _ (fun refs => fun s2 => (.ok (refsArrJval refs), s2)) ih
        (fun refs _ => pure_props (refsArrJval refs)))
      (fun s => by simp [encodeStructField1, hinl2, hext2, hft]; try (split <;> (rename_i heq9; rw [heq9])))
  -- field1: array-typed, value not an array
  · intro f v _s p hinl hext n t hft hno
    have hinl2 : ¬((parseTag f).2).inline = true := hinl
    have hext2 : ¬((parseTag f).2).external = true := hext
    refine props_congr (errConst_props .typeMismatch) (fun s => ?_)
    simp only [encodeStructField1, hinl2, hext2, hft, Bool.false_eq_true, if_false]
    try (cases v <;> first | rfl | (rename_i a9; exact (hno a9 rfl).elim))
  -- field1: non-external map, error
  · intro f _s p hinl hext t hft isNil kvs e s2 henc ih
    have hinl2 : ¬((parseTag f).2).inline = true := hinl
    have hext2 : ¬((parseTag f).2).external = true := hext
    exact props_congr
      (seq_props _
        (fun pairs => fun s2 =>
          (.ok (Jval.jobj (sortByKey (pairs.map (fun q => (q.1, Jval.jref q.2))))), s2)) ih
        (fun pairs _ => pure_props (Jval.jobj (sortByKey (pairs.map (fun q => (q.1, Jval.jref q.2)))))))
      (fun s => by simp [encodeStructField1, hinl2, hext2, hft]; try (split <;> (rename_i heq9; rw [heq9])))
  -- field1: non-external map, ok
  · intro f _s p hinl hext t hft isNil kvs pairs s2 henc ih
    have hinl2 : ¬((parseTag f).2).inline = true := hinl
    have hext2 : ¬((parseTag f).2).external = true := hext
    exact props_congr
      (seq_props _
        (fun pairs => fun s2 =>
          (.ok (Jval.jobj (sortByKey (pairs.map (fun q => (q.1, Jval.jref q.2))))), s2)) ih
        (fun pairs _ => pure_props (Jval.jobj (sortByKey (pairs.map (fun q => (q.1, Jval.jref q.2)))))))
      (fun s => by simp [encodeStructField1, hinl2, hext2, hft]; try (split <;> (rename_i heq9; rw [heq9])))
  -- field1: map-typed, value not a map
  · intro f v _s p hinl hext t hft hno
    have hinl2 : ¬((parseTag f).2).inline = true := hinl
    have hext2 : ¬((parseTag f).2).external = true := hext
    refine props_congr (errConst_props .typeMismatch) (fun s => ?_)
    simp only [encodeStructField1, hinl2, hext2, hft, Bool.false_eq_true, if_false]
    try (cases v <;> first | rfl | (rename_i a9 b9; exact (hno a9 b9 rfl).elim))
  -- field1: scalar, error
  · intro f v _s p hinl hext e s2 hn1 hn2 hn3 henc ih
    have hinl2 : ¬((parseTag f).2).inline = true := hinl
    have hext2 : ¬((parseTag f).2).external = true := hext
    refine props_congr
      (seq_props _ (fun r => fun s2 => (.ok (Jval.jref r), s2)) ih
        (fun r _ => pure_props (Jval.jref r)))
      (fun s => ?_)
    simp only [encodeStructField1, hinl2, hext2]
    simp only [Bool.false_eq_true, if_false]
    split <;>
      first
        | (rename_i heq9; simp only [heq9])
        | (rename_i t9 heq9; exact (hn1 t9 heq9).elim)
        | (rename_i n9 t9 heq9; exact (hn2 n9 t9 heq9).elim)
        | (rename_i t9 heq9; exact (hn3 t9 heq9).elim)
        | (split <;> (rename_i heq9; simp only [heq9]))
        | rfl
  -- field1: scalar, ok
  · intro f v _s p hinl hext r s2 hn1 hn2 hn3 henc ih
    have hinl2 : ¬((parseTag f).2).inline = true := hinl
    have hext2 : ¬((parseTag f).2).external = true := hext
    refine props_congr
      (seq_props _ (fun r => fun s2 => (.ok (Jval.jref r), s2)) ih
        (fun r _ => pure_props (Jval.jref r)))
      (fun s => ?_)
    simp only [encodeStructField1, hinl2, hext2]
    simp only [Bool.false_eq_true, if_false]
    split <;>
      first
        | (rename_i heq9; simp only [heq9])
        | (rename_i t9 heq9; exact (hn1 t9 heq9).elim)
        | (rename_i n9 t9 heq9; exact (hn2 n9 t9 heq9).elim)
        | (rename_i t9 heq9; exact (hn3 t9 heq9).elim)
        | (split <;> (rename_i heq9; simp only [heq9]))
        | rfl
  -- map helper: nil
  · intro t _s
    exact props_congr (pure_props ([] : List (String × Ref))) (fun s => by simp [encodeMap]; try (split <;> (rename_i heq9; rw [heq9])))
  -- map helper: element error
  · intro t k v kvs _s e s2 henc ih
    refine props_congr
      (seq_props _ (fun r => fun s2 => match encodeMap t kvs s2 with
          | (.error e, s3) => (.error e, s3)
          | (.ok rs, s3) => (.ok ((k, r) :: rs), s3)) ih (fun r hr => ?_))
      (fun s => by simp [encodeMap]; try (split <;> (rename_i heq9; rw [heq9])))
    rw [ih.1 [] _s, henc] at hr
    simp at hr
  -- map helper: element ok, rest error
  · intro t k v kvs _s r s2 henc1 e s3 henc2 ih1 ih2
    exact props_congr
      (seq_props _ (fun r => fun s2 => match encodeMap t kvs s2 with
          | (.error e, s3) => (.error e, s3)
          | (.ok rs, s3) => (.ok ((k, r) :: rs), s3)) ih1
        (fun r2 _ => props_congr
          (seq_props _ (fun rs => fun s3 => (.ok ((k, r2) :: rs), s3)) ih2
            (fun rs2 _ => pure_props ((k, r2) :: rs2)))
          (fun s => by simp only []; try (split <;> (rename_i heq8; rw [heq8])); try rfl)))
      (fun s => by simp [encodeMap]; try (split <;> (rename_i heq9; rw [heq9])))
  -- map helper: element ok, rest ok
  · intro t k v kvs _s r s2 henc1 rs s3 henc2 ih1 ih2
    exact props_congr
      (seq_props _ (fun r => fun s2 => match encodeMap t kvs s2 with
          | (.error e, s3) => (.error e, s3)
          | (.ok rs, s3) => (.ok ((k, r) :: rs), s3)) ih1
        (fun r2 _ => props_congr
          (seq_props _ (fun rs => fun s3 => (.ok ((k, r2) :: rs), s3)) ih2
            (fun rs2 _ => pure_props ((k, r2) :: rs2)))
          (fun s => by simp only []; try (split <;> (rename_i heq8; rw [heq8])); try rfl)))
      (fun s => by simp [encodeMap]; try (split <;> (rename_i heq9; rw [heq9])))
  -- slice helper: nil
  · intro t _s
    exact props_congr (pure_props ([] : List Ref)) (fun s => by simp [encodeSliceOrArray]; try (split <;> (rename_i heq9; rw [heq9])))
  -- slice helper: element error
  · intro t v vs _s e s2 henc ih
    refine props_congr
      (seq_props _ (fun r => fun s2 => match encodeSliceOrArray t vs s2 with
          | (.error e, s3) => (.error e, s3)
          | (.ok rs, s3) => (.ok (r :: rs), s3)) ih (fun r hr => ?_))
      (fun s => by simp [encodeSliceOrArray]; try (split <;> (rename_i heq9; rw [heq9])))
    rw [ih.1 [] _s, henc] at hr
    simp at hr
  -- slice helper: element ok, rest error
  · intro t v vs _s r s2 henc1 e s3 henc2 ih1 ih2
    exact props_congr
      (seq_props _ (fun r => fun s2 => match encodeSliceOrArray t vs s2 with
          | (.error e, s3) => (.error e, s3)
          | (.ok rs, s3) => (.ok (r :: rs), s3)) ih1
        (fun r2 _ => props_congr
          (seq_props _ (fun rs => fun s3 => (.ok (r2 :: rs), s3)) ih2
            (fun rs2 _ => pure_props (r2 :: rs2)))
          (fun s => by simp only []; try (split <;> (rename_i heq8; rw [heq8])); try rfl)))
      (fun s => by simp [encodeSliceOrArray]; try (split <;> (rename_i heq9; rw [heq9])))
  -- slice helper: element ok, rest ok
  · intro t v vs _s r s2 henc1 rs s3 henc2 ih1 ih2
    exact props_congr
      (seq_props _ (fun r => fun s2 => match encodeSliceOrArray t vs s2 with
          | (.error e, s3) => (.error e, s3)
          | (.ok rs, s3) => (.ok (r :: rs), s3)) ih1
        (fun r2 _ => props_congr
          (seq_props _ (fun rs => fun s3 => (.ok (r2 :: rs), s3)) ih2
            (fun rs2 _ => pure_props (r2 :: rs2)))
          (fun s => by simp only []; try (split <;> (rename_i heq8; rw [heq8])); try rfl)))
      (fun s => by simp [encodeSliceOrArray]; try (split <;> (rename_i heq9; rw [heq9])))

/-! ## Store extension

A store extends another when it holds every blob the other holds; the
encoder only ever extends the store. -/

def Ext (s s' : Store) : Prop := ∀ b, hasBlob s b = true → hasBlob s' b = true

theorem ext_refl (s : Store) : Ext s s := fun _ h => h

theorem ext_trans {s1 s2 s3 : Store} (h1 : Ext s1 s2) (h2 : Ext s2 s3) : Ext s1 s3 :=
  fun b h => h2 b (h1 b h)

theorem ext_receive (b : Blob) (s : Store) : Ext s (receiveBlob b s).2 :=
  fun b2 h => hasBlob_receive_mono b2 b s h

theorem ext_encode (t : Ty) (v : Value) (s : Store) : Ext s (Encode t v s).2 := by
  obtain ⟨L, hL⟩ := (encode_store_props.1 t v []).2
  rw [hL]
  exact fun b hb => hasBlob_pushAll_mono L s b hb

theorem ext_encodeStructFields (fs : List Fld) (vs : List Value) (s : Store) :
    Ext s (encodeStructFields fs vs s).2 := by
  obtain ⟨L, hL⟩ := (encode_store_props.2.1 fs vs []).2
  rw [hL]
  exact fun b hb => hasBlob_pushAll_mono L s b hb

theorem ext_encodeStructField1 (f : Fld) (v : Value) (s : Store) :
    Ext s (encodeStructField1 f v s).2 := by
  obtain ⟨L, hL⟩ := (encode_store_props.2.2.1 f v []).2
  rw [hL]
  exact fun b hb => hasBlob_pushAll_mono L s b hb

theorem ext_encodeMap (t : Ty) (kvs : List (String × Value)) (s : Store) :
    Ext s (encodeMap t kvs s).2 := by
  obtain ⟨L, hL⟩ := (encode_store_props.2.2.2.1 t kvs []).2
  rw [hL]
  exact fun b hb => hasBlob_pushAll_mono L s b hb

theorem ext_encodeSliceOrArray (t : Ty) (xs : List Value) (s : Store) :
    Ext s (encodeSliceOrArray t xs s).2 := by
  obtain ⟨L, hL⟩ := (encode_store_props.2.2.2.2 t xs []).2
  rw [hL]
  exact fun b hb => hasBlob_pushAll_mono L s b hb

/-! ## Small helper lemmas -/

theorem distinctList_iff_nodup (l : List String) : distinctList l = true ↔ l.Nodup := by
  induction l with
  | nil => simp [distinctList]
  | cons x xs ih => simp [distinctList, ih]

/-- The `pk:"-"` tag sets `omit` alone; every other tag leaves it
unset. -/
theorem parseTag_omit_record (f : Fld) (h : ((parseTag f).2).«omit» = true) :
    (parseTag f).2 = { «omit» := true } := by
  have hfold : ∀ (items : List String) (o : options),
      (items.foldl (fun (o : options) item =>
        if item = "inline" then { o with inline := true }
        else if item = "external" then { o with external := true }
        else if item = "omitempty" then { o with omitEmpty := true }
        else o) o).«omit» = o.«omit» := by
    intro items
    induction items with
    | nil => intro o; rfl
    | cons it its ih =>
      intro o
      rw [List.foldl_cons, ih]
      split
      · rfl
      · split
        · rfl
        · split <;> rfl
  cases hf : fldTag f with
  | none => simp [parseTag, hf] at h
  | some t =>
    by_cases h0 : t = ""
    · simp [parseTag, hf, h0] at h
    · by_cases h1 : t = "-"
      · simp [parseTag, hf, h0, h1]
      · simp [parseTag, hf, h0, h1, hfold] at h

theorem setKey_append (k : String) (v : α) (l : List (String × α))
    (h : lookupKey k l = none) : setKey k v l = l ++ [(k, v)] := by
  induction l with
  | nil => rfl
  | cons kv rest ih =>
    obtain ⟨k2, v2⟩ := kv
    rw [lookupKey] at h
    by_cases hk : k2 = k
    · rw [if_pos hk] at h
      cases h
    · rw [if_neg hk] at h
      rw [setKey]
      simp [hk, ih h]

theorem refListOf_map_jref (refs : List Ref) :
    refListOf (refs.map .jref) = .ok refs := by
  induction refs with
  | nil => rfl
  | cons r rs ih => simp [refListOf, ih, Except.map]

theorem refMapOf_map_jref (l : List (String × Ref)) :
    refMapOf (l.map (fun p => (p.1, Jval.jref p.2))) = .ok l := by
  induction l with
  | nil => rfl
  | cons kv rest ih =>
    obtain ⟨k, r⟩ := kv
    simp [refMapOf, ih, Except.map]

/-- A ref list exactly as long as the array fills it one-for-one. -/
theorem buildArrayElems_eq_slice (et : Ty) (n : Nat) (refs : List Ref) (s : Store)
    (h : refs.length = n) : buildArrayElems et n refs s = buildSliceElems et refs s := by
  induction refs generalizing n with
  | nil =>
    subst h
    show buildArrayElems et 0 [] s = buildSliceElems et [] s
    rw [buildArrayElems, buildSliceElems]
  | cons r rs ih =>
    subst h
    show buildArrayElems et (rs.length + 1) (r :: rs) s = buildSliceElems et (r :: rs) s
    rw [buildArrayElems, buildSliceElems]
    cases hd : Decode et r (zeroVal et) s with
    | error e => rfl
    | ok v => rw [ih rs.length rfl]

/-! ## Sorted association lists -/

theorem keysStrictSorted_iff_chain (l : List (String × α)) :
    keysStrictSorted l = true ↔ List.Chain' (· < ·) (l.map Prod.fst) := by
  induction l with
  | nil => simp [keysStrictSorted]
  | cons kv rest ih =>
    obtain ⟨k1, v1⟩ := kv
    cases rest with
    | nil => simp [keysStrictSorted]
    | cons kv2 rest2 =>
      obtain ⟨k2, v2⟩ := kv2
      rw [keysStrictSorted]
      simp [ih, List.chain'_cons, Bool.and_eq_true, decide_eq_true_iff, and_comm]

theorem keysStrictSorted_iff_pairwise (l : List (String × α)) :
    keysStrictSorted l = true ↔ (l.map Prod.fst).Pairwise (· < ·) := by
  rw [keysStrictSorted_iff_chain, List.chain'_iff_pairwise]

/-- Strict sortedness depends only on the key sequence. -/
theorem keysStrictSorted_congr (l : List (String × α)) (l2 : List (String × β))
    (h : l.map Prod.fst = l2.map Prod.fst) :
    keysStrictSorted l = keysStrictSorted l2 := by
  have h1 := keysStrictSorted_iff_pairwise l
  have h2 := keysStrictSorted_iff_pairwise l2
  rw [h] at h1
  cases hb : keysStrictSorted l2
  · cases hc : keysStrictSorted l
    · rfl
    · exact absurd (h2.mpr (h1.mp hc)) (by simp [hb])
  · exact (h1.mpr (h2.mp hb))

theorem keysStrictSorted_distinct (l : List (String × α))
    (h : keysStrictSorted l = true) : distinctList (l.map Prod.fst) = true := by
  rw [distinctList_iff_nodup]
  exact ((keysStrictSorted_iff_pairwise l).mp h).imp ne_of_lt

theorem insertSorted_of_gt (k : String) (v : α) (l : List (String × α))
    (h : ∀ k2 ∈ l.map Prod.fst, k2 < k) : insertSorted k v l = l ++ [(k, v)] := by
  induction l with
  | nil => rfl
  | cons kv rest ih =>
    obtain ⟨k2, v2⟩ := kv
    have hk2 : k2 < k := h k2 (by simp)
    rw [insertSorted]
    rw [if_neg (by exact not_lt_of_gt hk2), if_neg (by exact ne_of_gt hk2)]
    rw [ih (fun k3 h3 => h k3 (by simp [h3]))]
    rfl

theorem foldl_insertSorted_sorted (l acc : List (String × α))
    (h : ((acc ++ l).map Prod.fst).Pairwise (· < ·)) :
    List.foldl (fun acc kv => insertSorted kv.1 kv.2 acc) acc l = acc ++ l := by
  induction l generalizing acc with
  | nil => simp
  | cons kv rest ih =>
    obtain ⟨k, v⟩ := kv
    rw [List.foldl_cons]
    have hgt : ∀ k2 ∈ acc.map Prod.fst, k2 < k := by
      intro k2 hk2
      simp only [List.map_append, List.pairwise_append] at h
      exact h.2.2 k2 hk2 k (by simp)
    rw [insertSorted_of_gt k v acc hgt]
    have hre : ((acc ++ [(k, v)]) ++ rest).map Prod.fst = (acc ++ (k, v) :: rest).map Prod.fst := by
      simp
    rw [ih (acc ++ [(k, v)]) (by rw [hre]; exact h)]
    simp

/-- `encoding/json` key sorting is the identity on an already
strictly-sorted entry list. -/
theorem sortByKey_sorted_id (l : List (String × α)) (h : keysStrictSorted l = true) :
    sortByKey l = l := by
  unfold sortByKey
  rw [foldl_insertSorted_sorted l [] (by simpa using (keysStrictSorted_iff_pairwise l).mp h)]
  rfl

theorem lookupKey_insertSorted (k k2 : String) (v : α) (l : List (String × α)) :
    lookupKey k (insertSorted k2 v l) =
      if k2 = k then some v else lookupKey k l := by
  induction l with
  | nil => rfl
  | cons kv rest ih =>
    obtain ⟨k3, v3⟩ := kv
    rw [insertSorted]
    by_cases h1 : k2 < k3
    · rw [if_pos h1, lookupKey, lookupKey]
    · rw [if_neg h1]
      by_cases h2 : k2 = k3
      · rw [if_pos h2, lookupKey, lookupKey]
        subst h2
        by_cases h3 : k2 = k
        · rw [if_pos h3, if_pos h3]
        · rw [if_neg h3, if_neg h3, if_neg h3]
      · rw [if_neg h2, lookupKey, lookupKey]
        by_cases h3 : k3 = k
        · rw [if_pos h3, if_neg (by rw [← h3]; exact Ne.symm h2 ∘ Eq.symm)]
          rw [if_pos h3]
        · rw [if_neg h3, if_neg h3, ih]

theorem lookupKey_foldl_insertSorted (k : String) (l acc : List (String × α))
    (hdist : distinctList (l.map Prod.fst) = true) :
    lookupKey k (List.foldl (fun acc kv => insertSorted kv.1 kv.2 acc) acc l) =
      (match lookupKey k l with
       | some v => some v
       | none => lookupKey k acc) := by
  induction l generalizing acc with
  | nil => rfl
  | cons kv rest ih =>
    obtain ⟨k1, v1⟩ := kv
    simp only [List.map_cons, distinctList, Bool.and_eq_true] at hdist
    obtain ⟨hnotin, hdrest⟩ := hdist
    rw [List.foldl_cons, ih _ hdrest, lookupKey]
    by_cases h1 : k1 = k
    · subst h1
      have hnone : lookupKey k1 rest = none := by
        rw [lookupKey_none_iff]
        simpa using hnotin
      rw [hnone, if_pos rfl]
      rw [lookupKey_insertSorted, if_pos rfl]
    · rw [if_neg h1]
      cases hr : lookupKey k rest with
      | some v => rfl
      | none => rw [lookupKey_insertSorted, if_neg h1]

/-- For an entry list with distinct keys, sorting does not change any
lookup. -/
theorem lookupKey_sortByKey (k : String) (l : List (String × α))
    (hdist : distinctList (l.map Prod.fst) = true) :
    lookupKey k (sortByKey l) = lookupKey k l := by
  unfold sortByKey
  rw [lookupKey_foldl_insertSorted k l [] hdist]
  cases lookupKey k l <;> rfl

/-! ## Type well-formedness

In Go a struct type's fields have distinct names; the round-trip law
additionally needs the *stored* names (after `pk` renaming) distinct,
and this recursively at every nesting level. -/

mutual

def TyOK : Ty → Bool
  | .tbool => true
  | .tint _ => true
  | .tuint _ => true
  | .tstr => true
  | .tslice t => TyOK t
  | .tarray _ t => TyOK t
  | .tmap t => TyOK t
  | .tptr t => TyOK t
  | .tstruct fs =>
    distinctList (fs.map fldName) && distinctList (fs.map (fun f => (parseTag f).1))
      && TyOKFields fs

def TyOKFields : List Fld → Bool
  | [] => true
  | f :: fs => TyOK (fldTy f) && TyOKFields fs

end

/-! ## Zero values -/

theorem isZeroList_replicate (t : Ty) (xs : List Value)
    (IH : ∀ v ∈ xs, hasTy t v = true → isZeroV v = true → v = zeroVal t)
    (hty : hasTyList t xs = true) (hz : isZeroList xs = true) :
    xs = List.replicate xs.length (zeroVal t) := by
  induction xs with
  | nil => rfl
  | cons x rest ih =>
    rw [hasTyList] at hty
    rw [isZeroList] at hz
    simp only [Bool.and_eq_true] at hty hz
    have hx : x = zeroVal t := IH x (by simp) hty.1 hz.1
    have hrest := ih (fun v hv => IH v (by simp [hv])) hty.2 hz.2
    subst hx
    rw [List.length_cons, List.replicate_succ]
    exact congrArg (List.cons (zeroVal t)) hrest

theorem isZeroFields_zeroFields (fs : List Fld) (vs : List Value)
    (IH : ∀ v ∈ vs, ∀ t, hasTy t v = true → isZeroV v = true → v = zeroVal t)
    (hty : hasTyFields fs vs = true) (hz : isZeroList vs = true) :
    vs = zeroFields fs := by
  induction fs generalizing vs with
  | nil =>
    cases vs with
    | nil => rfl
    | cons v vs2 => simp [hasTyFields] at hty
  | cons f fs2 ih =>
    cases vs with
    | nil => simp [hasTyFields] at hty
    | cons v vs2 =>
      rw [hasTyFields] at hty
      rw [isZeroList] at hz
      simp only [Bool.and_eq_true] at hty hz
      have hv : v = zeroVal (fldTy f) := IH v (by simp) (fldTy f) hty.1 hz.1
      have hrest := ih vs2 (fun w hw => IH w (by simp [hw])) hty.2 hz.2
      subst hv
      rw [zeroFields]
      exact congrArg (List.cons (zeroVal (fldTy f))) hrest

/-- A well-typed value that `reflect.Value.IsZero` reports zero *is*
the type's zero value. -/
theorem isZeroV_eq_zeroVal : ∀ (N : Nat) (t : Ty) (v : Value), sizeOf v ≤ N →
    hasTy t v = true → isZeroV v = true → v = zeroVal t := by
  intro N
  induction N with
  | zero =>
    intro t v hsz
    cases v <;> simp_arith at hsz
  | succ N ih =>
    intro t v hsz hty hz
    have hmem : ∀ w : Value, ∀ l : List Value, w ∈ l → sizeOf l ≤ N + 1 → sizeOf w ≤ N := by
      intro w l hw hl
      have := List.sizeOf_lt_of_mem hw
      omega
    cases v with
    | vbool b =>
      cases t <;> simp [hasTy] at hty
      rw [isZeroV] at hz
      simp at hz
      rw [hz, zeroVal]
    | vint n =>
      cases t <;> simp [hasTy] at hty
      rw [isZeroV] at hz
      simp at hz
      rw [hz, zeroVal]
    | vuint n =>
      cases t <;> simp [hasTy] at hty
      rw [isZeroV] at hz
      simp at hz
      rw [hz, zeroVal]
    | vstr str =>
      cases t <;> simp [hasTy] at hty
      rw [isZeroV] at hz
      simp at hz
      rw [hz, zeroVal]
    | vslice isNil xs =>
      rw [isZeroV] at hz
      subst hz
      cases t <;> simp [hasTy] at hty
      rw [zeroVal]
      simp [hty.1]
    | varr xs =>
      cases t <;> simp [hasTy] at hty
      rename_i n t2
      rw [isZeroV] at hz
      have hxs := isZeroList_replicate t2 xs
        (fun w hw ht2 hzw => ih t2 w (hmem w xs hw (by simp_arith at hsz; omega)) ht2 hzw)
        hty.2 hz
      rw [zeroVal, ← hty.1, ← hxs]
    | vmap isNil kvs =>
      rw [isZeroV] at hz
      subst hz
      cases t <;> simp [hasTy] at hty
      rw [zeroVal]
      simp [hty.1]
    | vptr p =>
      cases p with
      | none =>
        cases t <;> simp [hasTy] at hty
        rw [zeroVal]
      | some w =>
        rw [isZeroV] at hz
        simp at hz
    | vstruct vs =>
      cases t <;> simp [hasTy] at hty
      rename_i fs
      rw [isZeroV] at hz
      have hvs := isZeroFields_zeroFields fs vs
        (fun w hw t2 ht2 hzw => ih t2 w (hmem w vs hw (by simp_arith at hsz; omega)) ht2 hzw)
        hty hz
      rw [zeroVal, ← hvs]

/-! ## Membership helpers for the list predicates -/

theorem hasTyList_mem {t : Ty} {xs : List Value} (h : hasTyList t xs = true)
    {x : Value} (hx : x ∈ xs) : hasTy t x = true := by
  induction xs with
  | nil => cases hx
  | cons y ys ih =>
    rw [hasTyList] at h
    simp only [Bool.and_eq_true] at h
    rcases List.mem_cons.mp hx with rfl | hx2
    · exact h.1
    · exact ih h.2 hx2

theorem GoodList_mem {t : Ty} {xs : List Value} (h : GoodList t xs = true)
    {x : Value} (hx : x ∈ xs) : Good t x = true := by
  induction xs with
  | nil => cases hx
  | cons y ys ih =>
    rw [GoodList] at h
    simp only [Bool.and_eq_true] at h
    rcases List.mem_cons.mp hx with rfl | hx2
    · exact h.1
    · exact ih h.2 hx2

theorem hasTyVals_mem {t : Ty} {kvs : List (String × Value)} (h : hasTyVals t kvs = true)
    {k : String} {v : Value} (hkv : (k, v) ∈ kvs) : hasTy t v = true := by
  induction kvs with
  | nil => cases hkv
  | cons kv2 rest ih =>
    obtain ⟨k2, v2⟩ := kv2
    rw [hasTyVals] at h
    simp only [Bool.and_eq_true] at h
    rcases List.mem_cons.mp hkv with heq | h2
    · cases heq; exact h.1
    · exact ih h.2 h2

theorem GoodVals_mem {t : Ty} {kvs : List (String × Value)} (h : GoodVals t kvs = true)
    {k : String} {v : Value} (hkv : (k, v) ∈ kvs) : Good t v = true := by
  induction kvs with
  | nil => cases hkv
  | cons kv2 rest ih =>
    obtain ⟨k2, v2⟩ := kv2
    rw [GoodVals] at h
    simp only [Bool.and_eq_true] at h
    rcases List.mem_cons.mp hkv with heq | h2
    · cases heq; exact h.1
    · exact ih h.2 h2

theorem TyOKFields_mem {fs : List Fld} (h : TyOKFields fs = true)
    {f : Fld} (hf : f ∈ fs) : TyOK (fldTy f) = true := by
  induction fs with
  | nil => cases hf
  | cons g gs ih =>
    rw [TyOKFields] at h
    simp only [Bool.and_eq_true] at h
    rcases List.mem_cons.mp hf with rfl | h2
    · exact h.1
    · exact ih h.2 h2

theorem sizeOf_fldTy_lt (f : Fld) : sizeOf (fldTy f) < sizeOf f := by
  obtain ⟨a, b, c⟩ := f
  simp [fldTy]
  omega

theorem jencodeVals_keys (t : Ty) (kvs : List (String × Value)) :
    (jencodeVals t kvs).map Prod.fst = kvs.map Prod.fst := by
  induction kvs with
  | nil => rfl
  | cons kv rest ih =>
    obtain ⟨k, v⟩ := kv
    rw [jencodeVals]
    simp [ih]

/-! ## `encoding/json` round-trip -/

/-- Pointwise JSON round-trip over a struct's fields. -/
def JRT : List Fld → List Value → Prop
  | [], [] => True
  | f :: fs, v :: vs => jdecode (fldTy f) (jencode (fldTy f) v) = .ok v ∧ JRT fs vs
  | _, _ => False

/-- `json.Unmarshal` into a struct recovers each field by looking its Go
name up in the document; any document with the same lookups (for
distinct field names, the encoded object itself) decodes back. -/
theorem jdecodeFields_encoded : ∀ (fs : List Fld) (vs : List Value)
    (kvs' : List (String × Jval)),
    distinctList (fs.map fldName) = true →
    JRT fs vs →
    (∀ f2 ∈ fs, lookupKey (fldName f2) kvs' = lookupKey (fldName f2) (jencodeFields fs vs)) →
    jdecodeFields fs kvs' = .ok vs := by
  intro fs
  induction fs with
  | nil =>
    intro vs kvs' _ hjr _
    cases vs with
    | nil => rw [jdecodeFields]
    | cons v vs2 => cases hjr
  | cons f fs2 ih =>
    intro vs kvs' hdist hjr hagree
    cases vs with
    | nil => cases hjr
    | cons v vs2 =>
      obtain ⟨hjr1, hjr2⟩ := hjr
      simp only [List.map_cons, distinctList, Bool.and_eq_true] at hdist
      obtain ⟨hnotin, hdrest⟩ := hdist
      obtain ⟨nm, tg, ft⟩ := f
      have hlk : lookupKey (fldName (nm, tg, ft)) kvs' = some (jencode ft v) := by
        rw [hagree (nm, tg, ft) (by simp)]
        rw [jencodeFields, lookupKey, if_pos rfl]
      rw [jdecodeFields, hlk]
      simp only []
      rw [hjr1]
      rw [ih vs2 kvs' hdrest hjr2 ?_]
      intro f2 hf2
      have hnm : fldName (nm, tg, ft) ∉ fs2.map fldName := by simpa using hnotin
      have hne : fldName f2 ≠ fldName (nm, tg, ft) := by
        intro heq
        exact hnm (heq ▸ List.mem_map_of_mem fldName hf2)
      rw [hagree f2 (by simp [hf2]), jencodeFields, lookupKey, if_neg (Ne.symm hne)]

/-- Decoding a JSON array of the encoded elements recovers the list. -/
theorem jdecodeList_jencodeList (t : Ty) (xs : List Value)
    (hpt : ∀ x ∈ xs, jdecode t (jencode t x) = .ok x) :
    jdecodeList t (jencodeList t xs) = .ok xs := by
  induction xs with
  | nil => rw [jencodeList, jdecodeList]
  | cons x rest ih =>
    rw [jencodeList, jdecodeList, hpt x (by simp), ih (fun y hy => hpt y (by simp [hy]))]

/-- Filling a Go array from a document of exactly its length recovers
every slot. -/
theorem jdecodeArrElems_exact (t : Ty) : ∀ (n : Nat) (xs : List Value),
    xs.length = n →
    (∀ x ∈ xs, jdecode t (jencode t x) = .ok x) →
    jdecodeArrElems t n (jencodeList t xs) = .ok xs := by
  intro n
  induction n with
  | zero =>
    intro xs hlen _
    rw [List.length_eq_zero] at hlen
    subst hlen
    rw [jencodeList, jdecodeArrElems]
  | succ n2 ih =>
    intro xs hlen hpt
    cases xs with
    | nil => cases hlen
    | cons x rest =>
      rw [jencodeList, jdecodeArrElems, hpt x (by simp)]
      rw [ih rest (by simpa using hlen) (fun y hy => hpt y (by simp [hy]))]

theorem jdecodeVals_jencodeVals (t : Ty) (kvs : List (String × Value))
    (hpt : ∀ p ∈ kvs, jdecode t (jencode t p.2) = .ok p.2) :
    jdecodeVals t (jencodeVals t kvs) = .ok kvs := by
  induction kvs with
  | nil => rw [jencodeVals, jdecodeVals]
  | cons kv rest ih =>
    obtain ⟨k, v⟩ := kv
    rw [jencodeVals, jdecodeVals, hpt (k, v) (by simp)]
    rw [ih (fun p hp => hpt p (by simp [hp]))]

theorem JRT_zero (fs : List Fld)
    (JZf : ∀ f ∈ fs, jdecode (fldTy f) (jencode (fldTy f) (zeroVal (fldTy f))) =
      .ok (zeroVal (fldTy f))) : JRT fs (zeroFields fs) := by
  induction fs with
  | nil => exact trivial
  | cons f fs2 ih =>
    rw [zeroFields]
    exact ⟨JZf f (by simp), ih (fun g hg => JZf g (by simp [hg]))⟩

/-- JSON round-trip of a zero value (`json.Unmarshal(json.Marshal(zero))`
restores zero for every well-formed type). -/
theorem jzero_roundtrip : ∀ (N : Nat) (t : Ty), sizeOf t ≤ N → TyOK t = true →
    jdecode t (jencode t (zeroVal t)) = .ok (zeroVal t) := by
  intro N
  induction N with
  | zero =>
    intro t hsz
    cases t <;> simp_arith at hsz
  | succ N ih =>
    intro t hsz htok
    cases t with
    | tbool => simp [zeroVal, jencode, jdecode]
    | tint bits =>
      rw [zeroVal, jencode, jdecode]
      rw [parseIntB_formatInt bits 0 (neg_nonpos.mpr (by positivity)) (by positivity)]
      rfl
    | tuint bits =>
      rw [zeroVal, jencode, jdecode]
      rw [parseUintB_formatNat bits 0 (by positivity)]
      rfl
    | tstr => simp [zeroVal, jencode, jdecode]
    | tslice t2 => simp [zeroVal, jencode, jdecode]
    | tmap t2 => simp [zeroVal, jencode, jdecode]
    | tptr t2 => simp [zeroVal, jencode, jdecode]
    | tarray n t2 =>
      rw [zeroVal, jencode, jdecode]
      rw [jdecodeArrElems_exact t2 n (List.replicate n (zeroVal t2)) (by simp) ?_]
      · rfl
      · intro x hx
        rw [List.eq_of_mem_replicate hx]
        exact ih t2 (by simp_arith at hsz; omega) (by rw [TyOK] at htok; exact htok)
    | tstruct fs =>
      rw [TyOK] at htok
      simp only [Bool.and_eq_true] at htok
      rw [zeroVal, jencode, jdecode]
      rw [jdecodeFields_encoded fs (zeroFields fs) _ htok.1.1 ?_ (fun _ _ => rfl)]
      · rfl
      · refine JRT_zero fs (fun f hf => ?_)
        refine ih (fldTy f) ?_ (TyOKFields_mem htok.2 hf)
        have h1 := List.sizeOf_lt_of_mem hf
        have h2 := sizeOf_fldTy_lt f
        simp_arith at hsz
        omega

theorem jdecode_tptr_of_ne_null (t : Ty) (j : Jval) (h : j ≠ .null) :
    jdecode (.tptr t) j = (jdecode t j).map (fun w => .vptr (some w)) := by
  cases j <;> first | (exact absurd rfl h) | simp [jdecode]

theorem JRT_build : ∀ (fs : List Fld) (vs : List Value),
    (∀ v ∈ vs, ∀ t2 : Ty, TyOK t2 = true → hasTy t2 v = true → Good t2 v = true →
      jdecode t2 (jencode t2 v) = .ok v) →
    (∀ v ∈ vs, ∀ t2 : Ty, hasTy t2 v = true → isZeroV v = true → v = zeroVal t2) →
    TyOKFields fs = true → hasTyFields fs vs = true → GoodFields fs vs = true →
    JRT fs vs := by
  intro fs
  induction fs with
  | nil =>
    intro vs _ _ _ hty _
    cases vs with
    | nil => exact trivial
    | cons v vs2 => simp [hasTyFields] at hty
  | cons f fs2 ih =>
    intro vs IH IHZ htok hty hg
    cases vs with
    | nil => simp [hasTyFields] at hty
    | cons v vs2 =>
      obtain ⟨nm, tg, ft⟩ := f
      rw [TyOKFields] at htok
      rw [hasTyFields] at hty
      rw [GoodFields] at hg
      simp only [Bool.and_eq_true] at htok hty hg
      have htokf : TyOK ft = true := htok.1
      have hhead : jdecode ft (jencode ft v) = .ok v := by
        have hc := hg.1
        split at hc
        · rw [IHZ v (by simp) ft hty.1 hc]
          exact jzero_roundtrip (sizeOf ft) ft le_rfl htokf
        · split at hc
          · rename_i hcond
            rw [IHZ v (by simp) ft hty.1 hcond.2]
            exact jzero_roundtrip (sizeOf ft) ft le_rfl htokf
          · exact IH v (by simp) ft htokf hty.1 hc
      exact ⟨hhead, ih vs2 (fun w hw => IH w (by simp [hw]))
        (fun w hw => IHZ w (by simp [hw])) htok.2 hty.2 hg.2⟩

/-- `encoding/json` round-trip: marshaling a well-formed good value and
unmarshaling it into a fresh destination of the same type restores the
value exactly (and a good value never marshals to `null`). -/
theorem jdecode_jencode_aux : ∀ (N : Nat) (t : Ty) (v : Value), sizeOf v ≤ N →
    TyOK t = true → hasTy t v = true → Good t v = true →
    jdecode t (jencode t v) = .ok v ∧ jencode t v ≠ .null := by
  intro N
  induction N with
  | zero =>
    intro t v hsz
    cases v <;> simp_arith at hsz
  | succ N ih =>
    intro t v hsz htok hty hgood
    have hmem : ∀ w : Value, ∀ l : List Value, w ∈ l → sizeOf l ≤ N + 1 → sizeOf w ≤ N := by
      intro w l hw hl
      have := List.sizeOf_lt_of_mem hw
      omega
    cases v with
    | vbool b =>
      cases t <;> simp [hasTy] at hty
      exact ⟨by simp [jencode, jdecode], by simp [jencode]⟩
    | vint n =>
      cases t <;> simp [hasTy] at hty
      rename_i bits
      rw [Good] at hgood
      simp only [decide_eq_true_eq] at hgood
      refine ⟨?_, by simp [jencode]⟩
      rw [jencode, jdecode, parseIntB_formatInt bits n hgood.1 hgood.2]
      rfl
    | vuint n =>
      cases t <;> simp [hasTy] at hty
      rename_i bits
      rw [Good] at hgood
      simp only [decide_eq_true_eq] at hgood
      refine ⟨?_, by simp [jencode]⟩
      rw [jencode, jdecode, parseUintB_formatNat bits n hgood]
      rfl
    | vstr str =>
      cases t <;> simp [hasTy] at hty
      exact ⟨by simp [jencode, jdecode], by simp [jencode]⟩
    | vslice isNil xs =>
      cases t <;> simp [hasTy] at hty
      rename_i t2
      rw [Good] at hgood
      simp only [Bool.and_eq_true, Bool.not_eq_true'] at hgood
      obtain ⟨⟨hnil, hne⟩, hgl⟩ := hgood
      subst hnil
      rw [TyOK] at htok
      have hlist := jdecodeList_jencodeList t2 xs (fun x hx =>
        (ih t2 x (hmem x xs hx (by simp_arith at hsz; omega)) htok
          (hasTyList_mem hty.2 hx) (GoodList_mem hgl hx)).1)
      refine ⟨?_, by simp [jencode]⟩
      simp [jencode, jdecode, hlist, Except.map]
    | varr xs =>
      cases t <;> simp [hasTy] at hty
      rename_i n t2
      rw [Good] at hgood
      rw [TyOK] at htok
      have harr := jdecodeArrElems_exact t2 n xs hty.1 (fun x hx =>
        (ih t2 x (hmem x xs hx (by simp_arith at hsz; omega)) htok
          (hasTyList_mem hty.2 hx) (GoodList_mem hgood hx)).1)
      refine ⟨?_, by simp [jencode]⟩
      simp [jencode, jdecode, harr, Except.map]
    | vmap isNil kvs =>
      cases t <;> simp [hasTy] at hty
      rename_i t2
      rw [Good] at hgood
      simp only [Bool.and_eq_true, Bool.not_eq_true'] at hgood
      obtain ⟨⟨hnil, hsorted⟩, hgv⟩ := hgood
      subst hnil
      rw [TyOK] at htok
      have hkeys := jencodeVals_keys t2 kvs
      have hsorted2 : keysStrictSorted (jencodeVals t2 kvs) = true := by
        rw [keysStrictSorted_congr _ kvs hkeys]
        exact hsorted
      have hvals := jdecodeVals_jencodeVals t2 kvs (fun p hp =>
        (ih t2 p.2 (by
            have : sizeOf p.2 < sizeOf kvs := by
              have h1 := List.sizeOf_lt_of_mem hp
              obtain ⟨pk, pv⟩ := p
              simp_arith at h1 ⊢
              omega
            simp_arith at hsz
            omega) htok
          (hasTyVals_mem hty.2 hp) (GoodVals_mem hgv hp)).1)
      refine ⟨?_, by simp [jencode]⟩
      rw [jencode]
      simp only [Bool.false_eq_true, if_false]
      rw [sortByKey_sorted_id _ hsorted2]
      simp [jdecode, hvals, Except.map]
    | vptr p =>
      cases p with
      | none =>
        cases t <;> simp [hasTy] at hty <;> simp [Good] at hgood
      | some w =>
        cases t <;> simp [hasTy] at hty
        rename_i t2
        rw [Good] at hgood
        rw [TyOK] at htok
        obtain ⟨hd, hnn⟩ := ih t2 w (by simp_arith at hsz; omega) htok hty hgood
        constructor
        · rw [jencode, jdecode_tptr_of_ne_null t2 _ hnn, hd]
          rfl
        · rw [jencode]
          exact hnn
    | vstruct vs =>
      cases t <;> simp [hasTy] at hty
      rename_i fs
      rw [Good] at hgood
      rw [TyOK] at htok
      simp only [Bool.and_eq_true] at hgood htok
      have hjrt := JRT_build fs vs
        (fun w hw t2 ht2 hh hg =>
          (ih t2 w (hmem w vs hw (by simp_arith at hsz; omega)) ht2 hh hg).1)
        (fun w hw t2 hh hz =>
          isZeroV_eq_zeroVal (sizeOf w) t2 w le_rfl hh hz)
        htok.2 hty hgood.2
      refine ⟨?_, by simp [jencode]⟩
      rw [jencode, jdecode]
      rw [jdecodeFields_encoded fs vs _ htok.1.1 hjrt (fun _ _ => rfl)]
      rfl

/-! ## Decoding an encoded mapping -/

theorem lookupKey_append (k : String) (l1 l2 : List (String × α)) :
    lookupKey k (l1 ++ l2) =
      (match lookupKey k l1 with
       | some v => some v
       | none => lookupKey k l2) := by
  induction l1 with
  | nil => rfl
  | cons kv rest ih =>
    obtain ⟨k2, v2⟩ := kv
    rw [List.cons_append, lookupKey, lookupKey]
    by_cases h : k2 = k
    · rw [if_pos h, if_pos h]
    · rw [if_neg h, if_neg h, ih]

theorem map_fst_wrap (l : List (String × Ref)) :
    (l.map (fun p => (p.1, Jval.jref p.2))).map Prod.fst = l.map Prod.fst := by
  induction l with
  | nil => rfl
  | cons kv rest ih => simp [ih]

/-- Pointwise decode of a stored key→ref list back to the original map
entries. -/
def pairsDecode (et : Ty) : List (String × Ref) → List (String × Value) → Store → Prop
  | [], [], _ => True
  | (k, r) :: ps, (k2, v) :: kvs, s =>
    k = k2 ∧ Decode et r (zeroVal et) s = .ok v ∧ pairsDecode et ps kvs s
  | _, _, _ => False

/-- `buildMap` over a key→ref list whose refs decode pointwise, with
distinct keys all fresh for the accumulator, appends the decoded
entries in order. -/
theorem buildMapEntries_pairsDecode (et : Ty) :
    ∀ (ps : List (String × Ref)) (kvs : List (String × Value)) (s : Store)
      (acc : List (String × Value)),
    pairsDecode et ps kvs s →
    distinctList (ps.map Prod.fst) = true →
    (∀ k ∈ ps.map Prod.fst, lookupKey k acc = none) →
    buildMapEntries et acc ps s = .ok (acc ++ kvs) := by
  intro ps
  induction ps with
  | nil =>
    intro kvs s acc hpd _ _
    cases kvs with
    | nil => rw [buildMapEntries]; simp
    | cons kv rest => cases hpd
  | cons p ps2 ih =>
    obtain ⟨k, r⟩ := p
    intro kvs s acc hpd hdist hacc
    cases kvs with
    | nil => cases hpd
    | cons kv2 rest =>
      obtain ⟨k2, v⟩ := kv2
      obtain ⟨hk, hdec, hpd2⟩ := hpd
      subst hk
      simp only [List.map_cons, distinctList, Bool.and_eq_true] at hdist
      obtain ⟨hnotin, hdrest⟩ := hdist
      rw [buildMapEntries, hdec]
      show buildMapEntries et (setKey k v acc) ps2 s = .ok (acc ++ (k, v) :: rest)
      rw [setKey_append k v acc (hacc k (by simp))]
      rw [ih rest s (acc ++ [(k, v)]) hpd2 hdrest ?_]
      · simp
      · intro k3 hk3
        rw [lookupKey_append]
        rw [hacc k3 (by simp [hk3])]
        have hne : k ≠ k3 := by
          intro heq
          subst heq
          simp at hnotin
          obtain ⟨⟨k4, r4⟩, hp4, hfst4⟩ := List.mem_map.mp hk3
          simp at hfst4
          subst hfst4
          exact hnotin r4 hp4
        rw [lookupKey, if_neg hne]
        rfl

theorem buildArrayElems_nil (et : Ty) (n : Nat) (s : Store) :
    buildArrayElems et n [] s = .ok (List.replicate n (zeroVal et)) := by
  cases n with
  | zero => rw [buildArrayElems]; simp
  | succ n2 => rw [buildArrayElems]

/-- Decoding a struct field whose key is absent from the stored object:
the slot stays zero, except that a non-external, non-inline map field
is rebuilt as an empty non-nil map by `buildMap`'s unconditional
allocation. -/
theorem absent_key_decode (f : Fld) (kvs' : List (String × Jval)) (s : Store)
    (homit : (parseTag f).2.«omit» = false)
    (hlk : lookupKey (parseTag f).1 kvs' = none) :
    ∃ iv, parseIField f kvs' = .ok iv ∧
      decodeField1 f iv (zeroVal (fldTy f)) s =
        .ok (if !(parseTag f).2.inline && isNonExtMapFld f then .vmap false []
             else zeroVal (fldTy f)) := by
  by_cases hinl : (parseTag f).2.inline = true
  · refine ⟨.ival (zeroVal (fldTy f)), ?_, ?_⟩
    · rw [parseIField]
      simp only [intermediateFieldTy, homit, hinl, Bool.false_or, if_true]
      rw [hlk]
    · rw [decodeField1]
      simp [homit, hinl, isNonExtMapFld]
  · have hinl2 : (parseTag f).2.inline = false := by simpa using hinl
    by_cases hext : (parseTag f).2.external = true
    · refine ⟨.iref1 none, ?_, ?_⟩
      · rw [parseIField]
        simp only [intermediateFieldTy, homit, hinl2, hext]
        rw [hlk]
        simp
      · rw [decodeField1]
        simp [homit, hinl2, hext, isNonExtMapFld]
    · have hext2 : (parseTag f).2.external = false := by simpa using hext
      have hnem : ∀ et2 : Ty, fldTy f = Ty.tmap et2 → isNonExtMapFld f = true := by
        intro et2 h2
        rw [isNonExtMapFld, hext2, h2]
        rfl
      have hnotm : (∀ et2 : Ty, fldTy f = Ty.tmap et2 → False) → isNonExtMapFld f = false := by
        intro h2
        rw [isNonExtMapFld]
        cases hf2 : fldTy f <;> simp [hext2]
        exact h2 _ hf2
      cases hft : fldTy f with
      | tslice et =>
        refine ⟨.irefs [], ?_, ?_⟩
        · rw [parseIField]
          simp only [intermediateFieldTy, homit, hinl2, hext2, hft]
          rw [hlk]
          simp
        · rw [decodeField1]
          simp only [homit, hinl2, hext2, Bool.false_eq_true, if_false,
            Bool.not_false, Bool.true_and]
          rw [if_pos (show isContainerTy (fldTy f) = true by rw [hft]; rfl)]
          split
          · rename_i et1 heq
            rw [hft] at heq
            injection heq with h1
            subst h1
            rw [buildSliceElems]
            rw [hnotm (fun et2 h2 => by rw [hft] at h2; exact Ty.noConfusion h2)]
            simp [hft, zeroVal, sliceIsNil, Except.map]
          · rename_i n1 et1 heq
            rw [hft] at heq
            exact Ty.noConfusion heq
          · rename_i et1 heq
            rw [hft] at heq
            exact Ty.noConfusion heq
          · rename_i h1 h2 h3
            exact (h1 et hft).elim
          all_goals simp
      | tarray n et =>
        refine ⟨.irefs [], ?_, ?_⟩
        · rw [parseIField]
          simp only [intermediateFieldTy, homit, hinl2, hext2, hft]
          rw [hlk]
          simp
        · rw [decodeField1]
          simp only [homit, hinl2, hext2, Bool.false_eq_true, if_false,
            Bool.not_false, Bool.true_and]
          rw [if_pos (show isContainerTy (fldTy f) = true by rw [hft]; rfl)]
          split
          · rename_i et1 heq
            rw [hft] at heq
            exact Ty.noConfusion heq
          · rename_i n1 et1 heq
            rw [hft] at heq
            injection heq with h1 h2
            subst h1
            subst h2
            rw [buildArrayElems_nil]
            rw [hnotm (fun et2 h2 => by rw [hft] at h2; exact Ty.noConfusion h2)]
            simp [hft, zeroVal, Except.map]
          · rename_i et1 heq
            rw [hft] at heq
            exact Ty.noConfusion heq
          · rename_i h1 h2 h3
            exact (h2 n et hft).elim
          all_goals simp
      | tmap et =>
        refine ⟨.irefmap [], ?_, ?_⟩
        · rw [parseIField]
          simp only [intermediateFieldTy, homit, hinl2, hext2, hft]
          rw [hlk]
          simp
        · rw [decodeField1]
          simp only [homit, hinl2, hext2, Bool.false_eq_true, if_false,
            Bool.not_false, Bool.true_and]
          rw [if_pos (show isContainerTy (fldTy f) = true by rw [hft]; rfl)]
          split
          · rename_i et1 heq
            rw [hft] at heq
            exact Ty.noConfusion heq
          · rename_i n1 et1 heq
            rw [hft] at heq
            exact Ty.noConfusion heq
          · rename_i et1 heq
            rw [hft] at heq
            injection heq with h1
            subst h1
            rw [hnem et hft]
            simp only [hft, zeroVal, mapEntries]
            rw [buildMapEntries]
            simp [Except.map]
          · rename_i h1 h2 h3
            exact (h3 et hft).elim
          all_goals simp
      | tbool =>
        refine ⟨.iref1 none, ?_, ?_⟩
        · rw [parseIField]
          simp only [intermediateFieldTy, homit, hinl2, hext2, hft]
          rw [hlk]
          simp
        · rw [decodeField1]
          simp only [homit, hinl2, hext2, Bool.false_eq_true, if_false,
            Bool.not_false, Bool.true_and]
          rw [if_neg (show ¬ isContainerTy (fldTy f) = true by rw [hft]; simp [isContainerTy])]
          rw [hnotm (fun et2 h2 => by rw [hft] at h2; exact Ty.noConfusion h2)]
          simp [hinl2]
      | tint bits =>
        refine ⟨.iref1 none, ?_, ?_⟩
        · rw [parseIField]
          simp only [intermediateFieldTy, homit, hinl2, hext2, hft]
          rw [hlk]
          simp
        · rw [decodeField1]
          simp only [homit, hinl2, hext2, Bool.false_eq_true, if_false,
            Bool.not_false, Bool.true_and]
          rw [if_neg (show ¬ isContainerTy (fldTy f) = true by rw [hft]; simp [isContainerTy])]
          rw [hnotm (fun et2 h2 => by rw [hft] at h2; exact Ty.noConfusion h2)]
          simp [hinl2]
      | tuint bits =>
        refine ⟨.iref1 none, ?_, ?_⟩
        · rw [parseIField]
          simp only [intermediateFieldTy, homit, hinl2, hext2, hft]
          rw [hlk]
          simp
        · rw [decodeField1]
          simp only [homit, hinl2, hext2, Bool.false_eq_true, if_false,
            Bool.not_false, Bool.true_and]
          rw [if_neg (show ¬ isContainerTy (fldTy f) = true by rw [hft]; simp [isContainerTy])]
          rw [hnotm (fun et2 h2 => by rw [hft] at h2; exact Ty.noConfusion h2)]
          simp [hinl2]
      | tstr =>
        refine ⟨.iref1 none, ?_, ?_⟩
        · rw [parseIField]
          simp only [intermediateFieldTy, homit, hinl2, hext2, hft]
          rw [hlk]
          simp
        · rw [decodeField1]
          simp only [homit, hinl2, hext2, Bool.false_eq_true, if_false,
            Bool.not_false, Bool.true_and]
          rw [if_neg (show ¬ isContainerTy (fldTy f) = true by rw [hft]; simp [isContainerTy])]
          rw [hnotm (fun et2 h2 => by rw [hft] at h2; exact Ty.noConfusion h2)]
          simp [hinl2]
      | tptr et =>
        refine ⟨.iref1 none, ?_, ?_⟩
        · rw [parseIField]
          simp only [intermediateFieldTy, homit, hinl2, hext2, hft]
          rw [hlk]
          simp
        · rw [decodeField1]
          simp only [homit, hinl2, hext2, Bool.false_eq_true, if_false,
            Bool.not_false, Bool.true_and]
          rw [if_neg (show ¬ isContainerTy (fldTy f) = true by rw [hft]; simp [isContainerTy])]
          rw [hnotm (fun et2 h2 => by rw [hft] at h2; exact Ty.noConfusion h2)]
          simp [hinl2]
      | tstruct fs2 =>
        refine ⟨.iref1 none, ?_, ?_⟩
        · rw [parseIField]
          simp only [intermediateFieldTy, homit, hinl2, hext2, hft]
          rw [hlk]
          simp
        · rw [decodeField1]
          simp only [homit, hinl2, hext2, Bool.false_eq_true, if_false,
            Bool.not_false, Bool.true_and]
          rw [if_neg (show ¬ isContainerTy (fldTy f) = true by rw [hft]; simp [isContainerTy])]
          rw [hnotm (fun et2 h2 => by rw [hft] at h2; exact Ty.noConfusion h2)]
          simp [hinl2]

/-! ## The round-trip law: evaluation helpers -/

theorem recvOk_eq (b : Blob) (s : Store) : recvOk b s = (.ok b, (receiveBlob b s).2) := rfl

theorem intermediateFieldTy_orig (f : Fld)
    (h : ((parseTag f).2.«omit» || (parseTag f).2.inline) = true) :
    intermediateFieldTy f = .iorig (fldTy f) := by
  rw [intermediateFieldTy]
  simp [h]

theorem intermediateFieldTy_ext (f : Fld)
    (homit : (parseTag f).2.«omit» = false)
    (hinl : (parseTag f).2.inline = false)
    (hext : (parseTag f).2.external = true) :
    intermediateFieldTy f = .irefTy := by
  rw [intermediateFieldTy]
  simp [homit, hinl, hext]

theorem intermediateFieldTy_slice (f : Fld) (t : Ty) (hft : fldTy f = .tslice t)
    (homit : (parseTag f).2.«omit» = false)
    (hinl : (parseTag f).2.inline = false)
    (hext : (parseTag f).2.external = false) :
    intermediateFieldTy f = .isliceRef := by
  rw [intermediateFieldTy]
  simp [homit, hinl, hext, hft]

theorem intermediateFieldTy_array (f : Fld) (n : Nat) (t : Ty)
    (hft : fldTy f = .tarray n t)
    (homit : (parseTag f).2.«omit» = false)
    (hinl : (parseTag f).2.inline = false)
    (hext : (parseTag f).2.external = false) :
    intermediateFieldTy f = .isliceRef := by
  rw [intermediateFieldTy]
  simp [homit, hinl, hext, hft]

theorem intermediateFieldTy_map (f : Fld) (t : Ty) (hft : fldTy f = .tmap t)
    (homit : (parseTag f).2.«omit» = false)
    (hinl : (parseTag f).2.inline = false)
    (hext : (parseTag f).2.external = false) :
    intermediateFieldTy f = .imapRef := by
  rw [intermediateFieldTy]
  simp [homit, hinl, hext, hft]

theorem intermediateFieldTy_scalar (f : Fld)
    (homit : (parseTag f).2.«omit» = false)
    (hinl : (parseTag f).2.inline = false)
    (hext : (parseTag f).2.external = false)
    (hcont : isContainerTy (fldTy f) = false) :
    intermediateFieldTy f = .irefTy := by
  rw [intermediateFieldTy]
  simp only [homit, hinl, hext, Bool.false_or, Bool.false_eq_true, if_false,
    Bool.not_false, if_true]
  cases hft : fldTy f <;> first
    | rfl
    | (rw [hft] at hcont; exact absurd hcont (by rw [isContainerTy]; simp))

theorem decodeField1_inline (f : Fld) (w : Value) (oldf : Value) (s : Store)
    (homit : (parseTag f).2.«omit» = false)
    (hinl : (parseTag f).2.inline = true) :
    decodeField1 f (.ival w) oldf s = .ok w := by
  rw [decodeField1]
  simp [homit, hinl]

theorem decodeField1_iref1 (f : Fld) (orf : Option Ref) (oldf : Value) (s : Store)
    (homit : (parseTag f).2.«omit» = false)
    (hinl : (parseTag f).2.inline = false)
    (hnc : (!(parseTag f).2.external && isContainerTy (fldTy f)) = false) :
    decodeField1 f (.iref1 orf) oldf s =
      (match orf with
       | none => .ok oldf
       | some r => Decode (fldTy f) r (zeroVal (fldTy f)) s) := by
  cases orf with
  | none =>
    rw [decodeField1]
    simp [homit, hinl, hnc]
  | some r =>
    rw [decodeField1]
    simp [homit, hinl, hnc]

theorem decodeField1_slice (f : Fld) (t : Ty) (hft : fldTy f = .tslice t)
    (refs : List Ref) (oldf : Value) (s : Store)
    (homit : (parseTag f).2.«omit» = false)
    (hinl : (parseTag f).2.inline = false)
    (hext : (parseTag f).2.external = false) :
    decodeField1 f (.irefs refs) oldf s =
      (buildSliceElems t refs s).map
        (fun vs => .vslice (sliceIsNil oldf && refs.isEmpty) vs) := by
  rw [decodeField1]
  simp only [homit, hinl, hext, Bool.false_eq_true, if_false, Bool.not_false,
    Bool.true_and]
  rw [if_pos (show isContainerTy (fldTy f) = true by rw [hft]; rfl)]
  split
  · rename_i et1 heq
    rw [hft] at heq
    injection heq with h1
    subst h1
    rfl
  · rename_i n1 et1 heq
    rw [hft] at heq
    exact Ty.noConfusion heq
  · rename_i et1 heq
    rw [hft] at heq
    exact Ty.noConfusion heq
  · rename_i h1 h2 h3
    exact (h1 t hft).elim
  all_goals simp

theorem decodeField1_array (f : Fld) (n : Nat) (t : Ty) (hft : fldTy f = .tarray n t)
    (refs : List Ref) (oldf : Value) (s : Store)
    (homit : (parseTag f).2.«omit» = false)
    (hinl : (parseTag f).2.inline = false)
    (hext : (parseTag f).2.external = false) :
    decodeField1 f (.irefs refs) oldf s = (buildArrayElems t n refs s).map .varr := by
  rw [decodeField1]
  simp only [homit, hinl, hext, Bool.false_eq_true, if_false, Bool.not_false,
    Bool.true_and]
  rw [if_pos (show isContainerTy (fldTy f) = true by rw [hft]; rfl)]
  split
  · rename_i et1 heq
    rw [hft] at heq
    exact Ty.noConfusion heq
  · rename_i n1 et1 heq
    rw [hft] at heq
    injection heq with h1 h2
    subst h1
    subst h2
    rfl
  · rename_i et1 heq
    rw [hft] at heq
    exact Ty.noConfusion heq
  · rename_i h1 h2 h3
    exact (h2 n t hft).elim
  all_goals simp

theorem decodeField1_map (f : Fld) (t : Ty) (hft : fldTy f = .tmap t)
    (rm : List (String × Ref)) (oldf : Value) (s : Store)
    (homit : (parseTag f).2.«omit» = false)
    (hinl : (parseTag f).2.inline = false)
    (hext : (parseTag f).2.external = false) :
    decodeField1 f (.irefmap rm) oldf s =
      (buildMapEntries t (mapEntries oldf) rm s).map (.vmap false) := by
  rw [decodeField1]
  simp only [homit, hinl, hext, Bool.false_eq_true, if_false, Bool.not_false,
    Bool.true_and]
  rw [if_pos (show isContainerTy (fldTy f) = true by rw [hft]; rfl)]
  split
  · rename_i et1 heq
    rw [hft] at heq
    exact Ty.noConfusion heq
  · rename_i n1 et1 heq
    rw [hft] at heq
    exact Ty.noConfusion heq
  · rename_i et1 heq
    rw [hft] at heq
    injection heq with h1
    subst h1
    rfl
  · rename_i h1 h2 h3
    exact (h3 t hft).elim
  all_goals simp

/-- `parseIField` on a `[]blob.Ref`-shaped slot. -/
theorem parseIField_sliceRef (f : Fld) (kvs' : List (String × Jval)) (refs : List Ref)
    (hsh : intermediateFieldTy f = .isliceRef)
    (hlk : lookupKey (parseTag f).1 kvs' = some (refsArrJval refs)) :
    parseIField f kvs' = .ok (.irefs refs) := by
  rw [parseIField, hsh]
  rw [hlk]
  cases refs with
  | nil => rfl
  | cons r0 rs0 =>
    rw [show refsArrJval (r0 :: rs0) = .jarr ((r0 :: rs0).map .jref) from rfl]
    show (refListOf ((r0 :: rs0).map .jref)).map IVal.irefs = _
    rw [refListOf_map_jref]
    rfl

/-- `parseIField` on a `map[K]blob.Ref`-shaped slot. -/
theorem parseIField_mapRef (f : Fld) (kvs' : List (String × Jval)) (rm : List (String × Ref))
    (hsh : intermediateFieldTy f = .imapRef)
    (hlk : lookupKey (parseTag f).1 kvs' =
      some (.jobj (rm.map (fun p => (p.1, Jval.jref p.2))))) :
    parseIField f kvs' = .ok (.irefmap rm) := by
  rw [parseIField, hsh]
  rw [hlk]
  show (refMapOf (rm.map (fun p => (p.1, Jval.jref p.2)))).map IVal.irefmap = _
  rw [refMapOf_map_jref]
  rfl

/-- `parseIField` on a single-Ref slot holding a ref string. -/
theorem parseIField_refTy (f : Fld) (kvs' : List (String × Jval)) (r : Ref)
    (hsh : intermediateFieldTy f = .irefTy)
    (hlk : lookupKey (parseTag f).1 kvs' = some (.jref r)) :
    parseIField f kvs' = .ok (.iref1 (some r)) := by
  rw [parseIField, hsh]
  rw [hlk]

/-- `parseIField` on an original-type slot (skipped or inline field). -/
theorem parseIField_orig (f : Fld) (kvs' : List (String × Jval)) (j : Jval)
    (hsh : intermediateFieldTy f = .iorig (fldTy f))
    (hlk : lookupKey (parseTag f).1 kvs' = some j) :
    parseIField f kvs' = (jdecode (fldTy f) j).map .ival := by
  rw [parseIField, hsh]
  rw [hlk]

/-- One-step evaluation of `encodeStructField1` for a non-external
slice field. -/
theorem encodeStructField1_slice (f : Fld) (t : Ty) (hft : fldTy f = .tslice t)
    (isNil : Bool) (xs : List Value) (s : Store)
    (hinl : (parseTag f).2.inline = false) (hext : (parseTag f).2.external = false) :
    encodeStructField1 f (.vslice isNil xs) s =
      (match encodeSliceOrArray t xs s with
       | (.error e, s2) => (.error e, s2)
       | (.ok refs, s2) => (.ok (refsArrJval refs), s2)) := by
  rw [encodeStructField1]
  simp only [hinl, hext, hft, Bool.false_eq_true, if_false]

/-- One-step evaluation of `encodeStructField1` for a non-external
array field. -/
theorem encodeStructField1_array (f : Fld) (n : Nat) (t : Ty)
    (hft : fldTy f = .tarray n t)
    (xs : List Value) (s : Store)
    (hinl : (parseTag f).2.inline = false) (hext : (parseTag f).2.external = false) :
    encodeStructField1 f (.varr xs) s =
      (match encodeSliceOrArray t xs s with
       | (.error e, s2) => (.error e, s2)
       | (.ok refs, s2) => (.ok (refsArrJval refs), s2)) := by
  rw [encodeStructField1]
  simp only [hinl, hext, hft, Bool.false_eq_true, if_false]

/-- One-step evaluation of `encodeStructField1` for a non-external
map field. -/
theorem encodeStructField1_map (f : Fld) (t : Ty) (hft : fldTy f = .tmap t)
    (isNil : Bool) (kvs : List (String × Value)) (s : Store)
    (hinl : (parseTag f).2.inline = false) (hext : (parseTag f).2.external = false) :
    encodeStructField1 f (.vmap isNil kvs) s =
      (match encodeMap t kvs s with
       | (.error e, s2) => (.error e, s2)
       | (.ok pairs, s2) =>
           (.ok (.jobj (sortByKey (pairs.map (fun p => (p.1, Jval.jref p.2))))), s2)) := by
  rw [encodeStructField1]
  simp only [hinl, hext, hft, Bool.false_eq_true, if_false]

/-- One-step evaluation of `encodeStructField1` for an external field. -/
theorem encodeStructField1_ext (f : Fld) (v : Value) (s : Store)
    (hinl : (parseTag f).2.inline = false) (hext : (parseTag f).2.external = true) :
    encodeStructField1 f v s =
      (match Encode (fldTy f) v s with
       | (.error e, s2) => (.error e, s2)
       | (.ok r, s2) => (.ok (.jref r), s2)) := by
  rw [encodeStructField1]
  simp only [hinl, hext, Bool.false_eq_true, if_false, if_true]

/-- One-step evaluation of `encodeStructField1` for a non-external field
of non-container type. -/
theorem encodeStructField1_scalar (f : Fld) (v : Value) (s : Store)
    (hinl : (parseTag f).2.inline = false) (hext : (parseTag f).2.external = false)
    (hn1 : ∀ t, fldTy f ≠ .tslice t) (hn2 : ∀ n t, fldTy f ≠ .tarray n t)
    (hn3 : ∀ t, fldTy f ≠ .tmap t) :
    encodeStructField1 f v s =
      (match Encode (fldTy f) v s with
       | (.error e, s2) => (.error e, s2)
       | (.ok r, s2) => (.ok (.jref r), s2)) := by
  rw [encodeStructField1]
  simp only [hinl, hext, Bool.false_eq_true, if_false]
  try split
  all_goals first
    | rfl
    | (rename_i t9 hft9; exact (hn1 t9 hft9).elim)
    | (rename_i n9 t9 hft9; exact (hn2 n9 t9 hft9).elim)

theorem encodeStructField1_inline (f : Fld) (v : Value) (s : Store)
    (hinl : (parseTag f).2.inline = true) :
    encodeStructField1 f v s = (.ok (jencode (fldTy f) v), s) := by
  rw [encodeStructField1]
  simp [hinl]

/-- One-step evaluation of an `Encode` container arm. -/
theorem Encode_slice_eval (t : Ty) (xs : List Value) (s : Store) :
    Encode (.tslice t) (.vslice false xs) s =
      (match encodeSliceOrArray t xs s with
       | (.error e, s2) => (.error e, s2)
       | (.ok refs, s2) => recvOk (.json (refsArrJval refs)) s2) := by
  rcases hE : encodeSliceOrArray t xs s with ⟨res, s2⟩
  cases res <;> simp [Encode, hE]

theorem Encode_array_eval (n : Nat) (t : Ty) (xs : List Value) (s : Store) :
    Encode (.tarray n t) (.varr xs) s =
      (match encodeSliceOrArray t xs s with
       | (.error e, s2) => (.error e, s2)
       | (.ok refs, s2) => recvOk (.json (refsArrJval refs)) s2) := by
  rcases hE : encodeSliceOrArray t xs s with ⟨res, s2⟩
  cases res <;> simp [Encode, hE]

theorem Encode_map_eval (t : Ty) (kvs : List (String × Value)) (s : Store) :
    Encode (.tmap t) (.vmap false kvs) s =
      (match encodeMap t kvs s with
       | (.error e, s2) => (.error e, s2)
       | (.ok pairs, s2) =>
         recvOk (.json (.jobj (sortByKey (pairs.map (fun p => (p.1, Jval.jref p.2)))))) s2) := by
  rcases hE : encodeMap t kvs s with ⟨res, s2⟩
  cases res <;> simp [Encode, hE]

theorem Encode_struct_eval (fs : List Fld) (vs : List Value) (s : Store) :
    Encode (.tstruct fs) (.vstruct vs) s =
      (match encodeStructFields fs vs s with
       | (.error e, s2) => (.error e, s2)
       | (.ok m, s2) => recvOk (.json (.jobj (sortByKey m))) s2) := by
  rcases hE : encodeStructFields fs vs s with ⟨res, s2⟩
  cases res <;> simp [Encode, hE]

/-- One-step evaluation of the `Decode` dispatch, per destination kind. -/
theorem Decode_bool_eval (ref : Ref) (old : Value) (s : Store) :
    Decode .tbool ref old s =
      (match fetchBlob ref s with
       | .error e => .error e
       | .ok b => .ok (.vbool (decide (0 < (blobBytes b).length)))) := by
  rw [Decode]

theorem Decode_int_eval (bits : Nat) (ref : Ref) (old : Value) (s : Store) :
    Decode (.tint bits) ref old s =
      (match fetchBlob ref s with
       | .error e => .error e
       | .ok b => (parseIntB bits (blobBytes b)).map .vint) := by
  rw [Decode]

theorem Decode_uint_eval (bits : Nat) (ref : Ref) (old : Value) (s : Store) :
    Decode (.tuint bits) ref old s =
      (match fetchBlob ref s with
       | .error e => .error e
       | .ok b => (parseUintB bits (blobBytes b)).map .vuint) := by
  rw [Decode]

theorem Decode_str_eval (ref : Ref) (old : Value) (s : Store) :
    Decode .tstr ref old s =
      (match fetchBlob ref s with
       | .error e => .error e
       | .ok b => .ok (.vstr (blobBytes b))) := by
  rw [Decode]

theorem Decode_slice_eval (et : Ty) (ref : Ref) (old : Value) (s : Store) :
    Decode (.tslice et) ref old s =
      (match fetchBlob ref s with
       | .error e => .error e
       | .ok b =>
         match refsOfBlob b with
         | .error e => .error e
         | .ok refs =>
           (buildSliceElems et refs s).map
             (fun vs => .vslice (sliceIsNil old && refs.isEmpty) vs)) := by
  rw [Decode]

theorem Decode_array_eval (n : Nat) (et : Ty) (ref : Ref) (old : Value) (s : Store) :
    Decode (.tarray n et) ref old s =
      (match fetchBlob ref s with
       | .error e => .error e
       | .ok b =>
         match refsOfBlob b with
         | .error e => .error e
         | .ok refs => (buildArrayElems et n refs s).map .varr) := by
  rw [Decode]

theorem Decode_map_eval (et : Ty) (ref : Ref) (old : Value) (s : Store) :
    Decode (.tmap et) ref old s =
      (match fetchBlob ref s with
       | .error e => .error e
       | .ok b =>
         match refMapOfBlob b with
         | .error e => .error e
         | .ok refsMap => (buildMapEntries et (mapEntries old) refsMap s).map (.vmap false)) := by
  rw [Decode]

theorem Decode_struct_eval (fs : List Fld) (ref : Ref) (old : Value) (s : Store) :
    Decode (.tstruct fs) ref old s =
      (match fetchBlob ref s with
       | .error e => .error e
       | .ok b =>
         match objOfBlob b with
         | .error e => .error e
         | .ok kvs =>
           match parseIntermediate fs kvs with
           | .error e => .error e
           | .ok ivals => (decodeFields fs ivals (structFieldVals old) s).map .vstruct) := by
  rw [Decode]

theorem Decode_ptr_zero_eval (et : Ty) (ref : Ref) (s : Store) :
    Decode (.tptr et) ref (zeroVal (.tptr et)) s =
      (match fetchBlob ref s with
       | .error e => .error e
       | .ok _ => (Decode et ref (zeroVal et) s).map (fun w => .vptr (some w))) := by
  rw [Decode, zeroVal]

/-- The ref-list JSON written by the encoder reads back as the same
refs (`null` for the nil slice of refs, an array of ref strings
otherwise). -/
theorem refsOfBlob_refsArr (refs : List Ref) :
    refsOfBlob (.json (refsArrJval refs)) = .ok refs := by
  cases refs with
  | nil => rfl
  | cons r rs =>
    show refListOf ((r :: rs).map .jref) = _
    rw [refListOf_map_jref]

/-- `parseIField` on an original-type slot whose key is absent. -/
theorem parseIField_orig_absent (f : Fld) (kvs' : List (String × Jval))
    (hsh : intermediateFieldTy f = .iorig (fldTy f))
    (hlk : lookupKey (parseTag f).1 kvs' = none) :
    parseIField f kvs' = .ok (.ival (zeroVal (fldTy f))) := by
  rw [parseIField, hsh]
  rw [hlk]

/-- A skipped field's destination slot is never touched by `decodeField1`. -/
theorem decodeField1_omit (f : Fld) (iv : IVal) (oldf : Value) (s : Store)
    (homit : (parseTag f).2.«omit» = true) :
    decodeField1 f iv oldf s = .ok oldf := by
  cases iv <;> first
    | (rename_i orf; cases orf <;> (rw [decodeField1] <;> simp [homit]))
    | (rw [decodeField1] <;> simp [homit])

/-! ## The round-trip law

For well-formed types (`TyOK`), well-typed values (`hasTy`) in the
round-trippable domain (`Good`), decoding the ref returned by the
encoder — against the store the encoder left, or any extension of
it — restores the value exactly. Proved by the encoder's mutual
functional induction; the five conjuncts track the five mutual
encoder functions. -/

set_option maxHeartbeats 4000000 in
set_option maxRecDepth 8000 in
theorem encode_roundtrip_main :
    (∀ (t : Ty) (v : Value) (s : Store), TyOK t = true → hasTy t v = true → Good t v = true →
      ∀ (r : Ref) (s2 : Store), Encode t v s = (.ok r, s2) →
        hasBlob s2 r = true ∧ ∀ s3, Ext s2 s3 → Decode t r (zeroVal t) s3 = .ok v) ∧
    (∀ (fs : List Fld) (vs : List Value) (s : Store),
      TyOKFields fs = true → hasTyFields fs vs = true → GoodFields fs vs = true →
      distinctList (fs.map (fun f => (parseTag f).1)) = true →
      ∀ (m : List (String × Jval)) (s2 : Store), encodeStructFields fs vs s = (.ok m, s2) →
        (m.map Prod.fst).Sublist (fs.map (fun f => (parseTag f).1)) ∧
        ∀ s3, Ext s2 s3 →
        ∀ (kvs' : List (String × Jval)),
          (∀ f2 ∈ fs, lookupKey (parseTag f2).1 kvs' = lookupKey (parseTag f2).1 m) →
          ∃ ivals, parseIntermediate fs kvs' = .ok ivals ∧
            decodeFields fs ivals (zeroFields fs) s3 = .ok vs) ∧
    (∀ (f : Fld) (v : Value) (s : Store),
      TyOK (fldTy f) = true → hasTy (fldTy f) v = true → Good (fldTy f) v = true →
      (parseTag f).2.«omit» = false →
      ∀ (jv : Jval) (s2 : Store), encodeStructField1 f v s = (.ok jv, s2) →
        ∀ s3, Ext s2 s3 →
        ∀ (kvs' : List (String × Jval)), lookupKey (parseTag f).1 kvs' = some jv →
          ∃ iv, parseIField f kvs' = .ok iv ∧
            decodeField1 f iv (zeroVal (fldTy f)) s3 = .ok v) ∧
    (∀ (t : Ty) (kvs : List (String × Value)) (s : Store),
      TyOK t = true → hasTyVals t kvs = true → GoodVals t kvs = true →
      ∀ (pairs : List (String × Ref)) (s2 : Store), encodeMap t kvs s = (.ok pairs, s2) →
        pairs.map Prod.fst = kvs.map Prod.fst ∧
        ∀ s3, Ext s2 s3 → pairsDecode t pairs kvs s3) ∧
    (∀ (t : Ty) (xs : List Value) (s : Store),
      TyOK t = true → hasTyList t xs = true → GoodList t xs = true →
      ∀ (refs : List Ref) (s2 : Store), encodeSliceOrArray t xs s = (.ok refs, s2) →
        refs.length = xs.length ∧
        ∀ s3, Ext s2 s3 → buildSliceElems t refs s3 = .ok xs) := by
  apply Encode.mutual_induct
  -- 1: pointer to a present value
  · intro t w s9 ih htok hty hgood r s2x hencx
    rw [TyOK] at htok
    rw [hasTy] at hty
    rw [Good] at hgood
    rw [Encode] at hencx
    obtain ⟨hb, hdec⟩ := ih htok hty hgood r s2x hencx
    refine ⟨hb, fun s3 hext3 => ?_⟩
    rw [Decode_ptr_zero_eval, fetchBlob_ok _ s3 (hext3 _ hb)]
    simp [hdec s3 hext3, Except.map]
  -- 2: nil pointer (outside the good domain)
  · intro elem s9 htok hty hgood r s2x hencx
    simp [Good] at hgood
  -- 3: nil slice (outside the good domain)
  · intro elem xs s9 htok hty hgood r s2x hencx
    simp [Good] at hgood
  -- 4: nil map (outside the good domain)
  · intro elem kvs s9 htok hty hgood r s2x hencx
    simp [Good] at hgood
  -- 5: bool
  · intro b s9 htok hty hgood r s2x hencx
    rw [Encode, recvOk_eq] at hencx
    simp only [Prod.mk.injEq, Except.ok.injEq] at hencx
    obtain ⟨rfl, rfl⟩ := hencx
    refine ⟨hasBlob_receive_self _ _, fun s3 hext3 => ?_⟩
    rw [Decode_bool_eval, fetchBlob_ok _ s3 (hext3 _ (hasBlob_receive_self _ _))]
    cases b <;> rfl
  -- 6: int
  · intro bits n s9 htok hty hgood r s2x hencx
    rw [Good] at hgood
    simp only [decide_eq_true_eq] at hgood
    rw [Encode, recvOk_eq] at hencx
    simp only [Prod.mk.injEq, Except.ok.injEq] at hencx
    obtain ⟨rfl, rfl⟩ := hencx
    refine ⟨hasBlob_receive_self _ _, fun s3 hext3 => ?_⟩
    rw [Decode_int_eval, fetchBlob_ok _ s3 (hext3 _ (hasBlob_receive_self _ _))]
    simp [blobBytes, parseIntB_formatInt bits n hgood.1 hgood.2, Except.map, zeroVal]
  -- 7: uint
  · intro bits n s9 htok hty hgood r s2x hencx
    rw [Good] at hgood
    simp only [decide_eq_true_eq] at hgood
    rw [Encode, recvOk_eq] at hencx
    simp only [Prod.mk.injEq, Except.ok.injEq] at hencx
    obtain ⟨rfl, rfl⟩ := hencx
    refine ⟨hasBlob_receive_self _ _, fun s3 hext3 => ?_⟩
    rw [Decode_uint_eval, fetchBlob_ok _ s3 (hext3 _ (hasBlob_receive_self _ _))]
    simp [blobBytes, parseUintB_formatNat bits n hgood, Except.map, zeroVal]
  -- 8: non-nil slice, element error (never reaches ok)
  · intro t isNil xs s9 hnilh e s2 henc ih htok hty hgood r s2x hencx
    have hni : isNil = false := by
      cases isNil
      · rfl
      · exact absurd rfl hnilh
    subst hni
    rw [Encode_slice_eval, henc] at hencx
    simp at hencx
  -- 9: non-nil slice, elements ok
  · intro t isNil xs s9 hnilh refs s2 henc ih htok hty hgood r s2x hencx
    have hni : isNil = false := by
      cases isNil
      · rfl
      · exact absurd rfl hnilh
    subst hni
    rw [TyOK] at htok
    rw [hasTy] at hty
    rw [Good] at hgood
    simp only [Bool.and_eq_true] at hty
    simp only [Bool.and_eq_true, Bool.not_eq_true'] at hgood
    obtain ⟨-, htyl⟩ := hty
    obtain ⟨⟨-, hne⟩, hgl⟩ := hgood
    obtain ⟨hlen, hbuild⟩ := ih htok htyl hgl refs s2 henc
    rw [Encode_slice_eval, henc] at hencx
    have hx2 : recvOk (.json (refsArrJval refs)) s2 = (.ok r, s2x) := hencx
    rw [recvOk_eq] at hx2
    simp only [Prod.mk.injEq, Except.ok.injEq] at hx2
    obtain ⟨rfl, rfl⟩ := hx2
    refine ⟨hasBlob_receive_self _ _, fun s3 hext3 => ?_⟩
    rw [Decode_slice_eval, fetchBlob_ok _ s3 (hext3 _ (hasBlob_receive_self _ _))]
    simp only [refsOfBlob_refsArr]
    rw [hbuild s3 (ext_trans (ext_receive _ s2) hext3)]
    have hre : refs.isEmpty = false := by
      cases refs with
      | nil =>
        exfalso
        cases xs with
        | nil => simp at hne
        | cons x xs2 => simp at hlen
      | cons a b => rfl
    simp [hre, zeroVal, sliceIsNil, Except.map]
  -- 10: array, element error (never reaches ok)
  · intro n t xs s9 e s2 henc ih htok hty hgood r s2x hencx
    rw [Encode_array_eval, henc] at hencx
    simp at hencx
  -- 11: array, elements ok
  · intro n t xs s9 refs s2 henc ih htok hty hgood r s2x hencx
    rw [TyOK] at htok
    rw [hasTy] at hty
    rw [Good] at hgood
    simp only [Bool.and_eq_true, beq_iff_eq] at hty
    obtain ⟨hlenx, htyl⟩ := hty
    obtain ⟨hlen, hbuild⟩ := ih htok htyl hgood refs s2 henc
    rw [Encode_array_eval, henc] at hencx
    have hx2 : recvOk (.json (refsArrJval refs)) s2 = (.ok r, s2x) := hencx
    rw [recvOk_eq] at hx2
    simp only [Prod.mk.injEq, Except.ok.injEq] at hx2
    obtain ⟨rfl, rfl⟩ := hx2
    refine ⟨hasBlob_receive_self _ _, fun s3 hext3 => ?_⟩
    rw [Decode_array_eval, fetchBlob_ok _ s3 (hext3 _ (hasBlob_receive_self _ _))]
    simp only [refsOfBlob_refsArr]
    rw [buildArrayElems_eq_slice t n refs s3 (hlen.trans hlenx)]
    rw [hbuild s3 (ext_trans (ext_receive _ s2) hext3)]
    rfl
  -- 12: non-nil map, value error (never reaches ok)
  · intro t isNil kvs s9 hnilh e s2 henc ih htok hty hgood r s2x hencx
    have hni : isNil = false := by
      cases isNil
      · rfl
      · exact absurd rfl hnilh
    subst hni
    rw [Encode_map_eval, henc] at hencx
    simp at hencx
  -- 13: non-nil map, values ok
  · intro t isNil kvs s9 hnilh pairs s2 henc ih htok hty hgood r s2x hencx
    have hni : isNil = false := by
      cases isNil
      · rfl
      · exact absurd rfl hnilh
    subst hni
    rw [TyOK] at htok
    rw [hasTy] at hty
    rw [Good] at hgood
    simp only [Bool.and_eq_true] at hty
    simp only [Bool.and_eq_true, Bool.not_eq_true'] at hgood
    obtain ⟨-, htyv⟩ := hty
    obtain ⟨⟨-, hsorted⟩, hgv⟩ := hgood
    obtain ⟨hkeys, hpd⟩ := ih htok htyv hgv pairs s2 henc
    have hs2 : keysStrictSorted (pairs.map (fun p => (p.1, Jval.jref p.2))) = true := by
      rw [keysStrictSorted_congr _ kvs (by rw [map_fst_wrap]; exact hkeys)]
      exact hsorted
    rw [Encode_map_eval, henc] at hencx
    have hx2 : recvOk (.json (.jobj (sortByKey (pairs.map (fun p => (p.1, Jval.jref p.2)))))) s2
        = (.ok r, s2x) := hencx
    rw [sortByKey_sorted_id _ hs2] at hx2
    rw [recvOk_eq] at hx2
    simp only [Prod.mk.injEq, Except.ok.injEq] at hx2
    obtain ⟨rfl, rfl⟩ := hx2
    refine ⟨hasBlob_receive_self _ _, fun s3 hext3 => ?_⟩
    rw [Decode_map_eval, fetchBlob_ok _ s3 (hext3 _ (hasBlob_receive_self _ _))]
    have hrm : refMapOfBlob (Blob.json (.jobj (pairs.map (fun p => (p.1, Jval.jref p.2)))))
        = .ok pairs := by
      show refMapOf (pairs.map (fun p => (p.1, Jval.jref p.2))) = .ok pairs
      exact refMapOf_map_jref pairs
    simp only [hrm]
    have hdist : distinctList (pairs.map Prod.fst) = true := by
      rw [show pairs.map Prod.fst = kvs.map Prod.fst from hkeys]
      exact keysStrictSorted_distinct kvs hsorted
    rw [show mapEntries (zeroVal (.tmap t)) = [] from by simp [zeroVal, mapEntries]]
    rw [buildMapEntries_pairsDecode t pairs kvs s3 []
      (hpd s3 (ext_trans (ext_receive _ s2) hext3)) hdist (fun _ _ => rfl)]
    rfl
  -- 14: string
  · intro str s9 htok hty hgood r s2x hencx
    rw [Encode, recvOk_eq] at hencx
    simp only [Prod.mk.injEq, Except.ok.injEq] at hencx
    obtain ⟨rfl, rfl⟩ := hencx
    refine ⟨hasBlob_receive_self _ _, fun s3 hext3 => ?_⟩
    rw [Decode_str_eval, fetchBlob_ok _ s3 (hext3 _ (hasBlob_receive_self _ _))]
    rfl
  -- 15: struct, fields error (never reaches ok)
  · intro fs vs s9 e s2 henc ih htok hty hgood r s2x hencx
    rw [Encode_struct_eval, henc] at hencx
    simp at hencx
  -- 16: struct, fields ok
  · intro fs vs s9 m s2 henc ih htok hty hgood r s2x hencx
    rw [TyOK] at htok
    rw [hasTy] at hty
    rw [Good] at hgood
    simp only [Bool.and_eq_true] at htok hgood
    obtain ⟨⟨hdn1, hdn2⟩, htokf⟩ := htok
    obtain ⟨⟨hgdn1, hgdn2⟩, hgf⟩ := hgood
    obtain ⟨hsub, hdecm⟩ := ih htokf hty hgf hdn2 m s2 henc
    rw [Encode_struct_eval, henc] at hencx
    have hx2 : recvOk (.json (.jobj (sortByKey m))) s2 = (.ok r, s2x) := hencx
    rw [recvOk_eq] at hx2
    simp only [Prod.mk.injEq, Except.ok.injEq] at hx2
    obtain ⟨rfl, rfl⟩ := hx2
    refine ⟨hasBlob_receive_self _ _, fun s3 hext3 => ?_⟩
    rw [Decode_struct_eval, fetchBlob_ok _ s3 (hext3 _ (hasBlob_receive_self _ _))]
    have hobj : objOfBlob (Blob.json (.jobj (sortByKey m))) = .ok (sortByKey m) := rfl
    simp only [hobj]
    have hdistm : distinctList (m.map Prod.fst) = true := by
      rw [distinctList_iff_nodup]
      exact List.Nodup.sublist hsub ((distinctList_iff_nodup _).mp hdn2)
    have hagree : ∀ f2 ∈ fs,
        lookupKey (parseTag f2).1 (sortByKey m) = lookupKey (parseTag f2).1 m :=
      fun f2 _ => lookupKey_sortByKey _ m hdistm
    obtain ⟨ivals, hpi, hdf⟩ :=
      hdecm s3 (ext_trans (ext_receive _ s2) hext3) (sortByKey m) hagree
    simp only [hpi]
    rw [show structFieldVals (zeroVal (.tstruct fs)) = zeroFields fs from by simp [zeroVal, structFieldVals]]
    rw [hdf]
    rfl
  -- 17: the unreachable type/value mismatch arm
  · intro x x1 s9 h1 h2 h3 h4 h5 h6 h7 h8 h9 h10 h11 h12 htok hty hgood r s2x hencx
    cases x1 with
    | vbool b => cases x <;> first | (exact (h5 _ rfl rfl).elim) | (simp [hasTy] at hty)
    | vint n => cases x <;> first | (exact (h6 _ _ rfl rfl).elim) | (simp [hasTy] at hty)
    | vuint n => cases x <;> first | (exact (h7 _ _ rfl rfl).elim) | (simp [hasTy] at hty)
    | vstr s4 => cases x <;> first | (exact (h11 _ rfl rfl).elim) | (simp [hasTy] at hty)
    | vslice isNil xs =>
      cases x <;> first | (exact (h8 _ _ _ rfl rfl).elim) | (simp [hasTy] at hty)
    | varr xs => cases x <;> first | (exact (h9 _ _ _ rfl rfl).elim) | (simp [hasTy] at hty)
    | vmap isNil kvs =>
      cases x <;> first | (exact (h10 _ _ _ rfl rfl).elim) | (simp [hasTy] at hty)
    | vptr pp =>
      cases x with
      | tptr elem =>
        cases pp with
        | none => exact (h2 _ rfl rfl).elim
        | some w => exact (h1 _ _ rfl rfl).elim
      | tbool => simp [hasTy] at hty
      | tint bits => simp [hasTy] at hty
      | tuint bits => simp [hasTy] at hty
      | tstr => simp [hasTy] at hty
      | tslice elem => simp [hasTy] at hty
      | tarray n elem => simp [hasTy] at hty
      | tmap elem => simp [hasTy] at hty
      | tstruct fs => simp [hasTy] at hty
    | vstruct vs => cases x <;> first | (exact (h12 _ _ rfl rfl).elim) | (simp [hasTy] at hty)
  -- 18: fields nil/nil
  · intro s9 htok hty hg hdn m s2x hencx
    rw [encodeStructFields] at hencx
    simp only [Prod.mk.injEq, Except.ok.injEq] at hencx
    obtain ⟨rfl, rfl⟩ := hencx
    refine ⟨by simp, fun s3 hext3 kvs' hagree => ?_⟩
    refine ⟨[], by rw [parseIntermediate], ?_⟩
    rw [decodeFields]
  -- 19: fields, skipped head
  · intro f fs v vs s9 p homit ih htok hty hg hdn m s2x hencx
    obtain ⟨nm, tg, ftt⟩ := f
    have homit2 : ((parseTag (nm, tg, ftt)).2).«omit» = true := homit
    rw [encodeStructFields] at hencx
    simp [homit2] at hencx
    rw [TyOKFields] at htok
    rw [hasTyFields] at hty
    rw [GoodFields] at hg
    simp only [Bool.and_eq_true] at htok hty hg
    have hzv : isZeroV v = true := by simpa [homit2] using hg.1
    simp only [List.map_cons, distinctList, Bool.and_eq_true] at hdn
    obtain ⟨hnotin, hdrest⟩ := hdn
    have hnm : (parseTag (nm, tg, ftt)).1 ∉ fs.map (fun f2 => (parseTag f2).1) := by
      simpa using hnotin
    obtain ⟨hsub, hdec⟩ := ih htok.2 hty.2 hg.2 hdrest m s2x hencx
    refine ⟨hsub.cons _, fun s3 hext3 kvs' hagree => ?_⟩
    have hlkm : lookupKey (parseTag (nm, tg, ftt)).1 m = none :=
      (lookupKey_none_iff _ m).mpr (fun hmem => hnm (hsub.subset hmem))
    have hlk : lookupKey (parseTag (nm, tg, ftt)).1 kvs' = none := by
      rw [hagree (nm, tg, ftt) (by simp)]
      exact hlkm
    obtain ⟨ivals, hpi, hdf⟩ := hdec s3 hext3 kvs' (fun f2 hf2 => hagree f2 (by simp [hf2]))
    have hveq : v = zeroVal ftt :=
      isZeroV_eq_zeroVal (sizeOf v) ftt v le_rfl hty.1 hzv
    refine ⟨.ival (zeroVal ftt) :: ivals, ?_, ?_⟩
    · rw [parseIntermediate,
        parseIField_orig_absent (nm, tg, ftt) kvs'
          (intermediateFieldTy_orig _ (by simp [homit2])) hlk, hpi]
    · rw [zeroFields, decodeFields, decodeField1_omit (nm, tg, ftt) _ _ s3 homit2, hdf, hveq]
  -- 20: fields, omitempty head at zero
  · intro f fs v vs s9 p homit hoe ih htok hty hg hdn m s2x hencx
    obtain ⟨nm, tg, ftt⟩ := f
    have homit2 : ¬((parseTag (nm, tg, ftt)).2).«omit» = true := homit
    have homit3 : ((parseTag (nm, tg, ftt)).2).«omit» = false := by simpa using homit2
    have hoe2 : (((parseTag (nm, tg, ftt)).2).omitEmpty && isZeroV v) = true := hoe
    have hoez : ((parseTag (nm, tg, ftt)).2).omitEmpty = true ∧ isZeroV v = true := by
      simpa [Bool.and_eq_true] using hoe2
    have hzv : isZeroV v = true := hoez.2
    rw [encodeStructFields] at hencx
    simp [homit2, hoe2] at hencx
    rw [TyOKFields] at htok
    rw [hasTyFields] at hty
    rw [GoodFields] at hg
    simp only [Bool.and_eq_true] at htok hty hg
    have hnem : isNonExtMapFld (nm, tg, ftt) = false := by
      simpa [homit3, hoez.1, hoez.2] using hg.1
    simp only [List.map_cons, distinctList, Bool.and_eq_true] at hdn
    obtain ⟨hnotin, hdrest⟩ := hdn
    have hnm : (parseTag (nm, tg, ftt)).1 ∉ fs.map (fun f2 => (parseTag f2).1) := by
      simpa using hnotin
    obtain ⟨hsub, hdec⟩ := ih htok.2 hty.2 hg.2 hdrest m s2x hencx
    refine ⟨hsub.cons _, fun s3 hext3 kvs' hagree => ?_⟩
    have hlkm : lookupKey (parseTag (nm, tg, ftt)).1 m = none :=
      (lookupKey_none_iff _ m).mpr (fun hmem => hnm (hsub.subset hmem))
    have hlk : lookupKey (parseTag (nm, tg, ftt)).1 kvs' = none := by
      rw [hagree (nm, tg, ftt) (by simp)]
      exact hlkm
    obtain ⟨ivals, hpi, hdf⟩ := hdec s3 hext3 kvs' (fun f2 hf2 => hagree f2 (by simp [hf2]))
    have hveq : v = zeroVal ftt :=
      isZeroV_eq_zeroVal (sizeOf v) ftt v le_rfl hty.1 hzv
    obtain ⟨iv1, hpf1, hdf1⟩ := absent_key_decode (nm, tg, ftt) kvs' s3 homit3 hlk
    simp only [hnem, Bool.and_false, Bool.false_eq_true, if_false] at hdf1
    refine ⟨iv1 :: ivals, ?_, ?_⟩
    · rw [parseIntermediate, hpf1, hpi]
    · rw [zeroFields, decodeFields, hdf1, hdf, hveq]
  -- 21: fields, head entry fails (never reaches ok)
  · intro f fs v vs s9 p homit hoe e s2 henc ih htok hty hg hdn m s2x hencx
    obtain ⟨nm, tg, ftt⟩ := f
    have homit2 : ¬((parseTag (nm, tg, ftt)).2).«omit» = true := homit
    have hoe2 : ¬(((parseTag (nm, tg, ftt)).2).omitEmpty && isZeroV v) = true := hoe
    rw [encodeStructFields] at hencx
    simp [homit2, hoe2, henc] at hencx
  -- 22: fields, head ok but tail fails (never reaches ok)
  · intro f fs v vs s9 p homit hoe jv s2m henc1 e s3b henc2 ih1 ih2 htok hty hg hdn m s2x hencx
    obtain ⟨nm, tg, ftt⟩ := f
    have homit2 : ¬((parseTag (nm, tg, ftt)).2).«omit» = true := homit
    have hoe2 : ¬(((parseTag (nm, tg, ftt)).2).omitEmpty && isZeroV v) = true := hoe
    rw [encodeStructFields] at hencx
    simp [homit2, hoe2, henc1, henc2] at hencx
  -- 23: fields, head and tail ok
  · intro f fs v vs s9 p homit hoe jv s2m henc1 m2 s2b henc2 ih1 ih2 htok hty hg hdn m s2x hencx
    obtain ⟨nm, tg, ftt⟩ := f
    have homit2 : ¬((parseTag (nm, tg, ftt)).2).«omit» = true := homit
    have homit3 : ((parseTag (nm, tg, ftt)).2).«omit» = false := by simpa using homit2
    have hoe2 : ¬(((parseTag (nm, tg, ftt)).2).omitEmpty && isZeroV v) = true := hoe
    rw [encodeStructFields] at hencx
    simp [homit2, hoe2, henc1, henc2] at hencx
    obtain ⟨rfl, rfl⟩ := hencx
    rw [TyOKFields] at htok
    rw [hasTyFields] at hty
    rw [GoodFields] at hg
    simp only [Bool.and_eq_true] at htok hty hg
    have hoen : ¬(((parseTag (nm, tg, ftt)).2).omitEmpty = true ∧ isZeroV v = true) := by
      simpa [Bool.and_eq_true] using hoe2
    have hghead : Good ftt v = true := by simpa [homit2, hoen] using hg.1
    simp only [List.map_cons, distinctList, Bool.and_eq_true] at hdn
    obtain ⟨hnotin, hdrest⟩ := hdn
    have hnm : (parseTag (nm, tg, ftt)).1 ∉ fs.map (fun f2 => (parseTag f2).1) := by
      simpa using hnotin
    obtain ⟨hsub2, hdec2⟩ := ih2 htok.2 hty.2 hg.2 hdrest m2 s2b henc2
    refine ⟨?_, fun s3 hext3 kvs' hagree => ?_⟩
    · simpa using hsub2.cons₂ ((parseTag (nm, tg, ftt)).1)
    · have hlk1 : lookupKey (parseTag (nm, tg, ftt)).1 kvs' = some jv := by
        rw [hagree (nm, tg, ftt) (by simp)]
        rw [lookupKey, if_pos rfl]
      have hExt2 : Ext s2m s2b := by
        have h := ext_encodeStructFields fs vs s2m
        rw [henc2] at h
        exact h
      obtain ⟨iv1, hpf1, hdf1⟩ :=
        ih1 htok.1 hty.1 hghead homit3 jv s2m henc1 s3 (ext_trans hExt2 hext3) kvs' hlk1
      have hagree2 : ∀ f2 ∈ fs,
          lookupKey (parseTag f2).1 kvs' = lookupKey (parseTag f2).1 m2 := by
        intro f2 hf2
        rw [hagree f2 (by simp [hf2])]
        rw [lookupKey, if_neg ?_]
        intro heq
        exact hnm (heq ▸ List.mem_map_of_mem (fun g => (parseTag g).1) hf2)
      obtain ⟨ivals, hpi, hdf⟩ := hdec2 s3 hext3 kvs' hagree2
      refine ⟨iv1 :: ivals, ?_, ?_⟩
      · rw [parseIntermediate, hpf1, hpi]
      · rw [zeroFields, decodeFields, hdf1, hdf]
  -- 24: fields length mismatch (untyped)
  · intro x x1 s9 h1 h2 htok hty hg hdn m s2x hencx
    cases x with
    | nil =>
      cases x1 with
      | nil => exact (h1 rfl rfl).elim
      | cons v vs => simp [hasTyFields] at hty
    | cons f fs =>
      cases x1 with
      | nil => simp [hasTyFields] at hty
      | cons v vs => exact (h2 f fs v vs rfl rfl).elim
  -- 25: field1, inline
  · intro f v s9 p hinl htok hty hgood homit jv s2x hencx s3 hext3 kvs' hlk
    have hinl2 : ((parseTag f).2).inline = true := hinl
    rw [encodeStructField1_inline f v s9 hinl2] at hencx
    simp only [Prod.mk.injEq, Except.ok.injEq] at hencx
    obtain ⟨rfl, rfl⟩ := hencx
    refine ⟨.ival v, ?_, decodeField1_inline f v (zeroVal (fldTy f)) s3 homit hinl2⟩
    rw [parseIField_orig f kvs' (jencode (fldTy f) v)
      (intermediateFieldTy_orig f (by simp [hinl2])) hlk]
    rw [(jdecode_jencode_aux (sizeOf v) (fldTy f) v le_rfl htok hty hgood).1]
    rfl
  -- 26: field1, external, encode error (never reaches ok)
  · intro f v s9 p hinl hext e s2 henc ih htok hty hgood homit jv s2x hencx
    have hinl2 : ((parseTag f).2).inline = false := by simpa using hinl
    have hext2 : ((parseTag f).2).external = true := hext
    rw [encodeStructField1_ext f v s9 hinl2 hext2, henc] at hencx
    simp at hencx
  -- 27: field1, external, encode ok
  · intro f v s9 p hinl hext r s2 henc ih htok hty hgood homit jv s2x hencx s3 hext3 kvs' hlk
    have hinl2 : ((parseTag f).2).inline = false := by simpa using hinl
    have hext2 : ((parseTag f).2).external = true := hext
    rw [encodeStructField1_ext f v s9 hinl2 hext2, henc] at hencx
    have hx2 : ((Except.ok (Jval.jref r) : Except Err Jval), s2) = (.ok jv, s2x) := hencx
    simp only [Prod.mk.injEq, Except.ok.injEq] at hx2
    obtain ⟨rfl, rfl⟩ := hx2
    obtain ⟨hb, hdec⟩ := ih htok hty hgood r s2 henc
    refine ⟨.iref1 (some r),
      parseIField_refTy f kvs' r (intermediateFieldTy_ext f homit hinl2 hext2) hlk, ?_⟩
    rw [decodeField1_iref1 f (some r) (zeroVal (fldTy f)) s3 homit hinl2 (by simp [hext2])]
    exact hdec s3 hext3
  -- 28: field1, slice, element error (never reaches ok)
  · intro f s9 p hinl hext t hft isNil xs e s2 henc ih htok hty hgood homit jv s2x hencx
    have hinl2 : ((parseTag f).2).inline = false := by simpa using hinl
    have hext2 : ((parseTag f).2).external = false := by simpa using hext
    rw [encodeStructField1_slice f t hft isNil xs s9 hinl2 hext2, henc] at hencx
    simp at hencx
  -- 29: field1, slice, elements ok
  · intro f s9 p hinl hext t hft isNil xs refs s2 henc ih htok hty hgood homit jv s2x hencx
      s3 hext3 kvs' hlk
    have hinl2 : ((parseTag f).2).inline = false := by simpa using hinl
    have hext2 : ((parseTag f).2).external = false := by simpa using hext
    rw [hft] at htok hty hgood
    rw [TyOK] at htok
    rw [hasTy] at hty
    rw [Good] at hgood
    simp only [Bool.and_eq_true] at hty
    simp only [Bool.and_eq_true, Bool.not_eq_true'] at hgood
    obtain ⟨-, htyl⟩ := hty
    obtain ⟨⟨hnil, hne⟩, hgl⟩ := hgood
    subst hnil
    obtain ⟨hlen, hbuild⟩ := ih htok htyl hgl refs s2 henc
    rw [encodeStructField1_slice f t hft false xs s9 hinl2 hext2, henc] at hencx
    have hx2 : ((Except.ok (refsArrJval refs) : Except Err Jval), s2) = (.ok jv, s2x) := hencx
    simp only [Prod.mk.injEq, Except.ok.injEq] at hx2
    obtain ⟨rfl, rfl⟩ := hx2
    refine ⟨.irefs refs,
      parseIField_sliceRef f kvs' refs (intermediateFieldTy_slice f t hft homit hinl2 hext2)
        hlk, ?_⟩
    rw [decodeField1_slice f t hft refs (zeroVal (fldTy f)) s3 homit hinl2 hext2]
    rw [hbuild s3 hext3]
    have hre : refs.isEmpty = false := by
      cases refs with
      | nil =>
        exfalso
        cases xs with
        | nil => simp at hne
        | cons x xs2 => simp at hlen
      | cons a b => rfl
    rw [hft]
    simp [hre, zeroVal, sliceIsNil, Except.map]
  -- 30: field1, slice-typed but the value is not a slice (untyped)
  · intro f v s9 p hinl hext t hft hno htok hty hgood homit jv s2x hencx
    rw [hft] at hty
    cases v <;> first
      | (rename_i a9 b9; exact (hno a9 b9 rfl).elim)
      | (simp [hasTy] at hty)
  -- 31: field1, array, element error (never reaches ok)
  · intro f s9 p hinl hext n t hft xs e s2 henc ih htok hty hgood homit jv s2x hencx
    have hinl2 : ((parseTag f).2).inline = false := by simpa using hinl
    have hext2 : ((parseTag f).2).external = false := by simpa using hext
    rw [encodeStructField1_array f n t hft xs s9 hinl2 hext2, henc] at hencx
    simp at hencx
  -- 32: field1, array, elements ok
  · intro f s9 p hinl hext n t hft xs refs s2 henc ih htok hty hgood homit jv s2x hencx
      s3 hext3 kvs' hlk
    have hinl2 : ((parseTag f).2).inline = false := by simpa using hinl
    have hext2 : ((parseTag f).2).external = false := by simpa using hext
    rw [hft] at htok hty hgood
    rw [TyOK] at htok
    rw [hasTy] at hty
    rw [Good] at hgood
    simp only [Bool.and_eq_true, beq_iff_eq] at hty
    obtain ⟨hlenx, htyl⟩ := hty
    obtain ⟨hlen, hbuild⟩ := ih htok htyl hgood refs s2 henc
    rw [encodeStructField1_array f n t hft xs s9 hinl2 hext2, henc] at hencx
    have hx2 : ((Except.ok (refsArrJval refs) : Except Err Jval), s2) = (.ok jv, s2x) := hencx
    simp only [Prod.mk.injEq, Except.ok.injEq] at hx2
    obtain ⟨rfl, rfl⟩ := hx2
    refine ⟨.irefs refs,
      parseIField_sliceRef f kvs' refs (intermediateFieldTy_array f n t hft homit hinl2 hext2)
        hlk, ?_⟩
    rw [decodeField1_array f n t hft refs (zeroVal (fldTy f)) s3 homit hinl2 hext2]
    rw [buildArrayElems_eq_slice t n refs s3 (hlen.trans hlenx)]
    rw [hbuild s3 hext3]
    rfl
  -- 33: field1, array-typed but the value is not an array (untyped)
  · intro f v s9 p hinl hext n t hft hno htok hty hgood homit jv s2x hencx
    rw [hft] at hty
    cases v <;> first
      | (rename_i a9; exact (hno a9 rfl).elim)
      | (simp [hasTy] at hty)
  -- 34: field1, map, value error (never reaches ok)
  · intro f s9 p hinl hext t hft isNil kvs e s2 henc ih htok hty hgood homit jv s2x hencx
    have hinl2 : ((parseTag f).2).inline = false := by simpa using hinl
    have hext2 : ((parseTag f).2).external = false := by simpa using hext
    rw [encodeStructField1_map f t hft isNil kvs s9 hinl2 hext2, henc] at hencx
    simp at hencx
  -- 35: field1, map, values ok
  · intro f s9 p hinl hext t hft isNil kvs pairs s2 henc ih htok hty hgood homit jv s2x hencx
      s3 hext3 kvs' hlk
    have hinl2 : ((parseTag f).2).inline = false := by simpa using hinl
    have hext2 : ((parseTag f).2).external = false := by simpa using hext
    rw [hft] at htok hty hgood
    rw [TyOK] at htok
    rw [hasTy] at hty
    rw [Good] at hgood
    simp only [Bool.and_eq_true] at hty
    simp only [Bool.and_eq_true, Bool.not_eq_true'] at hgood
    obtain ⟨-, htyv⟩ := hty
    obtain ⟨⟨hnil, hsorted⟩, hgv⟩ := hgood
    subst hnil
    obtain ⟨hkeys, hpd⟩ := ih htok htyv hgv pairs s2 henc
    have hs2 : keysStrictSorted (pairs.map (fun p => (p.1, Jval.jref p.2))) = true := by
      rw [keysStrictSorted_congr _ kvs (by rw [map_fst_wrap]; exact hkeys)]
      exact hsorted
    rw [encodeStructField1_map f t hft false kvs s9 hinl2 hext2, henc] at hencx
    have hx2 : ((Except.ok (Jval.jobj (sortByKey (pairs.map (fun p => (p.1, Jval.jref p.2)))))
        : Except Err Jval), s2) = (.ok jv, s2x) := hencx
    rw [sortByKey_sorted_id _ hs2] at hx2
    simp only [Prod.mk.injEq, Except.ok.injEq] at hx2
    obtain ⟨rfl, rfl⟩ := hx2
    refine ⟨.irefmap pairs,
      parseIField_mapRef f kvs' pairs (intermediateFieldTy_map f t hft homit hinl2 hext2)
        hlk, ?_⟩
    rw [decodeField1_map f t hft pairs (zeroVal (fldTy f)) s3 homit hinl2 hext2]
    rw [hft]
    rw [show mapEntries (zeroVal (.tmap t)) = [] from by simp [zeroVal, mapEntries]]
    have hdist : distinctList (pairs.map Prod.fst) = true := by
      rw [show pairs.map Prod.fst = kvs.map Prod.fst from hkeys]
      exact keysStrictSorted_distinct kvs hsorted
    rw [buildMapEntries_pairsDecode t pairs kvs s3 [] (hpd s3 hext3) hdist (fun _ _ => rfl)]
    rfl
  -- 36: field1, map-typed but the value is not a map (untyped)
  · intro f v s9 p hinl hext t hft hno htok hty hgood homit jv s2x hencx
    rw [hft] at hty
    cases v <;> first
      | (rename_i a9 b9; exact (hno a9 b9 rfl).elim)
      | (simp [hasTy] at hty)
  -- 37: field1, scalar, encode error (never reaches ok)
  · intro f v s9 p hinl hext e s2 hn1 hn2 hn3 henc ih htok hty hgood homit jv s2x hencx
    have hinl2 : ((parseTag f).2).inline = false := by simpa using hinl
    have hext2 : ((parseTag f).2).external = false := by simpa using hext
    rw [encodeStructField1_scalar f v s9 hinl2 hext2 hn1 hn2 hn3, henc] at hencx
    simp at hencx
  -- 38: field1, scalar, encode ok
  · intro f v s9 p hinl hext r s2 hn1 hn2 hn3 henc ih htok hty hgood homit jv s2x hencx
      s3 hext3 kvs' hlk
    have hinl2 : ((parseTag f).2).inline = false := by simpa using hinl
    have hext2 : ((parseTag f).2).external = false := by simpa using hext
    rw [encodeStructField1_scalar f v s9 hinl2 hext2 hn1 hn2 hn3, henc] at hencx
    have hx2 : ((Except.ok (Jval.jref r) : Except Err Jval), s2) = (.ok jv, s2x) := hencx
    simp only [Prod.mk.injEq, Except.ok.injEq] at hx2
    obtain ⟨rfl, rfl⟩ := hx2
    obtain ⟨hb, hdec⟩ := ih htok hty hgood r s2 henc
    have hcont : isContainerTy (fldTy f) = false := by
      cases hftc : fldTy f <;> first
        | (exact (hn1 _ hftc).elim)
        | (exact (hn2 _ _ hftc).elim)
        | (exact (hn3 _ hftc).elim)
        | rfl
    refine ⟨.iref1 (some r),
      parseIField_refTy f kvs' r (intermediateFieldTy_scalar f homit hinl2 hext2 hcont)
        hlk, ?_⟩
    rw [decodeField1_iref1 f (some r) (zeroVal (fldTy f)) s3 homit hinl2 (by simp [hcont])]
    exact hdec s3 hext3
  -- 39: map helper, empty
  · intro t s9 htok htyv hgv pairs s2x hencx
    rw [encodeMap] at hencx
    simp only [Prod.mk.injEq, Except.ok.injEq] at hencx
    obtain ⟨rfl, rfl⟩ := hencx
    exact ⟨rfl, fun s3 _ => True.intro⟩
  -- 40: map helper, head value error (never reaches ok)
  · intro t k v kvs s9 e s2 henc ih htok htyv hgv pairs s2x hencx
    rw [encodeMap] at hencx
    simp [henc] at hencx
  -- 41: map helper, head ok but tail fails (never reaches ok)
  · intro t k v kvs s9 r s2m henc1 e s3b henc2 ih1 ih2 htok htyv hgv pairs s2x hencx
    rw [encodeMap] at hencx
    simp [henc1, henc2] at hencx
  -- 42: map helper, head and tail ok
  · intro t k v kvs s9 r s2m henc1 rs s3b henc2 ih1 ih2 htok htyv hgv pairs s2x hencx
    rw [hasTyVals] at htyv
    rw [GoodVals] at hgv
    simp only [Bool.and_eq_true] at htyv hgv
    rw [encodeMap] at hencx
    simp [henc1, henc2] at hencx
    obtain ⟨rfl, rfl⟩ := hencx
    obtain ⟨hb1, hd1⟩ := ih1 htok htyv.1 hgv.1 r s2m henc1
    obtain ⟨hkeys, hpd⟩ := ih2 htok htyv.2 hgv.2 rs s3b henc2
    have hExt2 : Ext s2m s3b := by
      have h := ext_encodeMap t kvs s2m
      rw [henc2] at h
      exact h
    refine ⟨by simp [hkeys], fun s3 hext3 => ?_⟩
    exact ⟨rfl, hd1 s3 (ext_trans hExt2 hext3), hpd s3 hext3⟩
  -- 43: slice helper, empty
  · intro t s9 htok htyl hgl refs s2x hencx
    rw [encodeSliceOrArray] at hencx
    simp only [Prod.mk.injEq, Except.ok.injEq] at hencx
    obtain ⟨rfl, rfl⟩ := hencx
    exact ⟨rfl, fun s3 _ => by rw [buildSliceElems]⟩
  -- 44: slice helper, head error (never reaches ok)
  · intro t v vs s9 e s2 henc ih htok htyl hgl refs s2x hencx
    rw [encodeSliceOrArray] at hencx
    simp [henc] at hencx
  -- 45: slice helper, head ok but tail fails (never reaches ok)
  · intro t v vs s9 r s2m henc1 e s3b henc2 ih1 ih2 htok htyl hgl refs s2x hencx
    rw [encodeSliceOrArray] at hencx
    simp [henc1, henc2] at hencx
  -- 46: slice helper, head and tail ok
  · intro t v vs s9 r s2m henc1 rs s3b henc2 ih1 ih2 htok htyl hgl refs s2x hencx
    rw [hasTyList] at htyl
    rw [GoodList] at hgl
    simp only [Bool.and_eq_true] at htyl hgl
    rw [encodeSliceOrArray] at hencx
    simp [henc1, henc2] at hencx
    obtain ⟨rfl, rfl⟩ := hencx
    obtain ⟨hb1, hd1⟩ := ih1 htok htyl.1 hgl.1 r s2m henc1
    obtain ⟨hlen2, hbuild2⟩ := ih2 htok htyl.2 hgl.2 rs s3b henc2
    have hExt2 : Ext s2m s3b := by
      have h := ext_encodeSliceOrArray t vs s2m
      rw [henc2] at h
      exact h
    refine ⟨by simp [hlen2], fun s3 hext3 => ?_⟩
    rw [buildSliceElems, hd1 s3 (ext_trans hExt2 hext3), hbuild2 s3 hext3]

/-! ## Evaluating `parseTag` on concrete tags -/

set_option maxRecDepth 8000 in
theorem splitOn_comma_omitempty : ",omitempty".splitOn "," = ["", "omitempty"] := by
  rw [String.splitOn]
  repeat (first
    | rfl
    | decide
    | (rw [String.splitOnAux]
       repeat (first
         | rw [if_pos (by decide)]
         | rw [if_neg (by decide)])))

set_option maxRecDepth 8000 in
theorem splitOn_comma_inline : ",inline".splitOn "," = ["", "inline"] := by
  rw [String.splitOn]
  repeat (first
    | rfl
    | decide
    | (rw [String.splitOnAux]
       repeat (first
         | rw [if_pos (by decide)]
         | rw [if_neg (by decide)])))

theorem parseTag_M_omitempty :
    parseTag ("M", some ",omitempty", Ty.tmap .tbool) = ("M", { omitEmpty := true }) := by
  rw [parseTag]
  simp only [fldTag, fldName]
  rw [if_neg (by decide), if_neg (by decide), splitOn_comma_omitempty]
  rfl

theorem parseTag_N_inline :
    parseTag ("N", some ",inline", Ty.tbool) = ("N", { inline := true }) := by
  rw [parseTag]
  simp only [fldTag, fldName]
  rw [if_neg (by decide), if_neg (by decide), splitOn_comma_inline]
  rfl

/-! ## Claim theorems -/

/-- C7: Encoding is deterministic and idempotent over the
content-addressed store: for every value, a second `Encode` against the
store left by the first returns the same outcome (the same `Ref`, or
the same error) and leaves the store exactly as the first call left it,
so the repeat stores no new content; moreover the outcome never depends
on the prior store contents at all. -/
theorem C7_encode_deterministic_idempotent (t : Ty) (v : Value) (s s' : Store) :
    (Encode t v ((Encode t v s).2)).1 = (Encode t v s).1 ∧
    (Encode t v ((Encode t v s).2)).2 = (Encode t v s).2 ∧
    (Encode t v s').1 = (Encode t v s).1 := by
  have hp := encode_store_props.1 t v []
  obtain ⟨L, hL⟩ := hp.2
  exact ⟨hp.1 _ _, by rw [hL, hL, pushAll_idem], hp.1 _ _⟩

/-- C3: Boolean boundary. Encoding `false` stores the zero-length blob
and encoding `true` stores the 4-byte blob `"true"`; decoding into a
boolean destination succeeds whenever the fetch does and yields `true`
exactly when the fetched blob's bytes are non-empty, whatever they
are. -/
theorem C3_bool_boundary :
    (∀ s : Store, Encode .tbool (.vbool false) s = recvOk (.raw "") s) ∧
    (blobBytes (.raw "")).length = 0 ∧
    (∀ s : Store, Encode .tbool (.vbool true) s = recvOk (.raw "true") s) ∧
    (blobBytes (.raw "true")).length = 4 ∧
    (∀ (ref : Ref) (old : Value) (s : Store) (b : Blob), fetchBlob ref s = .ok b →
      Decode .tbool ref old s = .ok (.vbool (decide (0 < (blobBytes b).length))) ∧
      (Decode .tbool ref old s = .ok (.vbool true) ↔ 0 < (blobBytes b).length)) := by
  refine ⟨fun s => by simp [Encode], rfl, fun s => by simp [Encode], rfl,
    fun ref old s b hfetch => ?_⟩
  rw [Decode, hfetch]
  constructor
  · rfl
  · by_cases h : 0 < (blobBytes b).length <;> simp [h]

/-- Witness for C3: a store holding the one-byte blob `"x"`; decoding
it as a boolean yields `true`. -/
theorem C3_bool_boundary_witness :
    fetchBlob (Blob.raw "x") [Blob.raw "x"] = .ok (Blob.raw "x") ∧
    (Decode .tbool (.raw "x") (.vbool false) [Blob.raw "x"] = .ok (.vbool true) ↔
      0 < (blobBytes (Blob.raw "x")).length) := by
  have hfetch : fetchBlob (Blob.raw "x") [Blob.raw "x"] = .ok (Blob.raw "x") := by
    simp [fetchBlob, hasBlob, beqBlob]
  exact ⟨hfetch,
    (C3_bool_boundary.2.2.2.2 (.raw "x") (.vbool false) [Blob.raw "x"] (.raw "x") hfetch).2⟩

/-- C9: Decode destination validation. The custom `Unmarshaler` check
comes first and its verdict is returned verbatim; otherwise a
non-pointer destination fails with `ErrNotPointer` and a nil pointer
with `ErrNilPointer` — in all three cases uniformly in the store (for
any ref, even one the store does not hold), i.e. before anything is
fetched. -/
theorem C9_decode_validation (ref : Ref) (s : Store) :
    (∀ verdict : Except Err Unit,
      DecodeObj (.custom verdict) ref s = verdict.map (fun _ => none) ∧
      DecodeObj (.custom verdict) ref s = DecodeObj (.custom verdict) ref []) ∧
    (DecodeObj .notPtr ref s = .error .notPointer) ∧
    (DecodeObj .nilPtr ref s = .error .nilPointer) :=
  ⟨fun verdict => ⟨rfl, rfl⟩, rfl, rfl⟩

/-- Statement scaffolding for C8: a chain of `k` additional pointer
indirections on top of a type/value pair. -/
def nestPtr : Nat → Ty → Ty
  | 0, t => t
  | k + 1, t => .tptr (nestPtr k t)

def nestSome : Nat → Value → Value
  | 0, v => v
  | k + 1, v => .vptr (some (nestSome k v))

/-- C8: A value whose chain of pointer indirections terminates in a nil
pointer encodes to the unsupported-type error (the anonymous pointer
type's `Name()` is the empty string), and the store is left exactly as
it was: nothing is stored. -/
theorem C8_nil_pointer_chain (k : Nat) (t : Ty) (s : Store) :
    Encode (nestPtr k (.tptr t)) (nestSome k (.vptr none)) s =
      (.error (.unsupportedType ""), s) := by
  induction k with
  | zero => simp [nestPtr, nestSome, Encode]
  | succ k ih => simpa [nestPtr, nestSome, Encode] using ih

/-- C4 counterexample: encoding a nil sequence does store the empty
blob, but decoding the empty blob into a slice destination does not
yield a nil slice — `json.Decoder.Decode` on empty input fails with
`io.EOF`, so `Decode` returns that error. -/
theorem C4_counterexample :
    Encode (.tslice .tbool) (.vslice true []) [] = (.ok (.raw ""), [.raw ""]) ∧
    Decode (.tslice .tbool) (.raw "") (zeroVal (.tslice .tbool)) [.raw ""] =
      .error .eof := by
  constructor
  · simp [Encode, recvOk, receiveBlob, hasBlob]
  · rw [Decode]
    simp [fetchBlob, hasBlob, beqBlob, refsOfBlob]

/-- C4 (amended): encoding a nil slice or nil map stores the empty
blob; decoding the empty blob into a slice destination does not produce
a sequence at all but fails with the `io.EOF` error (the `null`/absent
result the spec describes would require the blob to hold JSON `null`,
not to be empty). -/
theorem C4_nil_sequence (t : Ty) (old : Value) (s : Store) :
    (∀ xs : List Value, Encode (.tslice t) (.vslice true xs) s = recvOk (.raw "") s) ∧
    (∀ kvs : List (String × Value), Encode (.tmap t) (.vmap true kvs) s = recvOk (.raw "") s) ∧
    (hasBlob s (.raw "") = true →
      Decode (.tslice t) (.raw "") old s = .error .eof) := by
  refine ⟨fun xs => by simp [Encode], fun kvs => by simp [Encode], fun h => ?_⟩
  rw [Decode, fetchBlob_ok _ _ h]
  simp [refsOfBlob]

/-- Witness for C4: the concrete store holding just the empty blob. -/
theorem C4_nil_sequence_witness :
    hasBlob [Blob.raw ""] (.raw "") = true ∧
    Decode (.tslice .tbool) (.raw "") (.vbool false) [Blob.raw ""] = .error .eof :=
  ⟨by simp [hasBlob, beqBlob], (C4_nil_sequence .tbool (.vbool false) [Blob.raw ""]).2.2
    (by simp [hasBlob, beqBlob])⟩

/-- C5: Fixed-length sequence decode. Excess refs beyond the array
length are ignored (`buildArray` decodes only `take n`), and when the
ref list is shorter than the array every remaining slot is the element
type's zero value, the in-range slots being decoded recursively in
order (the element loop `buildSliceElems`). -/
theorem C5_buildArray (et : Ty) (n : Nat) (refs : List Ref) (s : Store) :
    buildArrayElems et n refs s = buildArrayElems et n (refs.take n) s ∧
    (refs.length ≤ n →
      buildArrayElems et n refs s =
        (buildSliceElems et refs s).map
          (fun vs => vs ++ List.replicate (n - refs.length) (zeroVal et))) := by
  constructor
  · induction n generalizing refs with
    | zero => rw [buildArrayElems, buildArrayElems]
    | succ n2 ih =>
      cases refs with
      | nil => rfl
      | cons r rs =>
        rw [buildArrayElems, List.take_succ_cons, buildArrayElems]
        cases hd : Decode et r (zeroVal et) s with
        | error e => rfl
        | ok v => rw [ih rs]
  · induction refs generalizing n with
    | nil =>
      intro _
      cases n with
      | zero => rw [buildArrayElems, buildSliceElems]; simp [Except.map]
      | succ n2 => rw [buildArrayElems, buildSliceElems]; simp [Except.map]
    | cons r rs ih =>
      intro hlen
      cases n with
      | zero => simp at hlen
      | succ n2 =>
        rw [buildArrayElems, buildSliceElems]
        cases hd : Decode et r (zeroVal et) s with
        | error e => rfl
        | ok v =>
          rw [ih n2 (by simpa using hlen)]
          cases hs : buildSliceElems et rs s with
          | error e => rfl
          | ok vs =>
            simp [Except.map]

/-- Witness for C5: a one-ref list into a length-2 boolean array
zero-fills the second slot. -/
theorem C5_buildArray_witness :
    [Blob.raw "t"].length ≤ 2 ∧
    buildArrayElems .tbool 2 [Blob.raw "t"] [Blob.raw "t"] =
      (buildSliceElems .tbool [Blob.raw "t"] [Blob.raw "t"]).map
        (fun vs => vs ++ List.replicate (2 - [Blob.raw "t"].length) (zeroVal .tbool)) :=
  ⟨by decide, (C5_buildArray .tbool 2 [Blob.raw "t"] [Blob.raw "t"]).2 (by decide)⟩

/-- C10: Decoding a mapping merges into the destination map. Given the
stored key→ref object with (Go-map) distinct keys, a successful
`buildMap` run leaves every pre-existing entry whose key is absent from
the stored object unchanged and sets exactly the stored keys, each to
its recursively decoded value. -/
theorem C10_buildMap_merge (et : Ty) (refsMap : List (String × Ref))
    (acc out : List (String × Value)) (s : Store)
    (hdist : distinctList (refsMap.map Prod.fst) = true)
    (h : buildMapEntries et acc refsMap s = .ok out) :
    (∀ k, k ∉ refsMap.map Prod.fst → lookupKey k out = lookupKey k acc) ∧
    (∀ k r, (k, r) ∈ refsMap →
      ∃ item, Decode et r (zeroVal et) s = .ok item ∧ lookupKey k out = some item) := by
  induction refsMap generalizing acc with
  | nil =>
    rw [buildMapEntries] at h
    cases h
    exact ⟨fun k _ => rfl, fun k r hk => absurd hk (List.not_mem_nil _)⟩
  | cons kr rest ih =>
    obtain ⟨k0, r0⟩ := kr
    rw [buildMapEntries] at h
    cases hd : Decode et r0 (zeroVal et) s with
    | error e => rw [hd] at h; cases h
    | ok item0 =>
      rw [hd] at h
      change buildMapEntries et (setKey k0 item0 acc) rest s = Except.ok out at h
      simp only [List.map_cons, distinctList, Bool.and_eq_true] at hdist
      obtain ⟨hnotin, hdrest⟩ := hdist
      simp at hnotin
      have hk0 : k0 ∉ List.map Prod.fst rest := by simpa using hnotin
      obtain ⟨ihA, ihB⟩ := ih (setKey k0 item0 acc) hdrest h
      constructor
      · intro k hk
        simp only [List.map_cons, List.mem_cons, not_or] at hk
        rw [ihA k hk.2, lookupKey_setKey_ne _ _ _ _ (Ne.symm hk.1)]
      · intro k r hk
        rcases List.mem_cons.mp hk with heq | hmem
        · injection heq with h1 h2
          subst h1
          subst h2
          refine ⟨item0, hd, ?_⟩
          rw [ihA _ hk0, lookupKey_setKey_eq]
        · exact ihB k r hmem

/-- Witness for C10: merging the stored key `b` into a map already
holding key `a`. -/
theorem C10_buildMap_merge_witness :
    distinctList ([("b", Blob.raw "t")].map Prod.fst) = true ∧
    buildMapEntries .tbool [("a", Value.vbool false)] [("b", Blob.raw "t")] [Blob.raw "t"] =
      .ok [("a", Value.vbool false), ("b", Value.vbool true)] ∧
    ((∀ k, k ∉ [("b", Blob.raw "t")].map Prod.fst →
        lookupKey k [("a", Value.vbool false), ("b", Value.vbool true)] =
          lookupKey k [("a", Value.vbool false)]) ∧
      (∀ k r, (k, r) ∈ [("b", Blob.raw "t")] →
        ∃ item, Decode .tbool r (zeroVal .tbool) [Blob.raw "t"] = .ok item ∧
          lookupKey k [("a", Value.vbool false), ("b", Value.vbool true)] = some item)) := by
  have hrun : buildMapEntries .tbool [("a", Value.vbool false)] [("b", Blob.raw "t")]
      [Blob.raw "t"] = .ok [("a", Value.vbool false), ("b", Value.vbool true)] := by
    rw [buildMapEntries, Decode]
    simp [fetchBlob, hasBlob, beqBlob, blobBytes, setKey, buildMapEntries]
    decide
  exact ⟨by decide, hrun,
    C10_buildMap_merge .tbool [("b", Blob.raw "t")] [("a", Value.vbool false)]
      [("a", Value.vbool false), ("b", Value.vbool true)] [Blob.raw "t"] (by decide) hrun⟩

/-- The intermediate shape exactly as C2's spec sentence describes it
(spec-modelled): a non-external fixed-length array field would "keep
its container shape" with element type forced to `Ref` — a Ref *array*
of the same length. -/
inductive SpecITy where
  | iorig (t : Ty)
  | isliceRef
  | iarrRef (n : Nat)
  | imapRef
  | irefTy

/-- The spec's words for the intermediate field shape, for comparison
with the code's `intermediateFieldTy`. -/
def specIntermediateFieldTy (f : Fld) : SpecITy :=
  let p := parseTag f
  if p.2.«omit» || p.2.inline then .iorig (fldTy f)
  else if !p.2.external then
    match fldTy f with
    | .tslice _ => .isliceRef
    | .tarray n _ => .iarrRef n
    | .tmap _ => .imapRef
    | _ => .irefTy
  else .irefTy

/-- Reading the code's intermediate shapes as spec shapes (the code
never produces a Ref-array shape: `reflect.SliceOf(reftype) // sic, not
ArrayOf`). -/
def ityToSpec : ITy → SpecITy
  | .iorig t => .iorig t
  | .isliceRef => .isliceRef
  | .imapRef => .imapRef
  | .irefTy => .irefTy

/-- C2 counterexample: for a plain fixed-length array field the code
builds a `[]blob.Ref` slot (`reflect.SliceOf`, not `ArrayOf`), while
the spec's "keep their container shape" words call for a Ref array of
the same length. -/
theorem C2_counterexample :
    intermediateFieldTy ("A", none, .tarray 2 .tbool) = .isliceRef ∧
    specIntermediateFieldTy ("A", none, .tarray 2 .tbool) = .iarrRef 2 ∧
    ityToSpec (intermediateFieldTy ("A", none, .tarray 2 .tbool)) ≠
      specIntermediateFieldTy ("A", none, .tarray 2 .tbool) :=
  ⟨rfl, rfl, fun h => SpecITy.noConfusion h⟩

/-- C2 (amended): the decoder's intermediate struct shape matches the
spec's description for every field, except that a non-external
fixed-length array field becomes a Ref *slice* slot (the same shape as
a slice field), not a Ref array. -/
theorem C2_intermediate_shape (f : Fld) :
    intermediateFieldTy f =
      (match specIntermediateFieldTy f with
       | .iorig t => .iorig t
       | .isliceRef => .isliceRef
       | .iarrRef _ => .isliceRef
       | .imapRef => .imapRef
       | .irefTy => .irefTy) := by
  obtain ⟨nm, tg, ft⟩ := f
  cases ft <;> simp only [intermediateFieldTy, specIntermediateFieldTy] <;>
    split <;> first | rfl | (split <;> rfl)

/-- C1 counterexample: the unrestricted round-trip law fails. An empty
but non-nil slice is well-typed, encodes to the empty ref list (stored
as JSON `null`, because the encoder's `[]blob.Ref` accumulator is never
`append`ed to), and decodes back as a *nil* slice — not the original
non-nil empty slice. -/
theorem C1_counterexample :
    ∃ (t : Ty) (v : Value) (s : Store) (r : Ref) (s2 : Store),
      hasTy t v = true ∧ Encode t v s = (.ok r, s2) ∧
      Decode t r (zeroVal t) s2 ≠ .ok v := by
  refine ⟨.tslice .tbool, .vslice false [], [], .json .null, [.json .null], ?_, ?_, ?_⟩
  · simp [hasTy, hasTyList]
  · simp [Encode, encodeSliceOrArray, refsArrJval, recvOk, receiveBlob, hasBlob]
  · have hdec : Decode (.tslice .tbool) (.json .null) (zeroVal (.tslice .tbool))
        [Blob.json .null] = .ok (.vslice true []) := by
      rw [Decode_slice_eval, fetchBlob_ok _ _ (by simp [hasBlob, beqBlob, beqJval])]
      simp [refsOfBlob, buildSliceElems, zeroVal, sliceIsNil, Except.map]
    rw [hdec]
    simp

/-- C1 (amended): the round-trip law `Decode (Encode v) = v` holds on
the faithful domain: well-formed destination types (`TyOK`: distinct Go
field names and distinct stored names at every struct level), and
well-typed values (`hasTy`) that are `Good` — integers within their
bit-width's range, no nil pointer anywhere, slices non-nil and
non-empty, maps non-nil with canonically sorted keys, skipped struct
fields at their zero value, and omitempty struct fields that hold their
zero value not of non-external map shape. On that domain the ref
returned by `Encode` decodes — against the store `Encode` left — back
to exactly the encoded value. -/
theorem C1_roundtrip (t : Ty) (v : Value) (s : Store)
    (htok : TyOK t = true) (hty : hasTy t v = true) (hgood : Good t v = true)
    (r : Ref) (s2 : Store) (henc : Encode t v s = (.ok r, s2)) :
    Decode t r (zeroVal t) s2 = .ok v :=
  ((encode_roundtrip_main.1 t v s htok hty hgood r s2 henc).2) s2 (ext_refl s2)

theorem C1_roundtrip_witness :
    Decode .tbool (.raw "true") (zeroVal .tbool) [Blob.raw "true"] = .ok (.vbool true) :=
  C1_roundtrip .tbool (.vbool true) [] (by simp [TyOK]) (by simp [hasTy]) (by simp [Good])
    (.raw "true") [Blob.raw "true"] (by simp [Encode, recvOk, receiveBlob, hasBlob])

/-- C6 (amended): the per-field policy. (1) A skipped (`pk:"-"`) field
contributes no entry to the encoded object, and (2) its destination is
left untouched by decode regardless of the intermediate slot's
contents. (3) An `omitempty` field holding its type's zero value
contributes no entry. (4) An absent key decodes to the field type's
zero value — except for a non-inline, non-external map field, which
`buildMap`'s unconditional allocation turns into an *empty non-nil*
map. (5) An `inline` field's entry is its literal JSON encoding, with
no blob written (the store comes back unchanged), and (6) an inline
slot decodes to its value without consulting the store (the result is
the same against any store). -/
theorem C6_field_policy :
    (∀ (f : Fld) (fs : List Fld) (v : Value) (vs : List Value) (s : Store),
      (parseTag f).2.«omit» = true →
      encodeStructFields (f :: fs) (v :: vs) s = encodeStructFields fs vs s) ∧
    (∀ (f : Fld) (iv : IVal) (oldf : Value) (s : Store),
      (parseTag f).2.«omit» = true → decodeField1 f iv oldf s = .ok oldf) ∧
    (∀ (f : Fld) (fs : List Fld) (v : Value) (vs : List Value) (s : Store),
      (parseTag f).2.«omit» = false →
      ((parseTag f).2.omitEmpty && isZeroV v) = true →
      encodeStructFields (f :: fs) (v :: vs) s = encodeStructFields fs vs s) ∧
    (∀ (f : Fld) (kvs' : List (String × Jval)) (s : Store),
      (parseTag f).2.«omit» = false →
      lookupKey (parseTag f).1 kvs' = none →
      ∃ iv, parseIField f kvs' = .ok iv ∧
        decodeField1 f iv (zeroVal (fldTy f)) s =
          .ok (if !(parseTag f).2.inline && isNonExtMapFld f then .vmap false []
               else zeroVal (fldTy f))) ∧
    (∀ (f : Fld) (v : Value) (s : Store),
      (parseTag f).2.inline = true →
      encodeStructField1 f v s = (.ok (jencode (fldTy f) v), s)) ∧
    (∀ (f : Fld) (w oldf : Value) (s s' : Store),
      (parseTag f).2.«omit» = false → (parseTag f).2.inline = true →
      decodeField1 f (.ival w) oldf s = .ok w ∧
      decodeField1 f (.ival w) oldf s = decodeField1 f (.ival w) oldf s') := by
  refine ⟨?_, ?_, ?_, ?_, ?_, ?_⟩
  · intro f fs v vs s h
    rw [encodeStructFields]
    simp [h]
  · intro f iv oldf s h
    exact decodeField1_omit f iv oldf s h
  · intro f fs v vs s h1 h2
    rw [encodeStructFields]
    simp [h1, h2]
  · intro f kvs' s h1 h2
    exact absent_key_decode f kvs' s h1 h2
  · intro f v s h
    exact encodeStructField1_inline f v s h
  · intro f w oldf s s' h1 h2
    exact ⟨decodeField1_inline f w oldf s h1 h2,
      by rw [decodeField1_inline f w oldf s h1 h2, decodeField1_inline f w oldf s' h1 h2]⟩

theorem C6_field_policy_witness :
    (encodeStructFields [("S", some "-", Ty.tbool)] [Value.vbool true] [] =
      encodeStructFields [] [] []) ∧
    (decodeField1 ("S", some "-", Ty.tbool) (.irefs []) (.vbool false) [] =
      .ok (.vbool false)) ∧
    (encodeStructFields [("M", some ",omitempty", Ty.tmap .tbool)] [Value.vmap true []] [] =
      encodeStructFields [] [] []) ∧
    (∃ iv, parseIField ("M", some ",omitempty", Ty.tmap .tbool) [] = .ok iv ∧
      decodeField1 ("M", some ",omitempty", Ty.tmap .tbool) iv
          (zeroVal (fldTy ("M", some ",omitempty", Ty.tmap .tbool))) [] =
        .ok (if !(parseTag ("M", some ",omitempty", Ty.tmap .tbool)).2.inline &&
                isNonExtMapFld ("M", some ",omitempty", Ty.tmap .tbool)
             then .vmap false []
             else zeroVal (fldTy ("M", some ",omitempty", Ty.tmap .tbool)))) ∧
    (encodeStructField1 ("N", some ",inline", Ty.tbool) (.vbool true) [] =
      (.ok (jencode (fldTy ("N", some ",inline", Ty.tbool)) (.vbool true)), [])) ∧
    (decodeField1 ("N", some ",inline", Ty.tbool) (.ival (.vbool true)) (.vbool false) [] =
      .ok (.vbool true)) := by
  refine ⟨?_, ?_, ?_, ?_, ?_, ?_⟩
  · exact C6_field_policy.1 ("S", some "-", Ty.tbool) [] (.vbool true) [] [] (by decide)
  · exact C6_field_policy.2.1 ("S", some "-", Ty.tbool) (.irefs []) (.vbool false) []
      (by decide)
  · exact C6_field_policy.2.2.1 ("M", some ",omitempty", Ty.tmap .tbool) [] (.vmap true [])
      [] [] (by rw [parseTag_M_omitempty]) (by rw [parseTag_M_omitempty]; rfl)
  · exact C6_field_policy.2.2.2.1 ("M", some ",omitempty", Ty.tmap .tbool) [] []
      (by rw [parseTag_M_omitempty]) rfl
  · exact C6_field_policy.2.2.2.2.1 ("N", some ",inline", Ty.tbool) (.vbool true) []
      (by rw [parseTag_N_inline])
  · exact (C6_field_policy.2.2.2.2.2 ("N", some ",inline", Ty.tbool) (.vbool true)
      (.vbool false) [] [] (by rw [parseTag_N_inline]) (by rw [parseTag_N_inline])).1

/-- C6 counterexample: an `omitempty` field of non-external map type
whose key is absent does *not* decode to the zero value: `buildMap`
allocates, so the destination ends up an empty non-nil map, while the
type's zero value is the nil map. -/
theorem C6_counterexample :
    (parseTag ("M", some ",omitempty", Ty.tmap .tbool)).2.«omit» = false ∧
    (parseTag ("M", some ",omitempty", Ty.tmap .tbool)).2.omitEmpty = true ∧
    parseIField ("M", some ",omitempty", Ty.tmap .tbool) [] = .ok (.irefmap []) ∧
    decodeField1 ("M", some ",omitempty", Ty.tmap .tbool) (.irefmap [])
      (zeroVal (fldTy ("M", some ",omitempty", Ty.tmap .tbool))) [] =
      .ok (.vmap false []) ∧
    Value.vmap false [] ≠ zeroVal (fldTy ("M", some ",omitempty", Ty.tmap .tbool)) := by
  have homit : (parseTag ("M", some ",omitempty", Ty.tmap .tbool)).2.«omit» = false := by
    rw [parseTag_M_omitempty]
  have hinl : (parseTag ("M", some ",omitempty", Ty.tmap .tbool)).2.inline = false := by
    rw [parseTag_M_omitempty]
  have hext : (parseTag ("M", some ",omitempty", Ty.tmap .tbool)).2.external = false := by
    rw [parseTag_M_omitempty]
  have hsh := intermediateFieldTy_map ("M", some ",omitempty", Ty.tmap .tbool) .tbool rfl
    homit hinl hext
  refine ⟨homit, by rw [parseTag_M_omitempty], ?_, ?_, by simp [zeroVal]⟩
  · rw [parseIField, hsh]
    rfl
  · rw [decodeField1_map ("M", some ",omitempty", Ty.tmap .tbool) .tbool rfl []
      (zeroVal (fldTy ("M", some ",omitempty", Ty.tmap .tbool))) [] homit hinl hext]
    rw [buildMapEntries]
    simp [zeroVal, mapEntries, Except.map]

end Pk
